import Mathlib

set_option maxRecDepth 200000

attribute [local semireducible] Rat.mul Rat.add Rat.sub Rat.inv Rat.ofScientific

/-!
Verification development for the goxel sparse voxel store (`src/mesh.c`).

The repository ships a single source file, `src/mesh.c`, which implements the
volume ("mesh") layer: a hash table of fixed-size blocks with copy-on-write
sharing, a painter dispatcher, point access, blit, move, extrude and merge.
The chunk ("block") module, the box/matrix math module and the `goxel.h`
header (with `BLOCK_SIZE` and the `goxel->next_uid` global) are not part of
the repository; every definition that models one of those is marked
`Modelled from the spec:` in its doc comment and follows the wording of
`spec.md`.  Everything else is a direct translation of `src/mesh.c`.

Modelling conventions:
  * Machine integers are `Int`/`Nat`; geometry is exact rational arithmetic.
  * Blocks live in an explicit pointer heap (`MemState.heap`), so that the
    copy-on-write discipline of `mesh_prepare_write` (which protects a mesh
    from mutations of its clones) is an actual theorem and not an artefact
    of value semantics.  The `mesh->ref` cells live in `MemState.refs`.
  * `mesh_t` structs are never aliased by the C code (`mesh_copy` allocates
    a new struct), so meshes are plain values (`Mesh`).
  * Freeing memory is not observable through live handles, so `block_delete`
    and the final free in `mesh_delete` leave the heap unchanged.
  * The spec (§4.4) explicitly allows the chunk payload to be cloned eagerly
    on table forks, so `block_copy` is a deep value copy (same samples, same
    block id, fresh pointer), as inserted by `mesh_prepare_write`.
-/

/-- Block side length.  `BLOCK_SIZE` is defined in the missing `goxel.h`;
Modelled from the spec: "a cubical tile of side `N` (a compile-time
constant, typically 16)". -/
def N : ℕ := 16

/-- Integer 3-vector (voxel positions, block origins). -/
structure V3i where
  x : ℤ
  y : ℤ
  z : ℤ
deriving DecidableEq, Repr

/-- Rational 3-vector (geometry points). -/
structure V3q where
  x : ℚ
  y : ℚ
  z : ℚ
deriving DecidableEq, Repr

/-- An RGBA sample, 8 bits per channel (alpha 0 = no voxel). -/
structure RGBA where
  r : ℕ
  g : ℕ
  b : ℕ
  a : ℕ
deriving DecidableEq, Repr

/-- The transparent sample returned for missing blocks. -/
def rgbaZero : RGBA := ⟨0, 0, 0, 0⟩

def v3iToQ (p : V3i) : V3q := ⟨(p.x : ℚ), (p.y : ℚ), (p.z : ℚ)⟩

/-- The `mod` helper of `src/mesh.c` (lines 64-68): C `%` truncates toward
zero (`Int.tmod`); a negative remainder is corrected by adding `b`. -/
def cmod (a b : ℤ) : ℤ :=
  let r := Int.tmod a b
  if r < 0 then r + b else r

/-- Computable minimum on the rationals (kernel-reducible). -/
def qmin (a b : ℚ) : ℚ := if a ≤ b then a else b

/-- Computable maximum on the rationals (kernel-reducible). -/
def qmax (a b : ℚ) : ℚ := if b ≤ a then a else b

/-- Computable absolute value on the rationals (kernel-reducible). -/
def qabs (a : ℚ) : ℚ := if a < 0 then -a else a

/-- Computable minimum on the integers (kernel-reducible). -/
def imin (a b : ℤ) : ℤ := if a ≤ b then a else b

/-- Computable maximum on the integers (kernel-reducible). -/
def imax (a b : ℤ) : ℤ := if b ≤ a then a else b

/-- C `round`: round half away from zero (used by `mesh_move_get_color`).
Modelled from the spec: nearest-neighbor sampling rounds coordinates. -/
def cround (q : ℚ) : ℤ :=
  if 0 ≤ q then ⌊q + 1/2⌋ else -⌊-q + 1/2⌋

/-- Round a rational to an 8-bit channel value (clamped to 0..255).
Modelled from the spec: the mode table of §4.3 works with a brush alpha in
`[0,1]`; sample channels are 8-bit. -/
def qu8 (q : ℚ) : ℕ :=
  (imin (imax (cround q) 0) 255).toNat

/-- A 4×4 rational matrix, written out by entries (row `i`, column `j`).
Modelled from the spec: the external 4×4 matrix math module. -/
structure Mat4 where
  a00 : ℚ
  a01 : ℚ
  a02 : ℚ
  a03 : ℚ
  a10 : ℚ
  a11 : ℚ
  a12 : ℚ
  a13 : ℚ
  a20 : ℚ
  a21 : ℚ
  a22 : ℚ
  a23 : ℚ
  a30 : ℚ
  a31 : ℚ
  a32 : ℚ
  a33 : ℚ
deriving DecidableEq, Repr

/-- Modelled from the spec: the identity matrix `mat4_identity`. -/
def mat4_identity : Mat4 :=
  ⟨1, 0, 0, 0,
   0, 1, 0, 0,
   0, 0, 1, 0,
   0, 0, 0, 1⟩

/-- Modelled from the spec: matrix product (`mat4_mul`; `mat4_imul a b`
stores `a * b` back into `a`). -/
def mat4_mul (p q : Mat4) : Mat4 :=
  ⟨p.a00 * q.a00 + p.a01 * q.a10 + p.a02 * q.a20 + p.a03 * q.a30,
   p.a00 * q.a01 + p.a01 * q.a11 + p.a02 * q.a21 + p.a03 * q.a31,
   p.a00 * q.a02 + p.a01 * q.a12 + p.a02 * q.a22 + p.a03 * q.a32,
   p.a00 * q.a03 + p.a01 * q.a13 + p.a02 * q.a23 + p.a03 * q.a33,
   p.a10 * q.a00 + p.a11 * q.a10 + p.a12 * q.a20 + p.a13 * q.a30,
   p.a10 * q.a01 + p.a11 * q.a11 + p.a12 * q.a21 + p.a13 * q.a31,
   p.a10 * q.a02 + p.a11 * q.a12 + p.a12 * q.a22 + p.a13 * q.a32,
   p.a10 * q.a03 + p.a11 * q.a13 + p.a12 * q.a23 + p.a13 * q.a33,
   p.a20 * q.a00 + p.a21 * q.a10 + p.a22 * q.a20 + p.a23 * q.a30,
   p.a20 * q.a01 + p.a21 * q.a11 + p.a22 * q.a21 + p.a23 * q.a31,
   p.a20 * q.a02 + p.a21 * q.a12 + p.a22 * q.a22 + p.a23 * q.a32,
   p.a20 * q.a03 + p.a21 * q.a13 + p.a22 * q.a23 + p.a23 * q.a33,
   p.a30 * q.a00 + p.a31 * q.a10 + p.a32 * q.a20 + p.a33 * q.a30,
   p.a30 * q.a01 + p.a31 * q.a11 + p.a32 * q.a21 + p.a33 * q.a31,
   p.a30 * q.a02 + p.a31 * q.a12 + p.a32 * q.a22 + p.a33 * q.a32,
   p.a30 * q.a03 + p.a31 * q.a13 + p.a32 * q.a23 + p.a33 * q.a33⟩

/-- Modelled from the spec: apply an affine 4×4 matrix to a point
(`mat4_mul_vec3` with homogeneous coordinate 1). -/
def mat4_mul_vec3 (m : Mat4) (v : V3q) : V3q :=
  ⟨m.a00 * v.x + m.a01 * v.y + m.a02 * v.z + m.a03,
   m.a10 * v.x + m.a11 * v.y + m.a12 * v.z + m.a13,
   m.a20 * v.x + m.a21 * v.y + m.a22 * v.z + m.a23⟩

/-- Modelled from the spec: `mat4_iscale m x y z` scales the three basis
columns of `m` (equivalently `m * diag(x, y, z, 1)`). -/
def mat4_iscale (m : Mat4) (x y z : ℚ) : Mat4 :=
  ⟨m.a00 * x, m.a01 * y, m.a02 * z, m.a03,
   m.a10 * x, m.a11 * y, m.a12 * z, m.a13,
   m.a20 * x, m.a21 * y, m.a22 * z, m.a23,
   m.a30 * x, m.a31 * y, m.a32 * z, m.a33⟩

/-- Determinant of the upper-left 3×3 part of an affine matrix. -/
def mat4_det3 (m : Mat4) : ℚ :=
  m.a00 * (m.a11 * m.a22 - m.a12 * m.a21)
    - m.a01 * (m.a10 * m.a22 - m.a12 * m.a20)
    + m.a02 * (m.a10 * m.a21 - m.a11 * m.a20)

/-- Modelled from the spec: `mat4_inverted`.  All matrices box transforms are
built from are affine (last row `0 0 0 1`), so the inverse is computed by the
3×3 adjugate formula plus an inverted translation; a singular or non-affine
matrix is returned unchanged (the C code has undefined behaviour there and no
caller in this development hits that case). -/
def mat4_inverted (m : Mat4) : Mat4 :=
  let d := mat4_det3 m
  if d = 0 then m else
  let b00 := (m.a11 * m.a22 - m.a12 * m.a21) / d
  let b01 := (m.a02 * m.a21 - m.a01 * m.a22) / d
  let b02 := (m.a01 * m.a12 - m.a02 * m.a11) / d
  let b10 := (m.a12 * m.a20 - m.a10 * m.a22) / d
  let b11 := (m.a00 * m.a22 - m.a02 * m.a20) / d
  let b12 := (m.a02 * m.a10 - m.a00 * m.a12) / d
  let b20 := (m.a10 * m.a21 - m.a11 * m.a20) / d
  let b21 := (m.a01 * m.a20 - m.a00 * m.a21) / d
  let b22 := (m.a00 * m.a11 - m.a01 * m.a10) / d
  ⟨b00, b01, b02, -(b00 * m.a03 + b01 * m.a13 + b02 * m.a23),
   b10, b11, b12, -(b10 * m.a03 + b11 * m.a13 + b12 * m.a23),
   b20, b21, b22, -(b20 * m.a03 + b21 * m.a13 + b22 * m.a23),
   m.a30, m.a31, m.a32, m.a33⟩

/-- A box: the image of the cube `[-1,1]³` under an affine transform
(`box_t`; the translation column is the center, the basis columns the half
axes).  Modelled from the spec. -/
structure Box where
  mat : Mat4
deriving DecidableEq, Repr

/-- A non-null axis-aligned bounding box, as a pair of corners.
Modelled from the spec: the bbox helpers of the missing box module
(`box_null` is represented by `Option AabbNN = none`). -/
structure AabbNN where
  lo : V3q
  hi : V3q
deriving DecidableEq, Repr

/-- Modelled from the spec: `box_get_bbox` — the axis-aligned bounding box of
the eight corners of a box. -/
def box_get_bbox (b : Box) : AabbNN :=
  let c0 := mat4_mul_vec3 b.mat ⟨-1, -1, -1⟩
  let c1 := mat4_mul_vec3 b.mat ⟨1, -1, -1⟩
  let c2 := mat4_mul_vec3 b.mat ⟨-1, 1, -1⟩
  let c3 := mat4_mul_vec3 b.mat ⟨1, 1, -1⟩
  let c4 := mat4_mul_vec3 b.mat ⟨-1, -1, 1⟩
  let c5 := mat4_mul_vec3 b.mat ⟨1, -1, 1⟩
  let c6 := mat4_mul_vec3 b.mat ⟨-1, 1, 1⟩
  let c7 := mat4_mul_vec3 b.mat ⟨1, 1, 1⟩
  ⟨⟨qmin c0.x (qmin c1.x (qmin c2.x (qmin c3.x (qmin c4.x (qmin c5.x (qmin c6.x c7.x)))))),
    qmin c0.y (qmin c1.y (qmin c2.y (qmin c3.y (qmin c4.y (qmin c5.y (qmin c6.y c7.y)))))),
    qmin c0.z (qmin c1.z (qmin c2.z (qmin c3.z (qmin c4.z (qmin c5.z (qmin c6.z c7.z))))))⟩,
   ⟨qmax c0.x (qmax c1.x (qmax c2.x (qmax c3.x (qmax c4.x (qmax c5.x (qmax c6.x c7.x)))))),
    qmax c0.y (qmax c1.y (qmax c2.y (qmax c3.y (qmax c4.y (qmax c5.y (qmax c6.y c7.y)))))),
    qmax c0.z (qmax c1.z (qmax c2.z (qmax c3.z (qmax c4.z (qmax c5.z (qmax c6.z c7.z))))))⟩⟩

/-- Modelled from the spec: `bbox_grow` — grow a bounding box by the given
amounts on each side. -/
def aabb_grow (a : AabbNN) (x y z : ℚ) : AabbNN :=
  ⟨⟨a.lo.x - x, a.lo.y - y, a.lo.z - z⟩, ⟨a.hi.x + x, a.hi.y + y, a.hi.z + z⟩⟩

/-- Modelled from the spec: `bbox_intersect` — closed-interval overlap test
of two bounding boxes. -/
def aabb_intersects (a b : AabbNN) : Bool :=
  decide (a.lo.x ≤ b.hi.x ∧ b.lo.x ≤ a.hi.x ∧
          a.lo.y ≤ b.hi.y ∧ b.lo.y ≤ a.hi.y ∧
          a.lo.z ≤ b.hi.z ∧ b.lo.z ≤ a.hi.z)

/-- Modelled from the spec: `bbox_intersection`; the result is `none`
(`box_null`) when the boxes do not overlap. -/
def aabb_intersection (a b : AabbNN) : Option AabbNN :=
  let lo : V3q := ⟨qmax a.lo.x b.lo.x, qmax a.lo.y b.lo.y, qmax a.lo.z b.lo.z⟩
  let hi : V3q := ⟨qmin a.hi.x b.hi.x, qmin a.hi.y b.hi.y, qmin a.hi.z b.hi.z⟩
  if lo.x ≤ hi.x ∧ lo.y ≤ hi.y ∧ lo.z ≤ hi.z then some ⟨lo, hi⟩ else none

/-- Modelled from the spec: `bbox_merge` (`box_null` is the neutral
element). -/
def aabb_merge (a : Option AabbNN) (b : Option AabbNN) : Option AabbNN :=
  match a, b with
  | none, b => b
  | a, none => a
  | some a, some b =>
      some ⟨⟨qmin a.lo.x b.lo.x, qmin a.lo.y b.lo.y, qmin a.lo.z b.lo.z⟩,
            ⟨qmax a.hi.x b.hi.x, qmax a.hi.y b.hi.y, qmax a.hi.z b.hi.z⟩⟩

/-- Modelled from the spec: `bbox_contains_vec` — point in bounding box. -/
def aabb_contains_vec (a : AabbNN) (p : V3q) : Bool :=
  decide (a.lo.x ≤ p.x ∧ p.x ≤ a.hi.x ∧ a.lo.y ≤ p.y ∧ p.y ≤ a.hi.y ∧
          a.lo.z ≤ p.z ∧ p.z ≤ a.hi.z)

/-- Is a point inside a box (its preimage under the box transform inside
`[-1,1]³`)?  Modelled from the spec. -/
def box_contains_pt (b : Box) (p : V3q) : Bool :=
  let q := mat4_mul_vec3 (mat4_inverted b.mat) p
  decide (qabs q.x ≤ 1 ∧ qabs q.y ≤ 1 ∧ qabs q.z ≤ 1)

/-- Modelled from the spec: `box_contains outer inner` — every corner of the
axis-aligned `inner` lies inside `outer` (used by the cube/SUB fast path). -/
def box_contains (outer : Box) (inner : AabbNN) : Bool :=
  box_contains_pt outer ⟨inner.lo.x, inner.lo.y, inner.lo.z⟩ &&
  box_contains_pt outer ⟨inner.hi.x, inner.lo.y, inner.lo.z⟩ &&
  box_contains_pt outer ⟨inner.lo.x, inner.hi.y, inner.lo.z⟩ &&
  box_contains_pt outer ⟨inner.hi.x, inner.hi.y, inner.lo.z⟩ &&
  box_contains_pt outer ⟨inner.lo.x, inner.lo.y, inner.hi.z⟩ &&
  box_contains_pt outer ⟨inner.hi.x, inner.lo.y, inner.hi.z⟩ &&
  box_contains_pt outer ⟨inner.lo.x, inner.hi.y, inner.hi.z⟩ &&
  box_contains_pt outer ⟨inner.hi.x, inner.hi.y, inner.hi.z⟩

/-- Modelled from the spec: `mat4_igrow` grows a box by `x`,`y`,`z` on all
axes in its local frame.  Growing by 0 is the identity (the only growth the
claims exercise; a nonzero absolute growth of the half-extent lengths is
irrational in general, so it is approximated by a relative scale). -/
def box_igrow (b : Box) (x y z : ℚ) : Box :=
  if x = 0 ∧ y = 0 ∧ z = 0 then b
  else ⟨mat4_iscale b.mat (1 + x) (1 + y) (1 + z)⟩

/-- Build the `box_t` (center + half extents on the diagonal) representing a
non-null axis-aligned bounding box, as `mesh_move` does when it transforms
the exact bbox of the mesh.  Modelled from the spec. -/
def aabb_to_box (a : AabbNN) : Box :=
  let c : V3q := ⟨(a.lo.x + a.hi.x) / 2, (a.lo.y + a.hi.y) / 2, (a.lo.z + a.hi.z) / 2⟩
  let w : V3q := ⟨(a.hi.x - a.lo.x) / 2, (a.hi.y - a.lo.y) / 2, (a.hi.z - a.lo.z) / 2⟩
  ⟨⟨w.x, 0, 0, c.x,
    0, w.y, 0, c.y,
    0, 0, w.z, c.z,
    0, 0, 0, 1⟩⟩

/-! ## Painter configuration -/

/-- The paint modes of §4.3. -/
inductive Mode where
  | over
  | sub
  | maxm
  | intersect
  | multAlpha
  | replace
deriving DecidableEq, Repr

/-- A shape: the analytic-shape SPI of §6.  The dispatcher only compares the
shape against the cube primitive (`painter->shape == &shape_cube`), captured
by `isCube`.  Modelled from the spec. -/
structure Shape where
  isCube : Bool
  sample : V3q → ℚ → ℚ

/-- Modelled from the spec: the cube shape samples 1 inside `[-1,1]³` and
falls off linearly over the smoothness distance outside. -/
def cube_sample (p : V3q) (smoothness : ℚ) : ℚ :=
  let d := qmax (qabs p.x) (qmax (qabs p.y) (qabs p.z))
  if d ≤ 1 then 1
  else if smoothness = 0 then 0
  else qmax 0 (1 - (d - 1) / smoothness)

/-- The cube shape primitive (`shape_cube`). -/
def shape_cube : Shape := ⟨true, cube_sample⟩

/-- The painter configuration of §4.3:
`{shape, mode, smoothness, color, symmetry_mask, optional clip box}`. -/
structure Painter where
  shape : Shape
  mode : Mode
  smoothness : ℚ
  color : RGBA
  symmetry : ℕ
  box : Option AabbNN

/-- Clear bit `i` (C `x &= ~(1 << i)`). -/
def clearBit (x : ℕ) (i : ℕ) : ℕ :=
  if x.testBit i then x - 2 ^ i else x

/-- Is `mode` one of the constructive modes (`IS_IN(mode, MODE_OVER,
MODE_MAX)`)? -/
def Mode.constructive (m : Mode) : Bool :=
  decide (m = Mode.over ∨ m = Mode.maxm)

/-- Per-sample combination of a brush (color, alpha `k ∈ [0,1]`) with an
existing sample, one case per mode.  Modelled from the spec (§4.3 table). -/
def modeApply (mode : Mode) (color : RGBA) (k : ℚ) (old : RGBA) : RGBA :=
  match mode with
  | Mode.over =>
      ⟨qu8 (color.r * k + old.r * (1 - k)),
       qu8 (color.g * k + old.g * (1 - k)),
       qu8 (color.b * k + old.b * (1 - k)),
       qu8 (255 * k + old.a * (1 - k))⟩
  | Mode.sub => ⟨old.r, old.g, old.b, qu8 (old.a * (1 - k))⟩
  | Mode.maxm =>
      ⟨Nat.max old.r (qu8 (color.r * k)),
       Nat.max old.g (qu8 (color.g * k)),
       Nat.max old.b (qu8 (color.b * k)),
       Nat.max old.a (qu8 (255 * k))⟩
  | Mode.intersect => ⟨old.r, old.g, old.b, Nat.min old.a (qu8 (k * 255))⟩
  | Mode.multAlpha => ⟨old.r, old.g, old.b, qu8 (old.a * k)⟩
  | Mode.replace =>
      if 0 < k then
        ⟨qu8 (color.r * k), qu8 (color.g * k), qu8 (color.b * k), qu8 (255 * k)⟩
      else old

/-! ## Blocks (the chunk module, modelled from the spec) -/

/-- A block (`struct block` plus its payload): an `N³` tile of samples with
an aligned integer origin.  `voxels` is indexed by local coordinates in
`[0,N)³` (the C payload is a flat x-major array).  The payload is cloned
eagerly on copy (allowed by §4.4), so no separate payload refcount is
modelled; `data_id` is not consulted by any claim and is omitted. -/
structure Block where
  pos : V3i
  id : ℕ
  voxels : V3i → RGBA

/-- All local cell coordinates of a block, x fastest (the C array order). -/
def cellList : List V3i :=
  (List.range N).flatMap fun z =>
    (List.range N).flatMap fun y =>
      (List.range N).map fun x => ⟨Int.ofNat x, Int.ofNat y, Int.ofNat z⟩

/-- Modelled from the spec: `block_new` — all samples transparent. -/
def block_new (pos : V3i) : Block :=
  ⟨pos, 0, fun _ => rgbaZero⟩

/-- Modelled from the spec: `block_copy` as used by `mesh_prepare_write` — a
copy of the chunk handle with the same samples (payload cloned eagerly, see
§4.4/§9); the caller allocates the fresh pointer. -/
def block_copy (b : Block) : Block := b

/-- Modelled from the spec: `block_is_empty` — true iff every sample has
alpha 0.  The `fast` flag reads a flag that is valid immediately after a
mutation; both variants are modelled by the exact scan. -/
def block_is_empty (b : Block) (_fast : Bool) : Bool :=
  cellList.all fun lp => (b.voxels lp).a = 0

/-- `block_is_empty` on a possibly-null block (`other` of `block_merge` may
be null and behaves as fully transparent). -/
def block_is_empty_opt (b : Option Block) (fast : Bool) : Bool :=
  match b with
  | none => true
  | some b => block_is_empty b fast

/-- World coordinates of a local cell of a block. -/
def Block.world (b : Block) (lp : V3i) : V3i :=
  ⟨b.pos.x + lp.x, b.pos.y + lp.y, b.pos.z + lp.z⟩

/-- Modelled from the spec: `block_get_at` — world to local translation and
sample read. -/
def block_get_at (b : Block) (pos : V3i) : RGBA :=
  b.voxels ⟨pos.x - b.pos.x, pos.y - b.pos.y, pos.z - b.pos.z⟩

/-- `block_get_at` through a possibly-null block handle: absent blocks read
as transparent black. -/
def block_get_at_opt (b : Option Block) (pos : V3i) : RGBA :=
  match b with
  | none => rgbaZero
  | some b => block_get_at b pos

/-- Modelled from the spec: `block_set_at` — world to local translation and
sample overwrite. -/
def block_set_at (b : Block) (pos : V3i) (v : RGBA) : Block :=
  { b with voxels := fun lp =>
      if lp = (⟨pos.x - b.pos.x, pos.y - b.pos.y, pos.z - b.pos.z⟩ : V3i)
      then v else b.voxels lp }

/-- Modelled from the spec: `block_fill` — overwrite every sample with the
supplied color function evaluated at world coordinates. -/
def block_fill (b : Block) (get_color : V3i → RGBA) : Block :=
  { b with voxels := fun lp => get_color (b.world lp) }

/-- Modelled from the spec: `block_shift_alpha` — saturating add to each
sample's alpha. -/
def block_shift_alpha (b : Block) (v : ℤ) : Block :=
  { b with voxels := fun lp =>
      let old := b.voxels lp
      { old with a := (imin (imax ((old.a : ℤ) + v) 0) 255).toNat } }

/-- Modelled from the spec: `block_op` — rasterize the painter's shape,
transformed by `box.mat`, into the block: each cell samples the shape at the
preimage of its world coordinates and combines per the painter's mode. -/
def block_op (p : Painter) (box : Box) (b : Block) : Block :=
  let im := mat4_inverted box.mat
  { b with voxels := fun lp =>
      let k := p.shape.sample (mat4_mul_vec3 im (v3iToQ (b.world lp))) p.smoothness
      modeApply p.mode p.color k (b.voxels lp) }

/-- Modelled from the spec: `block_merge` — sample-wise combine with a peer
block (null peer = fully transparent); the peer's sample acts as the brush
with alpha `peer.a / 255`. -/
def block_merge (b : Block) (other : Option Block) (mode : Mode) : Block :=
  { b with voxels := fun lp =>
      let o := match other with
        | none => rgbaZero
        | some ob => ob.voxels lp
      modeApply mode ⟨o.r, o.g, o.b, 255⟩ ((o.a : ℚ) / 255) (b.voxels lp) }

/-- Modelled from the spec: `block_get_box block exact`: the full tile box
when not exact; the tight bounding box of the samples with alpha > 0 (null
when none) when exact.  An occupied cell `q` contributes `[q, q+1]³`. -/
def block_get_box (b : Block) (exact : Bool) : Option AabbNN :=
  if exact then
    cellList.foldl
      (fun acc lp =>
        if (b.voxels lp).a ≠ 0 then
          let w := v3iToQ (b.world lp)
          aabb_merge acc (some ⟨w, ⟨w.x + 1, w.y + 1, w.z + 1⟩⟩)
        else acc)
      none
  else
    some ⟨v3iToQ b.pos, ⟨(b.pos.x : ℚ) + (N : ℚ), (b.pos.y : ℚ) + (N : ℚ), (b.pos.z : ℚ) + (N : ℚ)⟩⟩

/-! ## The memory state

Blocks live in a pointer heap so that block-struct sharing between meshes
(the whole point of `mesh_prepare_write`) is explicit.  `refs` models the
heap of `int` cells pointed to by `mesh->ref`; `nextUid` models the
`goxel->next_uid` global counter. -/

/-- The mutable memory the mesh operations act on. -/
structure MemState where
  heap : ℕ → Block
  nextPtr : ℕ
  refs : ℕ → ℕ
  nextRef : ℕ
  nextUid : ℕ

/-- A `mesh_t` struct: the block list (the uthash table head, kept in
insertion order), the next block id, the shared ref cell and the version
id.  Mesh structs are never aliased by the C code, so they are values. -/
structure Mesh where
  blocks : List ℕ
  next_block_id : ℕ
  ref : ℕ
  id : ℕ

/-- Write one heap cell. -/
def MemState.setHeap (s : MemState) (p : ℕ) (b : Block) : MemState :=
  { s with heap := fun q => if q = p then b else s.heap q }

/-- Allocate a fresh block cell. -/
def MemState.allocPtr (s : MemState) (b : Block) : MemState × ℕ :=
  ({ s with heap := fun q => if q = s.nextPtr then b else s.heap q,
            nextPtr := s.nextPtr + 1 }, s.nextPtr)

/-- Write one ref cell. -/
def MemState.setRef (s : MemState) (r : ℕ) (v : ℕ) : MemState :=
  { s with refs := fun q => if q = r then v else s.refs q }

/-- Allocate a fresh ref cell (`calloc` + store). -/
def MemState.allocRef (s : MemState) (v : ℕ) : MemState × ℕ :=
  ({ s with refs := fun q => if q = s.nextRef then v else s.refs q,
            nextRef := s.nextRef + 1 }, s.nextRef)

/-! ## `src/mesh.c`, translated -/

/-- The copy loop of `mesh_prepare_write` (mesh.c:82-86): rebuild the block
list from fresh copies, preserving order (and, per mesh.c:84, block ids). -/
def copyBlocks : List ℕ → MemState → List ℕ → MemState × List ℕ
  | [], s, out => (s, out)
  | q :: rest, s, out =>
      let r := s.allocPtr (block_copy (s.heap q))
      copyBlocks rest r.1 (out ++ [r.2])

/-- `mesh_prepare_write` (mesh.c:70): bump the version id from the global
uid counter; if the block list is shared (`*ref > 1`), release the shared
ref, allocate a fresh one and rebuild the block list from copies. -/
def mesh_prepare_write (s : MemState) (m : Mesh) : MemState × Mesh :=
  let m := { m with id := s.nextUid }
  let s := { s with nextUid := s.nextUid + 1 }
  if s.refs m.ref = 1 then (s, m)
  else
    let s := s.setRef m.ref (s.refs m.ref - 1)
    let ra := s.allocRef 1
    let rb := copyBlocks m.blocks ra.1 []
    (rb.1, { m with blocks := rb.2, ref := ra.2 })

/-- `mesh_remove_empty_blocks` (mesh.c:89). -/
def mesh_remove_empty_blocks (s : MemState) (m : Mesh) : MemState × Mesh :=
  let (s, m) := mesh_prepare_write s m
  (s, { m with blocks := m.blocks.filter fun q => !block_is_empty (s.heap q) false })

/-- `mesh_is_empty` (mesh.c:101): the block table is empty. -/
def mesh_is_empty (m : Mesh) : Bool :=
  m.blocks = []

/-- `mesh_new` (mesh.c:106). -/
def mesh_new (s : MemState) : MemState × Mesh :=
  let (s, r) := s.allocRef 1
  let m : Mesh := { blocks := [], next_block_id := 1, ref := r, id := s.nextUid }
  ({ s with nextUid := s.nextUid + 1 }, m)

/-- `mesh_clear` (mesh.c:128). -/
def mesh_clear (s : MemState) (m : Mesh) : MemState × Mesh :=
  let (s, m) := mesh_prepare_write s m
  (s, { m with blocks := [], next_block_id := 1 })

/-- `mesh_delete` (mesh.c:141): drop one reference; freeing the blocks when
the count reaches 0 does not change any live cell, so only the ref cell is
updated. -/
def mesh_delete (s : MemState) (m : Mesh) : MemState :=
  s.setRef m.ref (s.refs m.ref - 1)

/-- `mesh_copy` (mesh.c:156): the clone shares the block list and the ref
cell; `*ref` is incremented; the version id is copied unchanged. -/
def mesh_copy (s : MemState) (other : Mesh) : MemState × Mesh :=
  (s.setRef other.ref (s.refs other.ref + 1),
   { blocks := other.blocks, ref := other.ref, id := other.id,
     next_block_id := other.next_block_id })

/-- `mesh_get_block_at` (mesh.c:212): `HASH_FIND` by block position. -/
def mesh_get_block_at (s : MemState) (m : Mesh) (pos : V3i) : Option ℕ :=
  m.blocks.find? fun q => (s.heap q).pos = pos

/-- `mesh_add_block` (mesh.c:219): prepare-write, allocate a fresh block at
`pos` carrying the next block id, append it to the table. -/
def mesh_add_block (s : MemState) (m : Mesh) (pos : V3i) : (MemState × Mesh) × ℕ :=
  let (s, m) := mesh_prepare_write s m
  let (s, p) := s.allocPtr { block_new pos with id := m.next_block_id }
  ((s, { m with blocks := m.blocks ++ [p], next_block_id := m.next_block_id + 1 }), p)

/-- The aligned tile origins `ia, ia+N, ..., ib` of `add_blocks`
(`for (p = ia; p <= ib; p += N)` with `ia`,`ib` multiples of `N`). -/
def tileRange (ia ib : ℤ) : List ℤ :=
  (List.range (((ib - ia) / (N : ℤ) + 1).toNat)).map fun k => ia + (N : ℤ) * Int.ofNat k

/-- The tile loop of `add_blocks` (mesh.c:248-258): add a block for every
origin not yet present. -/
def addBlocksGo : List V3i → MemState → Mesh → MemState × Mesh
  | [], s, m => (s, m)
  | p :: rest, s, m =>
      if (mesh_get_block_at s m p).isSome then addBlocksGo rest s m
      else
        let r := (mesh_add_block s m p).1
        addBlocksGo rest r.1 r.2

/-- `add_blocks` (mesh.c:234): cover the bounding box with tiles (z-major,
x-fastest loop order), adding a block for every origin not yet present. -/
def add_blocks (s : MemState) (m : Mesh) (box : AabbNN) : MemState × Mesh :=
  let ia : V3i := ⟨⌊box.lo.x⌋ - cmod ⌊box.lo.x⌋ N, ⌊box.lo.y⌋ - cmod ⌊box.lo.y⌋ N,
                   ⌊box.lo.z⌋ - cmod ⌊box.lo.z⌋ N⟩
  let ib : V3i := ⟨⌈box.hi.x⌉ - cmod ⌈box.hi.x⌉ N, ⌈box.hi.y⌉ - cmod ⌈box.hi.y⌉ N,
                   ⌈box.hi.z⌉ - cmod ⌈box.hi.z⌉ N⟩
  let tiles : List V3i :=
    (tileRange ia.z ib.z).flatMap fun z =>
      (tileRange ia.y ib.y).flatMap fun y =>
        (tileRange ia.x ib.x).map fun x => (⟨x, y, z⟩ : V3i)
  addBlocksGo tiles s m

/-- The tile origin containing a position (mesh.c:370/390:
`p = pos - mod(pos, N)`). -/
def tile_of (pos : V3i) : V3i :=
  ⟨pos.x - cmod pos.x N, pos.y - cmod pos.y N, pos.z - cmod pos.z N⟩

/-- The cached accessor (`mesh_iterator_t` as used for point access):
last-seen tile origin and block handle (possibly NULL). -/
structure MAcc where
  found : Bool
  block : Option ℕ
  pos : V3i

/-- The zero-initialized accessor (`(mesh_accessor_t){0}`). -/
def accZero : MAcc := ⟨false, none, ⟨0, 0, 0⟩⟩

/-- `mesh_get_at` (mesh.c:366): read through the cached block when the tile
matches, else `HASH_FIND` and refresh the cache. -/
def mesh_get_at (s : MemState) (m : Mesh) (pos : V3i) (iter : Option MAcc) :
    RGBA × Option MAcc :=
  let p := tile_of pos
  match iter with
  | some acc =>
      if acc.found ∧ acc.pos = p then
        (block_get_at_opt (acc.block.map s.heap) pos, some acc)
      else
        let blk := mesh_get_block_at s m p
        (block_get_at_opt (blk.map s.heap) pos, some ⟨true, blk, p⟩)
  | none =>
      let blk := mesh_get_block_at s m p
      (block_get_at_opt (blk.map s.heap) pos, none)

/-- `mesh_set_at` (mesh.c:386): prepare-write, then write through the cached
block when the tile matches (adding the block if the cache recorded a miss),
else `HASH_FIND`, add if missing, refresh the cache, write. -/
def mesh_set_at (s : MemState) (m : Mesh) (pos : V3i) (v : RGBA)
    (iter : Option MAcc) : (MemState × Mesh) × Option MAcc :=
  let p := tile_of pos
  let (s, m) := mesh_prepare_write s m
  match iter with
  | some acc =>
      if acc.found ∧ acc.pos = p then
        match acc.block with
        | some q =>
            ((s.setHeap q (block_set_at (s.heap q) pos v), m), some acc)
        | none =>
            let ((s, m), q) := mesh_add_block s m p
            ((s.setHeap q (block_set_at (s.heap q) pos v), m),
             some { acc with block := some q })
      else
        let blk := mesh_get_block_at s m p
        match blk with
        | some q =>
            ((s.setHeap q (block_set_at (s.heap q) pos v), m), some ⟨true, some q, p⟩)
        | none =>
            let ((s, m), q) := mesh_add_block s m p
            ((s.setHeap q (block_set_at (s.heap q) pos v), m), some ⟨true, some q, p⟩)
  | none =>
      let blk := mesh_get_block_at s m p
      match blk with
      | some q =>
          ((s.setHeap q (block_set_at (s.heap q) pos v), m), none)
      | none =>
          let ((s, m), q) := mesh_add_block s m p
          ((s.setHeap q (block_set_at (s.heap q) pos v), m), none)

/-- `mesh_get_box` (mesh.c:202): merge the block boxes (null for an empty
table). -/
def mesh_get_box (s : MemState) (m : Mesh) (exact : Bool) : Option AabbNN :=
  m.blocks.foldl (fun acc q => aabb_merge acc (block_get_box (s.heap q) exact)) none

/-- The fill loop of `mesh_fill` (mesh.c:197-199) and `mesh_extrude`
(mesh.c:564-566): overwrite each block through the color callback, which
reads the evolving state (the C callback reads memory at call time). -/
def fillGo (get_color : MemState → V3i → RGBA) : List ℕ → MemState → MemState
  | [], s => s
  | q :: rest, s =>
      fillGo get_color rest (s.setHeap q (block_fill (s.heap q) (get_color s)))

/-- `mesh_fill` (mesh.c:187): clear, add blocks covering the bbox of `box`,
fill every block from the color callback (which reads the evolving state, as
the C callback reads memory at call time). -/
def mesh_fill (s : MemState) (m : Mesh) (box : Box)
    (get_color : MemState → V3i → RGBA) : MemState × Mesh :=
  let bbox := box_get_bbox box
  let (s, m) := mesh_clear s m
  let (s, m) := add_blocks s m bbox
  (fillGo get_color m.blocks s, m)

/-- `mesh_move_get_color` (mesh.c:408): sample the source mesh at the
rounded preimage of the destination cell. -/
def mesh_move_get_color (src : Mesh) (mat : Mat4) (s : MemState) (pos : V3i) : RGBA :=
  let p := mat4_mul_vec3 mat (v3iToQ pos)
  (mesh_get_at s src ⟨cround p.x, cround p.y, cround p.z⟩ none).1

/-- The tail of `mesh_move` after the null-box early return: transform the
exact bbox, refill from the source through the inverse matrix, drop the
source reference, sweep empty blocks. -/
def mesh_move_rest (s : MemState) (m : Mesh) (src : Mesh) (imat : Mat4)
    (mat : Mat4) (bb : AabbNN) : MemState × Mesh :=
  let box : Box := ⟨mat4_mul mat (aabb_to_box bb).mat⟩
  let (s, m) := mesh_fill s m box (fun st p => mesh_move_get_color src imat st p)
  let s := mesh_delete s src
  mesh_remove_empty_blocks s m

/-- `mesh_move` (mesh.c:418): clone the source, prepare-write (this runs
before the null-box check), return if the exact bbox is null, else refill
through the inverse transform. -/
def mesh_move (s : MemState) (m : Mesh) (mat : Mat4) : MemState × Mesh :=
  let (s, src) := mesh_copy s m
  let imat := mat4_inverted mat
  let (s, m) := mesh_prepare_write s m
  match mesh_get_box s m true with
  | none => (s, m)
  | some bb => mesh_move_rest s m src imat mat bb

/-- The offset triples `(ix, iy, iz)` of the blit loops, z-major and
x-fastest (the loop order of mesh.c:439-441). -/
def blitTriples (w h d : ℤ) : List V3i :=
  (List.range d.toNat).flatMap fun iz =>
    (List.range h.toNat).flatMap fun iy =>
      (List.range w.toNat).map fun ix => (⟨Int.ofNat ix, Int.ofNat iy, Int.ofNat iz⟩ : V3i)

/-- The blit loop: one `mesh_set_at` per cell, consuming the buffer group by
group (`data += 4` becomes the counter `k`), threading the accessor. -/
def mesh_blit_go (data : ℕ → RGBA) (x y z : ℤ) :
    List V3i → ℕ → MemState → Mesh → MAcc → (MemState × Mesh) × MAcc
  | [], _, s, m, it => ((s, m), it)
  | t :: rest, k, s, m, it =>
      let r := mesh_set_at s m ⟨x + t.x, y + t.y, z + t.z⟩ (data k) (some it)
      mesh_blit_go data x y z rest (k + 1) r.1.1 r.1.2 (r.2.getD it)

/-- `mesh_blit` (mesh.c:432): write a `w×h×d` packed RGBA buffer with a
(possibly caller-supplied) accessor, then sweep empty blocks. -/
def mesh_blit (s : MemState) (m : Mesh) (data : ℕ → RGBA)
    (x y z w h d : ℤ) (iter : Option MAcc) : MemState × Mesh :=
  let it := match iter with
    | none => accZero
    | some a => a
  let r := mesh_blit_go data x y z (blitTriples w h d) 0 s m it
  mesh_remove_empty_blocks r.1.1 r.1.2

/-- The block loop of `mesh_shift_alpha` (mesh.c:452-454). -/
def shiftGo (v : ℤ) : List ℕ → MemState → MemState
  | [], s => s
  | q :: rest, s => shiftGo v rest (s.setHeap q (block_shift_alpha (s.heap q) v))

/-- `mesh_shift_alpha` (mesh.c:448): saturating alpha shift on every block,
then sweep empty blocks. -/
def mesh_shift_alpha (s : MemState) (m : Mesh) (v : ℤ) : MemState × Mesh :=
  let (s, m) := mesh_prepare_write s m
  let s := shiftGo v m.blocks s
  mesh_remove_empty_blocks s m

/-- The add-missing-blocks loop of `mesh_merge` (mesh.c:336-342). -/
def mergeAddGo (otherBlocks : List ℕ) (s : MemState) (m : Mesh) : MemState × Mesh :=
  match otherBlocks with
  | [] => (s, m)
  | q :: rest =>
      if (mesh_get_block_at s m (s.heap q).pos).isSome then mergeAddGo rest s m
      else
        let r := (mesh_add_block s m (s.heap q).pos).1
        mergeAddGo rest r.1 r.2

/-- The `HASH_ITER` loop of `mesh_merge` (mesh.c:344-363). -/
def mesh_merge_loop (other : Mesh) (mode : Mode) :
    List ℕ → MemState → Mesh → MemState × Mesh
  | [], s, m => (s, m)
  | q :: rest, s, m =>
      let blk := s.heap q
      let ob := (mesh_get_block_at s other blk.pos).map s.heap
      let isEmp :=
        (block_is_empty blk true && block_is_empty_opt ob true) ||
        (decide (mode = Mode.multAlpha) && block_is_empty_opt ob true)
      if isEmp then
        mesh_merge_loop other mode rest s { m with blocks := m.blocks.erase q }
      else
        mesh_merge_loop other mode rest (s.setHeap q (block_merge blk ob mode)) m

/-- `mesh_merge` (mesh.c:328): prepare-write, add missing blocks for
constructive modes, then merge block-wise (deleting blocks empty on both
sides, or with an empty source block under MULT_ALPHA). -/
def mesh_merge (s : MemState) (m : Mesh) (other : Mesh) (mode : Mode) :
    MemState × Mesh :=
  let (s, m) := mesh_prepare_write s m
  let (s, m) :=
    if mode.constructive then mergeAddGo other.blocks s m
    else (s, m)
  mesh_merge_loop other mode m.blocks s m

/-- A plane (point and normal), for `mesh_extrude`. -/
structure Plane where
  p : V3q
  n : V3q

/-- The axis projection matrix built by `mesh_extrude` (mesh.c:547-560): for
each near-axis component of the (unnormalized, as in the source) plane
normal, zero the diagonal entry and translate to the plane point. -/
def mesh_extrude_proj (plane : Plane) : Mat4 :=
  let m := mat4_identity
  let m := if 1/10 < qabs plane.n.x then { m with a00 := 0, a03 := plane.p.x } else m
  let m := if 1/10 < qabs plane.n.y then { m with a11 := 0, a13 := plane.p.y } else m
  let m := if 1/10 < qabs plane.n.z then { m with a22 := 0, a23 := plane.p.z } else m
  m

/-- `mesh_extrude_callback` (mesh.c:517): transparent outside the box, else
sample the mesh at the floored projection of the cell. -/
def mesh_extrude_callback (m : Mesh) (proj : Mat4) (box : AabbNN)
    (s : MemState) (pos : V3i) : RGBA :=
  let p := v3iToQ pos
  if ¬ aabb_contains_vec box p then rgbaZero
  else
    let q := mat4_mul_vec3 proj p
    (mesh_get_at s m ⟨⌊q.x⌋, ⌊q.y⌋, ⌊q.z⌋⟩ none).1

/-- `mesh_extrude` (mesh.c:535): prepare-write, add blocks for the grown
box, refill every block through the projection callback (which reads the
evolving mesh, as the C callback reads memory at call time).  No empty-block
sweep happens on this path. -/
def mesh_extrude (s : MemState) (m : Mesh) (plane : Plane) (box : AabbNN) :
    MemState × Mesh :=
  let (s, m) := mesh_prepare_write s m
  let proj := mesh_extrude_proj plane
  let bbox := aabb_grow box 1 1 1
  let (s, m) := add_blocks s m bbox
  (fillGo (mesh_extrude_callback m proj box) m.blocks s, m)

/-! ## `mesh_op`, the painter dispatcher -/

/-- The bounding box computed by `mesh_op` (mesh.c:286-297): the bbox of the
smoothness-grown box, grown by 1; intersected with the painter's clip box
when set (`none` = the null box, triggering the early return *before*
`mesh_prepare_write`). -/
def mesh_op_bbox (p : Painter) (box : Box) : Option AabbNN :=
  let full_box := box_igrow box p.smoothness p.smoothness p.smoothness
  let bbox := aabb_grow (box_get_bbox full_box) 1 1 1
  match p.box with
  | none => some bbox
  | some clip =>
      match aabb_intersection bbox clip with
      | none => none
      | some bb => some (aabb_grow bb 1 1 1)

/-- The full tile box of a block (`block_get_box(block, false)`). -/
def block_tile_box (b : Block) : AabbNN :=
  ⟨v3iToQ b.pos,
   ⟨(b.pos.x : ℚ) + (N : ℚ), (b.pos.y : ℚ) + (N : ℚ), (b.pos.z : ℚ) + (N : ℚ)⟩⟩

/-- The `HASH_ITER` loop of `mesh_op` (mesh.c:304-325).  Note the dead
store: when the tile box does not intersect `bbox` under INTERSECT mode the
C sets `empty = true` (line 307) and the unconditional `empty = false;` of
line 310 immediately clobbers it, so the block is *not* marked and
`block_op` runs on it; this is translated faithfully. -/
def mesh_op_loop (p : Painter) (box : Box) (full_box : Box) (bbox : AabbNN) :
    List ℕ → MemState → Mesh → MemState × Mesh
  | [], s, m => (s, m)
  | q :: rest, s, m =>
      let blk := s.heap q
      let bb := block_tile_box blk
      if ¬ aabb_intersects bbox bb ∧ p.mode ≠ Mode.intersect then
        mesh_op_loop p box full_box bbox rest s m
      else
        let empty := false
        let empty :=
          if p.shape.isCube && decide (p.mode = Mode.sub) && box_contains full_box bb
          then true else empty
        if empty then
          mesh_op_loop p box full_box bbox rest s { m with blocks := m.blocks.erase q }
        else
          let nb := block_op p box blk
          let s := s.setHeap q nb
          if block_is_empty nb true then
            mesh_op_loop p box full_box bbox rest s { m with blocks := m.blocks.erase q }
          else
            mesh_op_loop p box full_box bbox rest s m

/-- The non-symmetry part of `mesh_op` after the bbox has been found
non-null: prepare-write, add blocks for constructive modes, run the block
loop over a snapshot of the table. -/
def mesh_op_core (s : MemState) (m : Mesh) (p : Painter) (box : Box)
    (bbox : AabbNN) : MemState × Mesh :=
  let full_box := box_igrow box p.smoothness p.smoothness p.smoothness
  let (s, m) := mesh_prepare_write s m
  let (s, m) := if p.mode.constructive then add_blocks s m bbox else (s, m)
  mesh_op_loop p box full_box bbox m.blocks s m

/-- One primitive `mesh_op` application (no symmetry expansion): early
return on a null bbox, else `mesh_op_core`. -/
def mesh_op_prim (s : MemState) (m : Mesh) (p : Painter) (box : Box) :
    MemState × Mesh :=
  match mesh_op_bbox p box with
  | none => (s, m)
  | some bbox => mesh_op_core s m p box bbox

/-- The reflected box of the symmetry expansion (mesh.c:272-277): identity,
`mat4_iscale` by −1 on axis `i`, `mat4_imul` by the original box matrix. -/
def boxReflect (i : ℕ) (box : Box) : Box :=
  let r :=
    if i = 0 then mat4_iscale mat4_identity (-1) 1 1
    else if i = 1 then mat4_iscale mat4_identity 1 (-1) 1
    else mat4_iscale mat4_identity 1 1 (-1)
  ⟨mat4_mul r box.mat⟩

/-- `mesh_op` (mesh.c:261), fuel-indexed so that the recursion is
structural: for each set low bit of the symmetry mask, recurse with the bit
cleared (the clearing accumulates in `painter2`, as in the C) and the box
reflected across that axis; then run the primitive op with the original
painter.  The second component counts the primitive ops performed.  Each
recursive call strictly decreases the mask, so fuel `symmetry + 1` always
suffices (see the termination theorem). -/
def mesh_op_fuel : ℕ → MemState → Mesh → Painter → Box → (MemState × Mesh) × ℕ
  | 0, s, m, _, _ => ((s, m), 0)
  | fuel + 1, s, m, p, box =>
    if p.symmetry = 0 then (mesh_op_prim s m p box, 1)
    else
      let p1 := if p.symmetry.testBit 0 then { p with symmetry := clearBit p.symmetry 0 } else p
      let r1 :=
        if p.symmetry.testBit 0 then mesh_op_fuel fuel s m p1 (boxReflect 0 box)
        else ((s, m), 0)
      let p2 := if p.symmetry.testBit 1 then { p1 with symmetry := clearBit p1.symmetry 1 } else p1
      let r2 :=
        if p.symmetry.testBit 1 then
          let r := mesh_op_fuel fuel r1.1.1 r1.1.2 p2 (boxReflect 1 box)
          (r.1, r1.2 + r.2)
        else r1
      let p3 := if p.symmetry.testBit 2 then { p2 with symmetry := clearBit p2.symmetry 2 } else p2
      let r3 :=
        if p.symmetry.testBit 2 then
          let r := mesh_op_fuel fuel r2.1.1 r2.1.2 p3 (boxReflect 2 box)
          (r.1, r2.2 + r.2)
        else r2
      let pr := mesh_op_prim r3.1.1 r3.1.2 p box
      (pr, r3.2 + 1)

/-- `mesh_op` with its natural fuel (one more than the symmetry mask). -/
def mesh_op (s : MemState) (m : Mesh) (p : Painter) (box : Box) :
    (MemState × Mesh) × ℕ :=
  mesh_op_fuel (p.symmetry + 1) s m p box

/-- `mesh_get_id` (mesh.c:617): the volume version id. -/
def mesh_get_id (m : Mesh) : ℕ :=
  m.id

/-- `mesh_get_alpha_at` (mesh.c:627). -/
def mesh_get_alpha_at (s : MemState) (m : Mesh) (pos : V3i) (iter : Option MAcc) : ℕ :=
  (mesh_get_at s m pos iter).1.a

/-! ## Specification views and well-formedness -/

/-- The block values of a mesh, in table order. -/
def blockVals (s : MemState) (m : Mesh) : List Block :=
  m.blocks.map s.heap

/-- The sample stored for `pos` in a list of block values (the functional
view of `mesh_get_at` with no accessor). -/
def sample_of (bs : List Block) (pos : V3i) : RGBA :=
  block_get_at_opt (bs.find? fun b => b.pos = tile_of pos) pos

/-- Structural well-formedness of a mesh in a state: no duplicate block
pointers, all pointers allocated, block origins distinct and aligned. -/
def MWF (s : MemState) (m : Mesh) : Prop :=
  m.blocks.Nodup ∧
  (∀ q ∈ m.blocks, q < s.nextPtr) ∧
  (blockVals s m).Pairwise (fun a b => a.pos ≠ b.pos) ∧
  (∀ b ∈ blockVals s m, tile_of b.pos = b.pos)

instance (s : MemState) (m : Mesh) : Decidable (MWF s m) := by
  unfold MWF; infer_instance

/-- Heap framing: the protected pointers `P` read the same blocks in `t` as
in `s`, and the allocation frontier only advanced. -/
def HeapKeep (s t : MemState) (P : List ℕ) : Prop :=
  (∀ q ∈ P, t.heap q = s.heap q) ∧ s.nextPtr ≤ t.nextPtr

/-- The precondition under which an operation on `m` cannot write the
protected pointers `P`: they are all allocated, and either the block list of
`m` is shared (so the first `mesh_prepare_write` forks it) or it is already
disjoint from `P`. -/
def Shield (s : MemState) (m : Mesh) (P : List ℕ) : Prop :=
  (∀ q ∈ P, q < s.nextPtr) ∧ (2 ≤ s.refs m.ref ∨ ∀ q ∈ m.blocks, q ∉ P)

/-- Coherence of a cached accessor: when it records a hit, the block list
is unshared (so the cached pointer survives `mesh_prepare_write`) and the
cached block handle is exactly the table lookup of the cached tile. -/
def AccOk (s : MemState) (m : Mesh) (a : MAcc) : Prop :=
  a.found = true → s.refs m.ref = 1 ∧ mesh_get_block_at s m a.pos = a.block

/-- Version-id bookkeeping of one operation, from `(s, m)` to `(t, w)`:
assuming the volume's id is below the uid counter (the invariant every
`mesh_prepare_write` re-establishes), the id does not decrease and ends
below the counter again. -/
def IdOk (s : MemState) (m : Mesh) (t : MemState) (w : Mesh) : Prop :=
  m.id < s.nextUid → m.id ≤ w.id ∧ w.id < t.nextUid

/-- As `IdOk` with a strict increase: the operation ran
`mesh_prepare_write` at least once. -/
def IdBump (s : MemState) (m : Mesh) (t : MemState) (w : Mesh) : Prop :=
  m.id < s.nextUid → m.id < w.id ∧ w.id < t.nextUid

/-! ## Concrete instances for witnesses and counterexamples -/

/-- A blank memory state. -/
def initState : MemState :=
  { heap := fun _ => block_new ⟨0, 0, 0⟩, nextPtr := 0, refs := fun _ => 0,
    nextRef := 0, nextUid := 0 }

/-- A fresh mesh in a blank state. -/
def demo0 : MemState × Mesh := mesh_new initState

/-- Writing a fully transparent sample into a fresh mesh (for the no-empty-
chunk counterexample). -/
def c2demo : MemState × Mesh := (mesh_set_at demo0.1 demo0.2 ⟨0, 0, 0⟩ rgbaZero none).1

/-- A block whose samples are all `(200,100,50,255)`. -/
def fullBlock : Block := { pos := ⟨0, 0, 0⟩, id := 1, voxels := fun _ => ⟨200, 100, 50, 255⟩ }

/-- A state holding exactly `fullBlock`. -/
def sFull : MemState :=
  { heap := fun q => if q = 0 then fullBlock else block_new ⟨0, 0, 0⟩,
    nextPtr := 1, refs := fun r => if r = 0 then 1 else 0, nextRef := 1, nextUid := 5 }

/-- The mesh owning `fullBlock`. -/
def mFull : Mesh := { blocks := [0], next_block_id := 2, ref := 0, id := 4 }

/-- A cube of half extent 100 centered at the origin. -/
def boxBig : Box := ⟨⟨100, 0, 0, 0, 0, 100, 0, 0, 0, 0, 100, 0, 0, 0, 0, 1⟩⟩

/-- An INTERSECT painter whose clip box `[90,95]³` is far inside the shape,
so that the block at the origin lies inside the shape but its tile box does
not intersect the computed `bbox`. -/
def painterClip : Painter :=
  ⟨shape_cube, Mode.intersect, 0, ⟨255, 255, 255, 255⟩, 0,
   some ⟨⟨90, 90, 90⟩, ⟨95, 95, 95⟩⟩⟩

/-- An INTERSECT painter with a clip box that misses the shape bbox
entirely, so `mesh_op` returns before `mesh_prepare_write`. -/
def painterClipMiss : Painter :=
  ⟨shape_cube, Mode.intersect, 0, ⟨255, 255, 255, 255⟩, 0,
   some ⟨⟨500, 500, 500⟩, ⟨501, 501, 501⟩⟩⟩

/-- The unit box `[-1,1]³` (identity transform). -/
def boxUnit : Box := ⟨mat4_identity⟩

/-- The cube/OVER painter of scenario S2 (red, no smoothness, no symmetry,
no clip). -/
def painterOver : Painter := ⟨shape_cube, Mode.over, 0, ⟨255, 0, 0, 255⟩, 0, none⟩

/-- The cube/SUB painter of scenario S2. -/
def painterSub : Painter := ⟨shape_cube, Mode.sub, 0, ⟨255, 0, 0, 255⟩, 0, none⟩

/-- The number of low symmetry bits set (bits 0..2 drive the expansion). -/
def low3 (x : ℕ) : ℕ :=
  (if x.testBit 0 then 1 else 0) + (if x.testBit 1 then 1 else 0) +
    (if x.testBit 2 then 1 else 0)

/-- The full-symmetry cube/OVER painter (for the termination witness). -/
def painterSym7 : Painter := { painterOver with symmetry := 7 }

/-- The mesh after painting the unit cube in OVER mode on a fresh volume. -/
def c6over : MemState × Mesh := (mesh_op demo0.1 demo0.2 painterOver boxUnit).1

/-- The mesh after additionally subtracting the same cube. -/
def c6sub : MemState × Mesh := (mesh_op c6over.1 c6over.2 painterSub boxUnit).1

/-- A mesh with a single voxel at the origin (scenario S1). -/
def c7demo : MemState × Mesh := (mesh_set_at demo0.1 demo0.2 ⟨0, 0, 0⟩ ⟨10, 20, 30, 255⟩ none).1

/-! # Theorems -/

/-! ## Arithmetic bridges -/

theorem neg_tmod16 (a : ℤ) : Int.tmod (-a) 16 = -Int.tmod a 16 := by
  rw [Int.tmod_def, Int.tmod_def, Int.neg_tdiv]
  ring

theorem tmod16_bounds (a : ℤ) : -16 < Int.tmod a 16 ∧ Int.tmod a 16 < 16 := by
  constructor
  · have h := Int.tmod_lt_of_pos (-a) (b := 16) (by norm_num)
    rw [neg_tmod16] at h; omega
  · exact Int.tmod_lt_of_pos a (by norm_num)

/-- The corrected C modulo agrees with mathematical modulo for divisor 16. -/
theorem cmod16_spec (a : ℤ) : cmod a 16 = a % 16 := by
  have hb := tmod16_bounds a
  have he := Int.tmod_add_tdiv a 16
  unfold cmod
  dsimp only
  split <;> omega

theorem cmodN_spec (a : ℤ) : cmod a (N : ℤ) = a % 16 := by
  have : (N : ℤ) = 16 := by norm_num [N]
  rw [this, cmod16_spec]

theorem tile_of_spec (p : V3i) :
    tile_of p = ⟨p.x - p.x % 16, p.y - p.y % 16, p.z - p.z % 16⟩ := by
  unfold tile_of
  rw [cmodN_spec, cmodN_spec, cmodN_spec]

theorem tile_of_idem (p : V3i) : tile_of (tile_of p) = tile_of p := by
  rw [tile_of_spec, tile_of_spec]
  simp only [V3i.mk.injEq]
  omega

/-- The local coordinates of a position within its tile lie in `[0,16)³`. -/
theorem local_bounds (p : V3i) :
    0 ≤ p.x - (tile_of p).x ∧ p.x - (tile_of p).x < 16 ∧
    0 ≤ p.y - (tile_of p).y ∧ p.y - (tile_of p).y < 16 ∧
    0 ≤ p.z - (tile_of p).z ∧ p.z - (tile_of p).z < 16 := by
  rw [tile_of_spec]
  dsimp only
  omega

/-! ## Cell list and emptiness -/

theorem mem_cellList {lp : V3i} :
    lp ∈ cellList ↔ 0 ≤ lp.x ∧ lp.x < 16 ∧ 0 ≤ lp.y ∧ lp.y < 16 ∧
      0 ≤ lp.z ∧ lp.z < 16 := by
  have hN : N = 16 := rfl
  unfold cellList
  constructor
  · intro h
    obtain ⟨lz, hlz, h⟩ := List.mem_flatMap.mp h
    obtain ⟨ly, hly, h⟩ := List.mem_flatMap.mp h
    obtain ⟨lx, hlx, he⟩ := List.mem_map.mp h
    rw [List.mem_range, hN] at hlz hly hlx
    subst he
    refine ⟨?_, ?_, ?_, ?_, ?_, ?_⟩ <;> simp only [Int.ofNat_eq_coe] <;> omega
  · rintro ⟨h1, h2, h3, h4, h5, h6⟩
    apply List.mem_flatMap.mpr
    refine ⟨lp.z.toNat, by rw [List.mem_range, hN]; omega, ?_⟩
    apply List.mem_flatMap.mpr
    refine ⟨lp.y.toNat, by rw [List.mem_range, hN]; omega, ?_⟩
    apply List.mem_map.mpr
    refine ⟨lp.x.toNat, by rw [List.mem_range, hN]; omega, ?_⟩
    cases lp with
    | mk x y z =>
        simp only [V3i.mk.injEq, Int.ofNat_eq_coe]
        dsimp only at h1 h2 h3 h4 h5 h6
        refine ⟨by omega, by omega, by omega⟩

theorem block_is_empty_iff {b : Block} {fl : Bool} :
    block_is_empty b fl = true ↔ ∀ lp ∈ cellList, (b.voxels lp).a = 0 := by
  unfold block_is_empty
  simp [List.all_eq_true]

theorem block_is_empty_eq_false {b : Block} {fl : Bool} (lp : V3i)
    (hm : lp ∈ cellList) (h : (b.voxels lp).a ≠ 0) :
    block_is_empty b fl = false := by
  rcases h2 : block_is_empty b fl with _ | _
  · rfl
  · exact absurd (block_is_empty_iff.1 h2 lp hm) h

/-! ## Lookup bridges -/

theorem find?_congr {α : Type} (l : List α) (p q : α → Bool)
    (h : ∀ a ∈ l, p a = q a) : l.find? p = l.find? q := by
  induction l with
  | nil => rfl
  | cons a l ih =>
      have ha := h a (List.mem_cons_self a l)
      rw [List.find?_cons, List.find?_cons, ha]
      rcases hq : q a with _ | _
      · simp only []
        exact ih fun x hx => h x (List.mem_cons_of_mem a hx)
      · rfl

/-- `mesh_get_at` with no accessor is the functional sample of the block
values. -/
theorem mesh_get_at_none (s : MemState) (m : Mesh) (pos : V3i) :
    (mesh_get_at s m pos none).1 = sample_of (blockVals s m) pos := by
  unfold mesh_get_at sample_of blockVals mesh_get_block_at
  dsimp only
  rw [List.find?_map]
  rfl

/-! ## Copy-loop lemmas -/

theorem copyBlocks_heap (l : List ℕ) :
    ∀ (s : MemState) (out : List ℕ) (t : ℕ), t < s.nextPtr →
      (copyBlocks l s out).1.heap t = s.heap t := by
  induction l with
  | nil => intro s out t ht; rfl
  | cons q rest ih =>
      intro s out t ht
      unfold copyBlocks
      dsimp only [MemState.allocPtr]
      rw [ih _ _ _ (by dsimp only; omega)]
      dsimp only
      rw [if_neg (by omega)]

theorem copyBlocks_ptrLe (l : List ℕ) :
    ∀ (s : MemState) (out : List ℕ), s.nextPtr ≤ (copyBlocks l s out).1.nextPtr := by
  induction l with
  | nil => intro s out; exact le_refl _
  | cons q rest ih =>
      intro s out
      unfold copyBlocks
      dsimp only [MemState.allocPtr]
      exact le_trans (by dsimp only; omega) (ih _ _)

theorem copyBlocks_ptrLe2 (l : List ℕ) (s : MemState) (out : List ℕ) (n : ℕ)
    (h : n ≤ s.nextPtr) : n ≤ (copyBlocks l s out).1.nextPtr :=
  le_trans h (copyBlocks_ptrLe l s out)

theorem copyBlocks_misc (l : List ℕ) :
    ∀ (s : MemState) (out : List ℕ),
      (copyBlocks l s out).1.refs = s.refs ∧
      (copyBlocks l s out).1.nextRef = s.nextRef ∧
      (copyBlocks l s out).1.nextUid = s.nextUid := by
  induction l with
  | nil => intro s out; exact ⟨rfl, rfl, rfl⟩
  | cons q rest ih =>
      intro s out
      unfold copyBlocks
      dsimp only [MemState.allocPtr]
      exact ih _ _

theorem copyBlocks_mem (l : List ℕ) :
    ∀ (s : MemState) (out : List ℕ) (p : ℕ), p ∈ (copyBlocks l s out).2 →
      p ∈ out ∨ (s.nextPtr ≤ p ∧ p < (copyBlocks l s out).1.nextPtr) := by
  induction l with
  | nil =>
      intro s out p hp
      exact Or.inl hp
  | cons q rest ih =>
      intro s out p hp
      rw [copyBlocks] at hp ⊢
      have e1 : (s.allocPtr (block_copy (s.heap q))).1.nextPtr = s.nextPtr + 1 := rfl
      have e2 : (s.allocPtr (block_copy (s.heap q))).2 = s.nextPtr := rfl
      have h2 := copyBlocks_ptrLe rest (s.allocPtr (block_copy (s.heap q))).1
        (out ++ [(s.allocPtr (block_copy (s.heap q))).2])
      rcases ih _ _ _ hp with h | h
      · rcases List.mem_append.mp h with h | h
        · exact Or.inl h
        · right
          simp only [List.mem_singleton, e2] at h
          subst h
          omega
      · right
        omega

theorem copyBlocks_vals (l : List ℕ) :
    ∀ (s : MemState) (out : List ℕ),
      (∀ q ∈ l, q < s.nextPtr) → (∀ q ∈ out, q < s.nextPtr) →
      (copyBlocks l s out).2.map (copyBlocks l s out).1.heap
        = out.map s.heap ++ l.map s.heap := by
  induction l with
  | nil =>
      intro s out _ _
      simp [copyBlocks]
  | cons q rest ih =>
      intro s out hl hout
      unfold copyBlocks
      dsimp only [MemState.allocPtr]
      have hq : q < s.nextPtr := hl q (List.mem_cons_self q rest)
      rw [ih _ _ (fun r hr => by dsimp only; exact lt_trans (hl r (List.mem_cons_of_mem q hr)) (by omega))
            (fun r hr => by
              dsimp only
              rcases List.mem_append.mp hr with h | h
              · exact lt_trans (hout r h) (by omega)
              · simp only [List.mem_singleton] at h; omega)]
      dsimp only
      simp only [List.map_append, List.map_cons, List.map_nil, List.append_assoc,
        List.nil_append, List.singleton_append]
      congr 1
      · apply List.map_congr_left
        intro r hr
        have := hout r hr
        rw [if_neg (by omega)]
      · simp only [ite_true]
        rw [show block_copy (s.heap q) = s.heap q from rfl]
        congr 1
        apply List.map_congr_left
        intro r hr
        have := hl r (List.mem_cons_of_mem q hr)
        rw [if_neg (by omega)]

theorem copyBlocks_nodup (l : List ℕ) :
    ∀ (s : MemState) (out : List ℕ), out.Nodup → (∀ q ∈ out, q < s.nextPtr) →
      (copyBlocks l s out).2.Nodup := by
  induction l with
  | nil => intro s out h _; exact h
  | cons q rest ih =>
      intro s out hnd hout
      unfold copyBlocks
      dsimp only [MemState.allocPtr]
      apply ih
      · rw [List.nodup_append]
        refine ⟨hnd, List.nodup_singleton _, ?_⟩
        intro a ha hb
        simp only [List.mem_singleton] at hb
        subst hb
        exact absurd (hout _ ha) (by omega)
      · intro r hr
        dsimp only
        rcases List.mem_append.mp hr with h | h
        · exact lt_trans (hout r h) (by omega)
        · simp only [List.mem_singleton] at h; omega

/-! ## Prepare-write lemmas -/

theorem prepare_heapBelow (s : MemState) (m : Mesh) (t : ℕ) (ht : t < s.nextPtr) :
    (mesh_prepare_write s m).1.heap t = s.heap t := by
  unfold mesh_prepare_write
  dsimp only
  split
  · rfl
  · exact copyBlocks_heap m.blocks _ [] t ht

theorem prepare_ptrLe (s : MemState) (m : Mesh) :
    s.nextPtr ≤ (mesh_prepare_write s m).1.nextPtr := by
  unfold mesh_prepare_write
  dsimp only
  split
  · exact le_refl _
  · dsimp only [MemState.allocRef, MemState.setRef]
    apply copyBlocks_ptrLe2
    exact le_refl _

theorem prepare_vals (s : MemState) (m : Mesh)
    (hb : ∀ q ∈ m.blocks, q < s.nextPtr) :
    blockVals (mesh_prepare_write s m).1 (mesh_prepare_write s m).2 = blockVals s m := by
  unfold mesh_prepare_write blockVals
  dsimp only
  split
  · rfl
  · exact copyBlocks_vals m.blocks _ [] hb (by intro r hr; cases hr)

theorem prepare_blocks_cases (s : MemState) (m : Mesh) :
    (mesh_prepare_write s m).2.blocks = m.blocks ∨
    (∀ q ∈ (mesh_prepare_write s m).2.blocks,
      s.nextPtr ≤ q ∧ q < (mesh_prepare_write s m).1.nextPtr) := by
  unfold mesh_prepare_write
  dsimp only
  split
  · exact Or.inl rfl
  · right
    intro q hq
    rcases copyBlocks_mem m.blocks _ [] q hq with h | h
    · cases h
    · exact h

theorem prepare_nodup (s : MemState) (m : Mesh) (h1 : m.blocks.Nodup) :
    (mesh_prepare_write s m).2.blocks.Nodup := by
  unfold mesh_prepare_write
  dsimp only
  split
  · exact h1
  · exact copyBlocks_nodup m.blocks _ [] (List.nodup_nil) (by intro r hr; cases hr)

theorem prepare_MWF (s : MemState) (m : Mesh) (h : MWF s m) :
    MWF (mesh_prepare_write s m).1 (mesh_prepare_write s m).2 := by
  obtain ⟨hnd, hb, hpw, htl⟩ := h
  refine ⟨prepare_nodup s m hnd, ?_, ?_, ?_⟩
  · rcases prepare_blocks_cases s m with h | h
    · rw [h]
      intro q hq
      exact lt_of_lt_of_le (hb q hq) (prepare_ptrLe s m)
    · intro q hq
      exact (h q hq).2
  · rw [prepare_vals s m hb]
    exact hpw
  · rw [prepare_vals s m hb]
    exact htl

theorem prepare_refsSelf (s : MemState) (m : Mesh) :
    (mesh_prepare_write s m).1.refs (mesh_prepare_write s m).2.ref = 1 := by
  unfold mesh_prepare_write
  dsimp only
  split
  · assumption
  · rw [(copyBlocks_misc m.blocks _ []).1]
    dsimp only [MemState.allocRef, MemState.setRef]
    rw [if_pos rfl]

theorem prepare_id (s : MemState) (m : Mesh) :
    (mesh_prepare_write s m).2.id = s.nextUid ∧
    (mesh_prepare_write s m).1.nextUid = s.nextUid + 1 := by
  unfold mesh_prepare_write
  dsimp only
  split
  · exact ⟨rfl, rfl⟩
  · exact ⟨rfl, (copyBlocks_misc m.blocks _ []).2.2⟩

theorem prepare_fields (s : MemState) (m : Mesh) :
    (mesh_prepare_write s m).2.next_block_id = m.next_block_id := by
  unfold mesh_prepare_write
  dsimp only
  split
  · rfl
  · rfl

/-! ## Frame lemmas: mutations through one mesh cannot write the blocks of a
shielded mesh -/

theorem heapKeep_refl (s : MemState) (P : List ℕ) : HeapKeep s s P :=
  ⟨fun _ _ => rfl, le_refl _⟩

theorem heapKeep_trans {s t u : MemState} {P : List ℕ}
    (h1 : HeapKeep s t P) (h2 : HeapKeep t u P) : HeapKeep s u P :=
  ⟨fun q hq => (h2.1 q hq).trans (h1.1 q hq), le_trans h1.2 h2.2⟩

theorem shield_step {s t : MemState} {m m2 : Mesh} {P : List ℕ}
    (hs : Shield s m P) (hk : HeapKeep s t P)
    (hd : ∀ q ∈ m2.blocks, q ∉ P) : Shield t m2 P :=
  ⟨fun q hq => lt_of_lt_of_le (hs.1 q hq) hk.2, Or.inr hd⟩

theorem prepare_blocks_fresh (s : MemState) (m : Mesh) (h : 2 ≤ s.refs m.ref) :
    ∀ q ∈ (mesh_prepare_write s m).2.blocks, s.nextPtr ≤ q := by
  intro q hq
  unfold mesh_prepare_write at hq
  dsimp only at hq
  rw [if_neg (by omega)] at hq
  dsimp only at hq
  rcases copyBlocks_mem m.blocks _ [] q hq with h2 | h2
  · cases h2
  · exact h2.1

theorem keeps_prepare {s : MemState} {m : Mesh} {P : List ℕ} (hs : Shield s m P) :
    HeapKeep s (mesh_prepare_write s m).1 P ∧
    (∀ q ∈ (mesh_prepare_write s m).2.blocks, q ∉ P) := by
  have hk : HeapKeep s (mesh_prepare_write s m).1 P :=
    ⟨fun q hq => prepare_heapBelow s m q (hs.1 q hq), prepare_ptrLe s m⟩
  refine ⟨hk, ?_⟩
  rcases hs.2 with h | h
  · intro q hq hqP
    exact absurd (hs.1 q hqP) (by have := prepare_blocks_fresh s m h q hq; omega)
  · rcases prepare_blocks_cases s m with h2 | h2
    · rw [h2]; exact h
    · intro q hq hqP
      exact absurd (hs.1 q hqP) (by have := (h2 q hq).1; omega)

theorem keeps_add_block {s : MemState} {m : Mesh} {P : List ℕ} (pos : V3i)
    (hs : Shield s m P) :
    HeapKeep s (mesh_add_block s m pos).1.1 P ∧
    (∀ q ∈ (mesh_add_block s m pos).1.2.blocks, q ∉ P) := by
  obtain ⟨hk, hd⟩ := keeps_prepare hs
  unfold mesh_add_block
  dsimp only [MemState.allocPtr]
  constructor
  · refine heapKeep_trans hk ⟨?_, ?_⟩
    · intro q hq
      dsimp only
      rw [if_neg]
      have h1 := hs.1 q hq
      have h2 := hk.2
      omega
    · dsimp only
      omega
  · intro q hq
    rcases List.mem_append.mp hq with h | h
    · exact hd q h
    · simp only [List.mem_singleton] at h
      subst h
      intro hqP
      have h1 := hs.1 _ hqP
      have h2 := hk.2
      omega

theorem keeps_addBlocksGo {P : List ℕ} (tiles : List V3i) :
    ∀ (s : MemState) (m : Mesh), Shield s m P → (∀ q ∈ m.blocks, q ∉ P) →
    HeapKeep s (addBlocksGo tiles s m).1 P ∧
    (∀ q ∈ (addBlocksGo tiles s m).2.blocks, q ∉ P) := by
  induction tiles with
  | nil => intro s m _ hd; exact ⟨heapKeep_refl s P, hd⟩
  | cons t rest ih =>
      intro s m hs hd
      rw [addBlocksGo]
      split
      · exact ih s m hs hd
      · obtain ⟨hk1, hd1⟩ := keeps_add_block t hs
        obtain ⟨hk2, hd2⟩ := ih _ _ (shield_step hs hk1 hd1) hd1
        exact ⟨heapKeep_trans hk1 hk2, hd2⟩

theorem keeps_add_blocks {s : MemState} {m : Mesh} {P : List ℕ} (bbox : AabbNN)
    (hs : Shield s m P) (hd : ∀ q ∈ m.blocks, q ∉ P) :
    HeapKeep s (add_blocks s m bbox).1 P ∧
    (∀ q ∈ (add_blocks s m bbox).2.blocks, q ∉ P) := by
  unfold add_blocks
  exact keeps_addBlocksGo _ s m hs hd

theorem keeps_clear {s : MemState} {m : Mesh} {P : List ℕ} (hs : Shield s m P) :
    HeapKeep s (mesh_clear s m).1 P ∧ (∀ q ∈ (mesh_clear s m).2.blocks, q ∉ P) := by
  obtain ⟨hk, _⟩ := keeps_prepare hs
  refine ⟨hk, ?_⟩
  intro q hq
  unfold mesh_clear at hq
  cases hq

theorem keeps_remove_empty {s : MemState} {m : Mesh} {P : List ℕ}
    (hs : Shield s m P) :
    HeapKeep s (mesh_remove_empty_blocks s m).1 P ∧
    (∀ q ∈ (mesh_remove_empty_blocks s m).2.blocks, q ∉ P) := by
  obtain ⟨hk, hd⟩ := keeps_prepare hs
  unfold mesh_remove_empty_blocks
  dsimp only
  exact ⟨hk, fun q hq => hd q (List.mem_of_mem_filter hq)⟩

theorem keeps_fillGo {P : List ℕ} (gc : MemState → V3i → RGBA) (l : List ℕ) :
    ∀ (s : MemState), (∀ q ∈ l, q ∉ P) → HeapKeep s (fillGo gc l s) P := by
  induction l with
  | nil => intro s _; exact heapKeep_refl s P
  | cons q rest ih =>
      intro s hl
      rw [fillGo]
      have hstep : HeapKeep s (s.setHeap q (block_fill (s.heap q) (gc s))) P := by
        refine ⟨?_, le_refl _⟩
        intro r hr
        unfold MemState.setHeap
        dsimp only
        rw [if_neg]
        intro he
        subst he
        exact hl r (List.mem_cons_self r rest) hr
      exact heapKeep_trans hstep (ih _ fun r hr => hl r (List.mem_cons_of_mem q hr))

theorem keeps_shiftGo {P : List ℕ} (v : ℤ) (l : List ℕ) :
    ∀ (s : MemState), (∀ q ∈ l, q ∉ P) → HeapKeep s (shiftGo v l s) P := by
  induction l with
  | nil => intro s _; exact heapKeep_refl s P
  | cons q rest ih =>
      intro s hl
      rw [shiftGo]
      have hstep : HeapKeep s (s.setHeap q (block_shift_alpha (s.heap q) v)) P := by
        refine ⟨?_, le_refl _⟩
        intro r hr
        unfold MemState.setHeap
        dsimp only
        rw [if_neg]
        intro he
        subst he
        exact hl r (List.mem_cons_self r rest) hr
      exact heapKeep_trans hstep (ih _ fun r hr => hl r (List.mem_cons_of_mem q hr))

theorem heapKeep_setHeap {s : MemState} {P : List ℕ} {q : ℕ} (b : Block)
    (h : q ∉ P) : HeapKeep s (s.setHeap q b) P := by
  refine ⟨?_, le_refl _⟩
  intro r hr
  unfold MemState.setHeap
  dsimp only
  rw [if_neg]
  intro he
  subst he
  exact h hr

theorem shield_of_dis {s : MemState} {m : Mesh} {P : List ℕ}
    (hb : ∀ q ∈ P, q < s.nextPtr) (hd : ∀ q ∈ m.blocks, q ∉ P) : Shield s m P :=
  ⟨hb, Or.inr hd⟩

theorem add_block_ptr_mem (s : MemState) (m : Mesh) (pos : V3i) :
    (mesh_add_block s m pos).2 ∈ (mesh_add_block s m pos).1.2.blocks := by
  unfold mesh_add_block
  dsimp only [MemState.allocPtr]
  exact List.mem_append.mpr (Or.inr (List.mem_singleton.mpr rfl))

theorem keeps_set_at {s : MemState} {m : Mesh} {P : List ℕ} (pos : V3i) (v : RGBA)
    (iter : Option MAcc) (hs : Shield s m P)
    (hacc : ∀ a q2, iter = some a → a.block = some q2 → q2 ∉ P) :
    HeapKeep s (mesh_set_at s m pos v iter).1.1 P ∧
    (∀ q ∈ (mesh_set_at s m pos v iter).1.2.blocks, q ∉ P) ∧
    (∀ a q2, (mesh_set_at s m pos v iter).2 = some a → a.block = some q2 → q2 ∉ P) := by
  obtain ⟨hk1, hd1⟩ := keeps_prepare hs
  have hsh1 := shield_step hs hk1 hd1
  have haddq : (mesh_add_block (mesh_prepare_write s m).1 (mesh_prepare_write s m).2
      (tile_of pos)).2 ∉ P :=
    (keeps_add_block (tile_of pos) hsh1).2 _ (add_block_ptr_mem _ _ _)
  have hadd := keeps_add_block (P := P) (tile_of pos) hsh1
  unfold mesh_set_at
  dsimp only
  rcases iter with _ | acc
  · dsimp only
    cases hfind : mesh_get_block_at (mesh_prepare_write s m).1 (mesh_prepare_write s m).2
        (tile_of pos) with
    | none =>
        dsimp only
        exact ⟨heapKeep_trans hk1 (heapKeep_trans hadd.1 (heapKeep_setHeap _ haddq)),
               hadd.2, by intro a q2 h; cases h⟩
    | some q =>
        dsimp only
        have hq : q ∉ P := hd1 q (List.mem_of_find?_eq_some hfind)
        exact ⟨heapKeep_trans hk1 (heapKeep_setHeap _ hq), hd1,
               by intro a q2 h; cases h⟩
  · dsimp only
    by_cases hcond : acc.found = true ∧ acc.pos = tile_of pos
    · rw [if_pos hcond]
      cases hab : acc.block with
      | none =>
          dsimp only
          refine ⟨heapKeep_trans hk1 (heapKeep_trans hadd.1 (heapKeep_setHeap _ haddq)),
                  hadd.2, ?_⟩
          intro a q2 he hb2
          injection he with he
          subst he
          dsimp only at hb2
          injection hb2 with hb2
          subst hb2
          exact haddq
      | some q =>
          dsimp only
          have hq : q ∉ P := hacc acc q rfl hab
          refine ⟨heapKeep_trans hk1 (heapKeep_setHeap _ hq), hd1, ?_⟩
          intro a q2 he hb2
          injection he with he
          subst he
          exact hacc _ q2 rfl hb2
    · rw [if_neg hcond]
      cases hfind : mesh_get_block_at (mesh_prepare_write s m).1 (mesh_prepare_write s m).2
          (tile_of pos) with
      | none =>
          dsimp only
          refine ⟨heapKeep_trans hk1 (heapKeep_trans hadd.1 (heapKeep_setHeap _ haddq)),
                  hadd.2, ?_⟩
          intro a q2 he hb2
          injection he with he
          subst he
          dsimp only at hb2
          injection hb2 with hb2
          subst hb2
          exact haddq
      | some q =>
          dsimp only
          have hq : q ∉ P := hd1 q (List.mem_of_find?_eq_some hfind)
          refine ⟨heapKeep_trans hk1 (heapKeep_setHeap _ hq), hd1, ?_⟩
          intro a q2 he hb2
          injection he with he
          subst he
          dsimp only at hb2
          injection hb2 with hb2
          subst hb2
          exact hq

theorem keeps_fill {s : MemState} {m : Mesh} {P : List ℕ} (box : Box)
    (gc : MemState → V3i → RGBA) (hs : Shield s m P) :
    HeapKeep s (mesh_fill s m box gc).1 P ∧
    (∀ q ∈ (mesh_fill s m box gc).2.blocks, q ∉ P) := by
  obtain ⟨hk1, hd1⟩ := keeps_clear hs
  have hsh1 := shield_step hs hk1 hd1
  obtain ⟨hk2, hd2⟩ := keeps_add_blocks (box_get_bbox box) hsh1 hd1
  unfold mesh_fill
  dsimp only
  exact ⟨heapKeep_trans hk1 (heapKeep_trans hk2 (keeps_fillGo _ _ _ hd2)), hd2⟩

theorem keeps_merge_loop {P : List ℕ} (other : Mesh) (mode : Mode) (l : List ℕ) :
    ∀ (s : MemState) (m : Mesh), (∀ q ∈ l, q ∉ P) → (∀ q ∈ m.blocks, q ∉ P) →
    HeapKeep s (mesh_merge_loop other mode l s m).1 P ∧
    (∀ q ∈ (mesh_merge_loop other mode l s m).2.blocks, q ∉ P) := by
  induction l with
  | nil => intro s m _ hd; exact ⟨heapKeep_refl s P, hd⟩
  | cons q rest ih =>
      intro s m hl hd
      rw [mesh_merge_loop]
      have hq : q ∉ P := hl q (List.mem_cons_self q rest)
      have hrest : ∀ r ∈ rest, r ∉ P := fun r hr => hl r (List.mem_cons_of_mem q hr)
      split
      · exact ih s _ hrest fun r hr => hd r (List.mem_of_mem_erase hr)
      · obtain ⟨hk, hd2⟩ := ih (s.setHeap q (block_merge (s.heap q)
          ((mesh_get_block_at s other (s.heap q).pos).map s.heap) mode)) m hrest hd
        exact ⟨heapKeep_trans (heapKeep_setHeap _ hq) hk, hd2⟩

theorem keeps_mergeAddGo {P : List ℕ} (l : List ℕ) :
    ∀ (s : MemState) (m : Mesh), Shield s m P → (∀ q ∈ m.blocks, q ∉ P) →
    HeapKeep s (mergeAddGo l s m).1 P ∧
    (∀ q ∈ (mergeAddGo l s m).2.blocks, q ∉ P) := by
  induction l with
  | nil => intro s m _ hd; exact ⟨heapKeep_refl s P, hd⟩
  | cons t rest ih =>
      intro s m hs hd
      rw [mergeAddGo]
      split
      · exact ih s m hs hd
      · obtain ⟨hk1, hd1⟩ := keeps_add_block (s.heap t).pos hs
        obtain ⟨hk2, hd2⟩ := ih _ _ (shield_step hs hk1 hd1) hd1
        exact ⟨heapKeep_trans hk1 hk2, hd2⟩

theorem keeps_merge {s : MemState} {m : Mesh} {P : List ℕ} (other : Mesh)
    (mode : Mode) (hs : Shield s m P) :
    HeapKeep s (mesh_merge s m other mode).1 P ∧
    (∀ q ∈ (mesh_merge s m other mode).2.blocks, q ∉ P) := by
  obtain ⟨hk1, hd1⟩ := keeps_prepare hs
  have hsh1 := shield_step hs hk1 hd1
  unfold mesh_merge
  dsimp only
  split
  · obtain ⟨hk2, hd2⟩ := keeps_mergeAddGo other.blocks _ _ hsh1 hd1
    obtain ⟨hk3, hd3⟩ := keeps_merge_loop other mode _ _ _ hd2 hd2
    exact ⟨heapKeep_trans hk1 (heapKeep_trans hk2 hk3), hd3⟩
  · obtain ⟨hk3, hd3⟩ := keeps_merge_loop other mode _ _ _ hd1 hd1
    exact ⟨heapKeep_trans hk1 hk3, hd3⟩

theorem keeps_op_loop {P : List ℕ} (p : Painter) (box full_box : Box)
    (bbox : AabbNN) (l : List ℕ) :
    ∀ (s : MemState) (m : Mesh), (∀ q ∈ l, q ∉ P) → (∀ q ∈ m.blocks, q ∉ P) →
    HeapKeep s (mesh_op_loop p box full_box bbox l s m).1 P ∧
    (∀ q ∈ (mesh_op_loop p box full_box bbox l s m).2.blocks, q ∉ P) := by
  induction l with
  | nil => intro s m _ hd; exact ⟨heapKeep_refl s P, hd⟩
  | cons q rest ih =>
      intro s m hl hd
      rw [mesh_op_loop]
      have hq : q ∉ P := hl q (List.mem_cons_self q rest)
      have hrest : ∀ r ∈ rest, r ∉ P := fun r hr => hl r (List.mem_cons_of_mem q hr)
      have herase : ∀ r ∈ m.blocks.erase q, r ∉ P :=
        fun r hr => hd r (List.mem_of_mem_erase hr)
      split
      · exact ih s m hrest hd
      · dsimp only
        split
        · rw [if_pos rfl]
          exact ih s _ hrest herase
        · rw [if_neg (by simp)]
          split
          · obtain ⟨hk, hd2⟩ := ih (s.setHeap q (block_op p box (s.heap q)))
              { m with blocks := m.blocks.erase q } hrest herase
            exact ⟨heapKeep_trans (heapKeep_setHeap _ hq) hk, hd2⟩
          · obtain ⟨hk, hd2⟩ := ih (s.setHeap q (block_op p box (s.heap q))) m hrest hd
            exact ⟨heapKeep_trans (heapKeep_setHeap _ hq) hk, hd2⟩

theorem keeps_op_core {s : MemState} {m : Mesh} {P : List ℕ} (p : Painter)
    (box : Box) (bbox : AabbNN) (hs : Shield s m P) :
    HeapKeep s (mesh_op_core s m p box bbox).1 P ∧
    (∀ q ∈ (mesh_op_core s m p box bbox).2.blocks, q ∉ P) := by
  obtain ⟨hk1, hd1⟩ := keeps_prepare hs
  have hsh1 := shield_step hs hk1 hd1
  unfold mesh_op_core
  dsimp only
  split
  · obtain ⟨hk2, hd2⟩ := keeps_add_blocks bbox hsh1 hd1
    obtain ⟨hk3, hd3⟩ := keeps_op_loop p box _ bbox _ _ _ hd2 hd2
    exact ⟨heapKeep_trans hk1 (heapKeep_trans hk2 hk3), hd3⟩
  · obtain ⟨hk3, hd3⟩ := keeps_op_loop p box _ bbox _ _ _ hd1 hd1
    exact ⟨heapKeep_trans hk1 hk3, hd3⟩

theorem keeps_op_prim {s : MemState} {m : Mesh} {P : List ℕ} (p : Painter)
    (box : Box) (hs : Shield s m P) :
    HeapKeep s (mesh_op_prim s m p box).1 P ∧
    Shield (mesh_op_prim s m p box).1 (mesh_op_prim s m p box).2 P := by
  unfold mesh_op_prim
  split
  · exact ⟨heapKeep_refl s P, hs⟩
  · obtain ⟨hk, hd⟩ := keeps_op_core p box _ hs
    exact ⟨hk, shield_of_dis (fun q hq => lt_of_lt_of_le (hs.1 q hq) hk.2) hd⟩

theorem keeps_op_fuel {P : List ℕ} (f : ℕ) :
    ∀ (s : MemState) (m : Mesh) (p : Painter) (box : Box), Shield s m P →
    HeapKeep s (mesh_op_fuel f s m p box).1.1 P ∧
    Shield (mesh_op_fuel f s m p box).1.1 (mesh_op_fuel f s m p box).1.2 P := by
  induction f with
  | zero => intro s m p box hs; exact ⟨heapKeep_refl s P, hs⟩
  | succ f ih =>
      intro s m p box hs
      rw [mesh_op_fuel]
      split
      · exact keeps_op_prim p box hs
      · dsimp only
        split
        · split
          · split
            · obtain ⟨k1, s1⟩ := ih _ _ _ _ hs
              obtain ⟨k2, s2⟩ := ih _ _ _ _ s1
              obtain ⟨k3, s3⟩ := ih _ _ _ _ s2
              obtain ⟨k4, s4⟩ := keeps_op_prim _ _ s3
              exact ⟨heapKeep_trans k1 (heapKeep_trans k2 (heapKeep_trans k3 k4)), s4⟩
            · obtain ⟨k1, s1⟩ := ih _ _ _ _ hs
              obtain ⟨k2, s2⟩ := ih _ _ _ _ s1
              obtain ⟨k4, s4⟩ := keeps_op_prim _ _ s2
              exact ⟨heapKeep_trans k1 (heapKeep_trans k2 k4), s4⟩
          · split
            · obtain ⟨k1, s1⟩ := ih _ _ _ _ hs
              obtain ⟨k2, s2⟩ := ih _ _ _ _ s1
              obtain ⟨k4, s4⟩ := keeps_op_prim _ _ s2
              exact ⟨heapKeep_trans k1 (heapKeep_trans k2 k4), s4⟩
            · obtain ⟨k1, s1⟩ := ih _ _ _ _ hs
              obtain ⟨k4, s4⟩ := keeps_op_prim _ _ s1
              exact ⟨heapKeep_trans k1 k4, s4⟩
        · split
          · split
            · obtain ⟨k1, s1⟩ := ih _ _ _ _ hs
              obtain ⟨k2, s2⟩ := ih _ _ _ _ s1
              obtain ⟨k4, s4⟩ := keeps_op_prim _ _ s2
              exact ⟨heapKeep_trans k1 (heapKeep_trans k2 k4), s4⟩
            · obtain ⟨k1, s1⟩ := ih _ _ _ _ hs
              obtain ⟨k4, s4⟩ := keeps_op_prim _ _ s1
              exact ⟨heapKeep_trans k1 k4, s4⟩
          · split
            · obtain ⟨k1, s1⟩ := ih _ _ _ _ hs
              obtain ⟨k4, s4⟩ := keeps_op_prim _ _ s1
              exact ⟨heapKeep_trans k1 k4, s4⟩
            · obtain ⟨k4, s4⟩ := keeps_op_prim _ _ hs
              exact ⟨k4, s4⟩

theorem keeps_shift_alpha {s : MemState} {m : Mesh} {P : List ℕ} (v : ℤ)
    (hs : Shield s m P) :
    HeapKeep s (mesh_shift_alpha s m v).1 P ∧
    (∀ q ∈ (mesh_shift_alpha s m v).2.blocks, q ∉ P) := by
  obtain ⟨hk1, hd1⟩ := keeps_prepare hs
  have hsh1 := shield_step hs hk1 hd1
  have hk2 := keeps_shiftGo (P := P) v (mesh_prepare_write s m).2.blocks
    (mesh_prepare_write s m).1 hd1
  obtain ⟨hk3, hd3⟩ := keeps_remove_empty (shield_step hsh1 hk2 hd1)
  unfold mesh_shift_alpha
  dsimp only
  exact ⟨heapKeep_trans hk1 (heapKeep_trans hk2 hk3), hd3⟩

theorem keeps_copy {s : MemState} {P : List ℕ} (other : Mesh) :
    HeapKeep s (mesh_copy s other).1 P := by
  unfold mesh_copy MemState.setRef
  exact ⟨fun q hq => rfl, le_refl _⟩

theorem keeps_delete {s : MemState} {P : List ℕ} (m : Mesh) :
    HeapKeep s (mesh_delete s m) P := by
  unfold mesh_delete MemState.setRef
  exact ⟨fun q hq => rfl, le_refl _⟩

set_option maxHeartbeats 2000000 in
theorem keeps_move {s : MemState} {m : Mesh} {P : List ℕ} (mat : Mat4)
    (hs : Shield s m P) :
    HeapKeep s (mesh_move s m mat).1 P ∧
    (∀ q ∈ (mesh_move s m mat).2.blocks, q ∉ P) := by
  have hs1 : Shield (mesh_copy s m).1 m P := by
    refine ⟨hs.1, ?_⟩
    rcases hs.2 with h | h
    · left
      unfold mesh_copy MemState.setRef
      dsimp only
      rw [if_pos rfl]
      omega
    · exact Or.inr h
  obtain ⟨hk2, hd2⟩ := keeps_prepare hs1
  have hk1 : HeapKeep s (mesh_copy s m).1 P := keeps_copy m
  have hsh2 := shield_step hs1 hk2 hd2
  unfold mesh_move
  dsimp only
  split
  · exact ⟨heapKeep_trans hk1 hk2, hd2⟩
  · rename_i bb heq
    unfold mesh_move_rest
    dsimp only
    obtain ⟨hk3, hd3⟩ := keeps_fill (Box.mk (mat4_mul mat (aabb_to_box bb).mat))
      (fun st p2 => mesh_move_get_color (mesh_copy s m).2 (mat4_inverted mat) st p2) hsh2
    have hk4 := keeps_delete (P := P)
      (s := (mesh_fill (mesh_prepare_write (mesh_copy s m).1 m).1
        (mesh_prepare_write (mesh_copy s m).1 m).2
        (Box.mk (mat4_mul mat (aabb_to_box bb).mat))
        (fun st p2 => mesh_move_get_color (mesh_copy s m).2 (mat4_inverted mat) st p2)).1)
      (mesh_copy s m).2
    obtain ⟨hk5, hd5⟩ := keeps_remove_empty
      (shield_step (shield_step hsh2 hk3 hd3) hk4 hd3)
    exact ⟨heapKeep_trans hk1 (heapKeep_trans hk2 (heapKeep_trans hk3
      (heapKeep_trans hk4 hk5))), hd5⟩

theorem keeps_blit_go {P : List ℕ} (data : ℕ → RGBA) (x y z : ℤ) (l : List V3i) :
    ∀ (k : ℕ) (s : MemState) (m : Mesh) (it : MAcc), Shield s m P →
    (∀ q2, it.block = some q2 → q2 ∉ P) →
    HeapKeep s (mesh_blit_go data x y z l k s m it).1.1 P ∧
    Shield (mesh_blit_go data x y z l k s m it).1.1
      (mesh_blit_go data x y z l k s m it).1.2 P := by
  induction l with
  | nil => intro k s m it hs _; exact ⟨heapKeep_refl s P, hs⟩
  | cons t rest ih =>
      intro k s m it hs hit
      rw [mesh_blit_go]
      obtain ⟨hk1, hd1, hacc1⟩ := keeps_set_at ⟨x + t.x, y + t.y, z + t.z⟩ (data k)
        (some it) hs (by intro a q2 he hb; injection he with he; subst he; exact hit q2 hb)
      have hs1 := shield_step hs hk1 hd1
      have haccN : ∀ q2,
          ((mesh_set_at s m ⟨x + t.x, y + t.y, z + t.z⟩ (data k) (some it)).2.getD it).block
            = some q2 → q2 ∉ P := by
        intro q2 hb
        rcases ha : (mesh_set_at s m ⟨x + t.x, y + t.y, z + t.z⟩ (data k) (some it)).2 with
          _ | a
        · rw [ha] at hb
          dsimp only [Option.getD] at hb
          exact hit q2 hb
        · rw [ha] at hb
          dsimp only [Option.getD] at hb
          exact hacc1 a q2 ha hb
      obtain ⟨hk2, hs2⟩ := ih (k + 1) _ _ _ hs1 haccN
      exact ⟨heapKeep_trans hk1 hk2, hs2⟩

theorem keeps_blit {s : MemState} {m : Mesh} {P : List ℕ} (data : ℕ → RGBA)
    (x y z w h d : ℤ) (iter : Option MAcc) (hs : Shield s m P)
    (hit : ∀ a q2, iter = some a → a.block = some q2 → q2 ∉ P) :
    HeapKeep s (mesh_blit s m data x y z w h d iter).1 P ∧
    (∀ q ∈ (mesh_blit s m data x y z w h d iter).2.blocks, q ∉ P) := by
  unfold mesh_blit
  dsimp only
  have hit2 : ∀ q2,
      (match iter with | none => accZero | some a => a).block = some q2 → q2 ∉ P := by
    rcases iter with _ | a
    · intro q2 hb; cases hb
    · intro q2 hb; exact hit a q2 rfl hb
  obtain ⟨hk1, hs1⟩ := keeps_blit_go data x y z (blitTriples w h d) 0 s m _ hs hit2
  obtain ⟨hk2, hd2⟩ := keeps_remove_empty hs1
  exact ⟨heapKeep_trans hk1 hk2, hd2⟩

theorem keeps_op {s : MemState} {m : Mesh} {P : List ℕ} (p : Painter) (box : Box)
    (hs : Shield s m P) :
    HeapKeep s (mesh_op s m p box).1.1 P ∧
    Shield (mesh_op s m p box).1.1 (mesh_op s m p box).1.2 P := by
  unfold mesh_op
  exact keeps_op_fuel _ s m p box hs

theorem get_at_of_heapEq {s t : MemState} {v : Mesh}
    (h : ∀ q ∈ v.blocks, t.heap q = s.heap q) (pos : V3i) :
    (mesh_get_at t v pos none).1 = (mesh_get_at s v pos none).1 := by
  rw [mesh_get_at_none, mesh_get_at_none]
  unfold blockVals
  rw [List.map_congr_left h]

/-- C1: after `w = mesh_copy(v)`, every mutating operation applied to `w`
(`set_at`, `apply` = `mesh_op`, `merge`, `blit`, `move`, `clear`,
`shift_alpha`) leaves every sample of `v` unchanged.  The mutation acts on a
state in which `*v->ref ≥ 2`, so its first `mesh_prepare_write` forks the
block list into fresh pointers and no write ever reaches a block of `v`.
The version of `v` is the `id` field of the untouched struct value `v`
(mesh structs are never aliased in `src/mesh.c`: every operation writes
`mesh->id` only through its own argument pointer), so `version(v)` is
unchanged by construction of the model. -/
theorem C1_clone_isolation (s : MemState) (v : Mesh)
    (hb : ∀ q ∈ v.blocks, q < s.nextPtr) (hr : 1 ≤ s.refs v.ref) :
    (∀ pos c pos2, (mesh_get_at
        (mesh_set_at (mesh_copy s v).1 (mesh_copy s v).2 pos c none).1.1 v pos2 none).1
      = (mesh_get_at s v pos2 none).1) ∧
    (∀ p box pos2, (mesh_get_at
        (mesh_op (mesh_copy s v).1 (mesh_copy s v).2 p box).1.1 v pos2 none).1
      = (mesh_get_at s v pos2 none).1) ∧
    (∀ other mode pos2, (mesh_get_at
        (mesh_merge (mesh_copy s v).1 (mesh_copy s v).2 other mode).1 v pos2 none).1
      = (mesh_get_at s v pos2 none).1) ∧
    (∀ data x y z w2 h2 d2 pos2, (mesh_get_at
        (mesh_blit (mesh_copy s v).1 (mesh_copy s v).2 data x y z w2 h2 d2 none).1
        v pos2 none).1
      = (mesh_get_at s v pos2 none).1) ∧
    (∀ mat pos2, (mesh_get_at
        (mesh_move (mesh_copy s v).1 (mesh_copy s v).2 mat).1 v pos2 none).1
      = (mesh_get_at s v pos2 none).1) ∧
    (∀ pos2, (mesh_get_at
        (mesh_clear (mesh_copy s v).1 (mesh_copy s v).2).1 v pos2 none).1
      = (mesh_get_at s v pos2 none).1) ∧
    (∀ val pos2, (mesh_get_at
        (mesh_shift_alpha (mesh_copy s v).1 (mesh_copy s v).2 val).1 v pos2 none).1
      = (mesh_get_at s v pos2 none).1) := by
  have hcopyHeap : ∀ q ∈ v.blocks, (mesh_copy s v).1.heap q = s.heap q :=
    fun q _ => rfl
  have hsh : Shield (mesh_copy s v).1 (mesh_copy s v).2 v.blocks := by
    refine ⟨hb, Or.inl ?_⟩
    unfold mesh_copy MemState.setRef
    dsimp only
    rw [if_pos rfl]
    omega
  have glue : ∀ (t : MemState), HeapKeep (mesh_copy s v).1 t v.blocks →
      ∀ pos2, (mesh_get_at t v pos2 none).1 = (mesh_get_at s v pos2 none).1 := by
    intro t hk pos2
    exact get_at_of_heapEq (fun q hq => (hk.1 q hq).trans (hcopyHeap q hq)) pos2
  refine ⟨?_, ?_, ?_, ?_, ?_, ?_, ?_⟩
  · intro pos c pos2
    exact glue _ (keeps_set_at pos c none hsh (by intro a q2 he; cases he)).1 pos2
  · intro p box pos2
    exact glue _ (keeps_op p box hsh).1 pos2
  · intro other mode pos2
    exact glue _ (keeps_merge other mode hsh).1 pos2
  · intro data x y z w2 h2 d2 pos2
    exact glue _ (keeps_blit data x y z w2 h2 d2 none hsh
      (by intro a q2 he; cases he)).1 pos2
  · intro mat pos2
    exact glue _ (keeps_move mat hsh).1 pos2
  · intro pos2
    exact glue _ (keeps_clear hsh).1 pos2
  · intro val pos2
    exact glue _ (keeps_shift_alpha val hsh).1 pos2

/-- Witness for `C1_clone_isolation`: instantiated on a one-voxel volume,
a concrete write to the clone, read back at the written position. -/
theorem C1_clone_isolation_witness :
    (mesh_get_at (mesh_set_at (mesh_copy c7demo.1 c7demo.2).1
        (mesh_copy c7demo.1 c7demo.2).2 ⟨0, 0, 0⟩ ⟨9, 9, 9, 9⟩ none).1.1
      c7demo.2 ⟨0, 0, 0⟩ none).1
    = (mesh_get_at c7demo.1 c7demo.2 ⟨0, 0, 0⟩ none).1 :=
  (C1_clone_isolation c7demo.1 c7demo.2 (by decide) (by decide)).1 ⟨0, 0, 0⟩
    ⟨9, 9, 9, 9⟩ ⟨0, 0, 0⟩

/-! ## C2: the no-empty-chunk invariant -/

theorem remove_empty_no_empty (s : MemState) (m : Mesh) :
    ∀ b ∈ blockVals (mesh_remove_empty_blocks s m).1 (mesh_remove_empty_blocks s m).2,
      block_is_empty b false = false := by
  intro b hb
  unfold mesh_remove_empty_blocks blockVals at hb
  dsimp only at hb
  obtain ⟨q, hq, he⟩ := List.mem_map.mp hb
  obtain ⟨hq1, hq2⟩ := List.mem_filter.mp hq
  subst he
  simpa using hq2

theorem mesh_get_box_vals (s : MemState) (m : Mesh) (e : Bool) :
    mesh_get_box s m e
      = (blockVals s m).foldl (fun acc b => aabb_merge acc (block_get_box b e)) none := by
  unfold mesh_get_box blockVals
  rw [List.foldl_map]

/-- C2, counterexample to the claim as stated: `mesh_set_at` performs no
empty-block sweep, so writing a fully transparent sample into a fresh volume
leaves a block in the table all of whose samples have alpha 0. -/
theorem C2_no_empty_counterexample :
    c2demo.2.blocks = [0] ∧ block_is_empty (c2demo.1.heap 0) false = true := by
  refine ⟨by decide, ?_⟩
  rw [block_is_empty_iff]
  intro lp _
  have h : (c2demo.1.heap 0).voxels lp
      = (block_set_at (block_new ⟨0, 0, 0⟩) ⟨0, 0, 0⟩ rgbaZero).voxels lp := rfl
  rw [h]
  dsimp only [block_set_at, block_new]
  split <;> rfl

/-- `mesh_move` dispatches on the exact bounding box computed after the
copy-on-write preparation: null box returns the prepared pair, otherwise the
fill runs through `mesh_move_rest`.  Definitional (structure eta). -/
theorem mesh_move_eq (s : MemState) (m : Mesh) (mat : Mat4) :
    mesh_move s m mat =
      match mesh_get_box (mesh_prepare_write (mesh_copy s m).1 m).1
          (mesh_prepare_write (mesh_copy s m).1 m).2 true with
      | none => ((mesh_prepare_write (mesh_copy s m).1 m).1,
                 (mesh_prepare_write (mesh_copy s m).1 m).2)
      | some bb => mesh_move_rest (mesh_prepare_write (mesh_copy s m).1 m).1
          (mesh_prepare_write (mesh_copy s m).1 m).2 (mesh_copy s m).2
          (mat4_inverted mat) mat bb := rfl

/-- C2, amended: the operations that end in `mesh_remove_empty_blocks` or
empty the table — `blit`, `shift_alpha`, `clear`, and `move` whenever the
exact bounding box is non-null — leave no all-transparent block in the
table.  (`set_at`, `merge`, `extrude`, and `apply` have no sweep on all
paths and can leave such blocks; `move` returns before its sweep when the
exact bbox is null.) -/
theorem C2_no_empty_amended (s : MemState) (m : Mesh)
    (hb : ∀ q ∈ m.blocks, q < s.nextPtr) :
    (∀ data x y z w2 h2 d2 it b,
        b ∈ blockVals (mesh_blit s m data x y z w2 h2 d2 it).1
              (mesh_blit s m data x y z w2 h2 d2 it).2 →
        block_is_empty b false = false) ∧
    (∀ val b, b ∈ blockVals (mesh_shift_alpha s m val).1 (mesh_shift_alpha s m val).2 →
        block_is_empty b false = false) ∧
    (∀ b, b ∈ blockVals (mesh_clear s m).1 (mesh_clear s m).2 →
        block_is_empty b false = false) ∧
    (∀ mat b, mesh_get_box s m true ≠ none →
        b ∈ blockVals (mesh_move s m mat).1 (mesh_move s m mat).2 →
        block_is_empty b false = false) := by
  refine ⟨?_, ?_, ?_, ?_⟩
  · intro data x y z w2 h2 d2 it b hmem
    unfold mesh_blit at hmem
    dsimp only at hmem
    exact remove_empty_no_empty _ _ b hmem
  · intro val b hmem
    unfold mesh_shift_alpha at hmem
    dsimp only at hmem
    exact remove_empty_no_empty _ _ b hmem
  · intro b hmem
    unfold mesh_clear blockVals at hmem
    dsimp only at hmem
    cases hmem
  · intro mat b hbox hmem
    have hvals : blockVals (mesh_prepare_write (mesh_copy s m).1 m).1
        (mesh_prepare_write (mesh_copy s m).1 m).2 = blockVals s m :=
      prepare_vals (mesh_copy s m).1 m hb
    have hbox2 : mesh_get_box (mesh_prepare_write (mesh_copy s m).1 m).1
        (mesh_prepare_write (mesh_copy s m).1 m).2 true = mesh_get_box s m true := by
      rw [mesh_get_box_vals, mesh_get_box_vals, hvals]
    rcases hcase : mesh_get_box (mesh_prepare_write (mesh_copy s m).1 m).1
        (mesh_prepare_write (mesh_copy s m).1 m).2 true with _ | bb
    · rw [hcase] at hbox2
      exact absurd hbox2.symm hbox
    · have hmv : mesh_move s m mat
          = mesh_move_rest (mesh_prepare_write (mesh_copy s m).1 m).1
            (mesh_prepare_write (mesh_copy s m).1 m).2 (mesh_copy s m).2
            (mat4_inverted mat) mat bb := by
        rw [mesh_move_eq, hcase]
      rw [hmv] at hmem
      unfold mesh_move_rest at hmem
      dsimp only at hmem
      exact remove_empty_no_empty _ _ b hmem

/-- Witness for `C2_no_empty_amended`: a 1×1×1 white blit on a fresh volume
leaves exactly one block, and the theorem shows it is not all-transparent. -/
theorem C2_no_empty_amended_witness :
    (blockVals (mesh_blit demo0.1 demo0.2 (fun _ => ⟨255, 255, 255, 255⟩) 0 0 0 1 1 1 none).1
        (mesh_blit demo0.1 demo0.2 (fun _ => ⟨255, 255, 255, 255⟩) 0 0 0 1 1 1 none).2).map
      (fun b => block_is_empty b false) = [false] := by
  have h := (C2_no_empty_amended demo0.1 demo0.2 (by decide)).1
    (fun _ => ⟨255, 255, 255, 255⟩) 0 0 0 1 1 1 none
  have hlen : (blockVals (mesh_blit demo0.1 demo0.2
      (fun _ => ⟨255, 255, 255, 255⟩) 0 0 0 1 1 1 none).1
        (mesh_blit demo0.1 demo0.2 (fun _ => ⟨255, 255, 255, 255⟩) 0 0 0 1 1 1 none).2).length
      = 1 := by decide
  rcases hv : blockVals (mesh_blit demo0.1 demo0.2
      (fun _ => ⟨255, 255, 255, 255⟩) 0 0 0 1 1 1 none).1
        (mesh_blit demo0.1 demo0.2 (fun _ => ⟨255, 255, 255, 255⟩) 0 0 0 1 1 1 none).2 with
    _ | ⟨b0, rest⟩
  · rw [hv] at hlen
    cases hlen
  · rcases rest with _ | ⟨b1, rest⟩
    · simp only [List.map_cons, List.map_nil]
      rw [h b0 (by rw [hv]; exact List.mem_cons_self b0 [])]
    · rw [hv] at hlen
      simp at hlen

/-! ## C3: INTERSECT on a non-intersecting chunk (the dead store) -/

/-- C3: in `apply` with mode INTERSECT, a chunk whose tile box does not
intersect the computed `bbox` is *not* removed, contradicting the claim: the
`empty = true` of mesh.c:307 is immediately clobbered by the unconditional
`empty = false` of mesh.c:310.  Concretely: the clipped bbox is `[89,96]³`,
the chunk's tile box `[0,16]³` does not intersect it, yet after the
operation the chunk is still in the table and its sample at the origin is
unchanged. -/
theorem C3_intersect_nonintersecting_block_survives :
    mesh_op_bbox painterClip boxBig = some ⟨⟨89, 89, 89⟩, ⟨96, 96, 96⟩⟩ ∧
    aabb_intersects ⟨⟨89, 89, 89⟩, ⟨96, 96, 96⟩⟩
        (block_tile_box (sFull.heap 0)) = false ∧
    (mesh_op sFull mFull painterClip boxBig).1.2.blocks = [0] ∧
    (mesh_get_at (mesh_op sFull mFull painterClip boxBig).1.1
        (mesh_op sFull mFull painterClip boxBig).1.2 ⟨0, 0, 0⟩ none).1
      = ⟨200, 100, 50, 255⟩ := by
  exact ⟨by decide, by decide, by decide, by decide⟩

/-! ## C4: version ids -/

theorem idok_refl (s : MemState) (m : Mesh) : IdOk s m s m :=
  fun h => ⟨le_refl _, h⟩

theorem idok_trans {s t u : MemState} {m w x : Mesh}
    (h1 : IdOk s m t w) (h2 : IdOk t w u x) : IdOk s m u x := by
  intro h
  obtain ⟨a1, b1⟩ := h1 h
  obtain ⟨a2, b2⟩ := h2 b1
  exact ⟨le_trans a1 a2, b2⟩

theorem idBump_ok {s t : MemState} {m w : Mesh} (h : IdBump s m t w) :
    IdOk s m t w :=
  fun hh => ⟨le_of_lt (h hh).1, (h hh).2⟩

theorem idBump_of_ok_bump {s t u : MemState} {m w x : Mesh}
    (h1 : IdOk s m t w) (h2 : IdBump t w u x) : IdBump s m u x := by
  intro h
  obtain ⟨a1, b1⟩ := h1 h
  obtain ⟨a2, b2⟩ := h2 b1
  exact ⟨lt_of_le_of_lt a1 a2, b2⟩

theorem idBump_of_bump_ok {s t u : MemState} {m w x : Mesh}
    (h1 : IdBump s m t w) (h2 : IdOk t w u x) : IdBump s m u x := by
  intro h
  obtain ⟨a1, b1⟩ := h1 h
  obtain ⟨a2, b2⟩ := h2 b1
  exact ⟨lt_of_lt_of_le a1 a2, b2⟩

theorem prepare_idBump (s : MemState) (m : Mesh) :
    IdBump s m (mesh_prepare_write s m).1 (mesh_prepare_write s m).2 := by
  intro h
  obtain ⟨h1, h2⟩ := prepare_id s m
  rw [h1, h2]
  omega

theorem setHeap_idok (s : MemState) (m : Mesh) (q : ℕ) (b : Block) :
    IdOk s m (s.setHeap q b) m :=
  fun h => ⟨le_refl _, h⟩

theorem delete_idok (s : MemState) (m : Mesh) (src : Mesh) :
    IdOk s m (mesh_delete s src) m :=
  fun h => ⟨le_refl _, h⟩

theorem add_block_idBump (s : MemState) (m : Mesh) (pos : V3i) :
    IdBump s m (mesh_add_block s m pos).1.1 (mesh_add_block s m pos).1.2 := by
  intro h
  exact prepare_idBump s m h

theorem set_at_idBump (s : MemState) (m : Mesh) (pos : V3i) (v : RGBA)
    (iter : Option MAcc) :
    IdBump s m (mesh_set_at s m pos v iter).1.1 (mesh_set_at s m pos v iter).1.2 := by
  unfold mesh_set_at
  dsimp only
  rcases iter with _ | acc
  · dsimp only
    cases hfind : mesh_get_block_at (mesh_prepare_write s m).1
        (mesh_prepare_write s m).2 (tile_of pos) with
    | none =>
        dsimp only
        exact idBump_of_bump_ok (idBump_of_bump_ok (prepare_idBump s m)
          (idBump_ok (add_block_idBump _ _ _))) (setHeap_idok _ _ _ _)
    | some q =>
        dsimp only
        exact idBump_of_bump_ok (prepare_idBump s m) (setHeap_idok _ _ _ _)
  · dsimp only
    by_cases hcond : acc.found = true ∧ acc.pos = tile_of pos
    · rw [if_pos hcond]
      cases hab : acc.block with
      | none =>
          dsimp only
          exact idBump_of_bump_ok (idBump_of_bump_ok (prepare_idBump s m)
            (idBump_ok (add_block_idBump _ _ _))) (setHeap_idok _ _ _ _)
      | some q =>
          dsimp only
          exact idBump_of_bump_ok (prepare_idBump s m) (setHeap_idok _ _ _ _)
    · rw [if_neg hcond]
      cases hfind : mesh_get_block_at (mesh_prepare_write s m).1
          (mesh_prepare_write s m).2 (tile_of pos) with
      | none =>
          dsimp only
          exact idBump_of_bump_ok (idBump_of_bump_ok (prepare_idBump s m)
            (idBump_ok (add_block_idBump _ _ _))) (setHeap_idok _ _ _ _)
      | some q =>
          dsimp only
          exact idBump_of_bump_ok (prepare_idBump s m) (setHeap_idok _ _ _ _)

theorem addBlocksGo_idok (tiles : List V3i) :
    ∀ (s : MemState) (m : Mesh),
      IdOk s m (addBlocksGo tiles s m).1 (addBlocksGo tiles s m).2 := by
  induction tiles with
  | nil => intro s m; exact idok_refl s m
  | cons t rest ih =>
      intro s m
      rw [addBlocksGo]
      split
      · exact ih s m
      · exact idok_trans (idBump_ok (add_block_idBump s m t)) (ih _ _)

theorem add_blocks_idok (s : MemState) (m : Mesh) (box : AabbNN) :
    IdOk s m (add_blocks s m box).1 (add_blocks s m box).2 := by
  unfold add_blocks
  exact addBlocksGo_idok _ s m

theorem clear_idBump (s : MemState) (m : Mesh) :
    IdBump s m (mesh_clear s m).1 (mesh_clear s m).2 := by
  intro h
  exact prepare_idBump s m h

theorem remove_empty_idBump (s : MemState) (m : Mesh) :
    IdBump s m (mesh_remove_empty_blocks s m).1 (mesh_remove_empty_blocks s m).2 := by
  intro h
  exact prepare_idBump s m h

theorem fillGo_nextUid (gc : MemState → V3i → RGBA) (l : List ℕ) :
    ∀ s : MemState, (fillGo gc l s).nextUid = s.nextUid := by
  induction l with
  | nil => intro s; rfl
  | cons q rest ih =>
      intro s
      rw [fillGo]
      exact ih _

theorem shiftGo_nextUid (v : ℤ) (l : List ℕ) :
    ∀ s : MemState, (shiftGo v l s).nextUid = s.nextUid := by
  induction l with
  | nil => intro s; rfl
  | cons q rest ih =>
      intro s
      rw [shiftGo]
      exact ih _

theorem fillGo_idok (gc : MemState → V3i → RGBA) (l : List ℕ) (s : MemState)
    (m : Mesh) : IdOk s m (fillGo gc l s) m := by
  intro h
  refine ⟨le_refl _, ?_⟩
  rw [fillGo_nextUid]
  exact h

theorem shiftGo_idok (v : ℤ) (l : List ℕ) (s : MemState) (m : Mesh) :
    IdOk s m (shiftGo v l s) m := by
  intro h
  refine ⟨le_refl _, ?_⟩
  rw [shiftGo_nextUid]
  exact h

theorem mesh_fill_idBump (s : MemState) (m : Mesh) (box : Box)
    (gc : MemState → V3i → RGBA) :
    IdBump s m (mesh_fill s m box gc).1 (mesh_fill s m box gc).2 :=
  idBump_of_bump_ok (idBump_of_bump_ok (clear_idBump s m)
    (add_blocks_idok _ _ _)) (fillGo_idok _ _ _ _)

theorem shift_alpha_idBump (s : MemState) (m : Mesh) (v : ℤ) :
    IdBump s m (mesh_shift_alpha s m v).1 (mesh_shift_alpha s m v).2 :=
  idBump_of_bump_ok (idBump_of_bump_ok (prepare_idBump s m)
    (shiftGo_idok _ _ _ _)) (idBump_ok (remove_empty_idBump _ _))

theorem mergeAddGo_idok (ob : List ℕ) :
    ∀ (s : MemState) (m : Mesh),
      IdOk s m (mergeAddGo ob s m).1 (mergeAddGo ob s m).2 := by
  induction ob with
  | nil => intro s m; exact idok_refl s m
  | cons q rest ih =>
      intro s m
      rw [mergeAddGo]
      split
      · exact ih s m
      · exact idok_trans (idBump_ok (add_block_idBump s m _)) (ih _ _)

theorem merge_loop_idok (other : Mesh) (mode : Mode) (l : List ℕ) :
    ∀ (s : MemState) (m : Mesh),
      IdOk s m (mesh_merge_loop other mode l s m).1
        (mesh_merge_loop other mode l s m).2 := by
  induction l with
  | nil => intro s m; exact idok_refl s m
  | cons q rest ih =>
      intro s m
      rw [mesh_merge_loop]
      split
      · exact ih s { m with blocks := m.blocks.erase q }
      · exact ih (s.setHeap q (block_merge (s.heap q)
          ((mesh_get_block_at s other (s.heap q).pos).map s.heap) mode)) m

theorem mesh_merge_idBump (s : MemState) (m : Mesh) (other : Mesh)
    (mode : Mode) :
    IdBump s m (mesh_merge s m other mode).1 (mesh_merge s m other mode).2 := by
  unfold mesh_merge
  dsimp only
  split
  · exact idBump_of_bump_ok (idBump_of_bump_ok (prepare_idBump s m)
      (mergeAddGo_idok _ _ _)) (merge_loop_idok _ _ _ _ _)
  · exact idBump_of_bump_ok (prepare_idBump s m) (merge_loop_idok _ _ _ _ _)

theorem blit_go_idok (data : ℕ → RGBA) (x y z : ℤ) (l : List V3i) :
    ∀ (k : ℕ) (s : MemState) (m : Mesh) (it : MAcc),
      IdOk s m (mesh_blit_go data x y z l k s m it).1.1
        (mesh_blit_go data x y z l k s m it).1.2 := by
  induction l with
  | nil => intro k s m it; exact idok_refl s m
  | cons t rest ih =>
      intro k s m it
      rw [mesh_blit_go]
      exact idok_trans (idBump_ok (set_at_idBump _ _ _ _ _)) (ih _ _ _ _)

theorem mesh_blit_idBump (s : MemState) (m : Mesh) (data : ℕ → RGBA)
    (x y z w h d : ℤ) (iter : Option MAcc) :
    IdBump s m (mesh_blit s m data x y z w h d iter).1
      (mesh_blit s m data x y z w h d iter).2 := by
  unfold mesh_blit
  dsimp only
  exact idBump_of_ok_bump (blit_go_idok _ _ _ _ _ _ _ _ _)
    (remove_empty_idBump _ _)

theorem move_rest_idok (s : MemState) (m : Mesh) (src : Mesh)
    (imat mat : Mat4) (bb : AabbNN) :
    IdOk s m (mesh_move_rest s m src imat mat bb).1
      (mesh_move_rest s m src imat mat bb).2 := by
  unfold mesh_move_rest
  dsimp only
  exact idok_trans (idBump_ok (mesh_fill_idBump _ _ _ _))
    (idok_trans (delete_idok _ _ _) (idBump_ok (remove_empty_idBump _ _)))

theorem mesh_move_idBump (s : MemState) (m : Mesh) (mat : Mat4) :
    IdBump s m (mesh_move s m mat).1 (mesh_move s m mat).2 := by
  have hpre : IdBump s m (mesh_prepare_write (mesh_copy s m).1 m).1
      (mesh_prepare_write (mesh_copy s m).1 m).2 := by
    intro h
    exact prepare_idBump (mesh_copy s m).1 m h
  rcases hbb : mesh_get_box (mesh_prepare_write (mesh_copy s m).1 m).1
      (mesh_prepare_write (mesh_copy s m).1 m).2 true with _ | bb
  · have he : mesh_move s m mat
        = ((mesh_prepare_write (mesh_copy s m).1 m).1,
           (mesh_prepare_write (mesh_copy s m).1 m).2) := by
      rw [mesh_move_eq, hbb]
    rw [he]
    exact hpre
  · have he : mesh_move s m mat
        = mesh_move_rest (mesh_prepare_write (mesh_copy s m).1 m).1
            (mesh_prepare_write (mesh_copy s m).1 m).2 (mesh_copy s m).2
            (mat4_inverted mat) mat bb := by
      rw [mesh_move_eq, hbb]
    rw [he]
    exact idBump_of_bump_ok hpre (move_rest_idok _ _ _ _ _ _)

theorem mesh_extrude_idBump (s : MemState) (m : Mesh) (plane : Plane)
    (box : AabbNN) :
    IdBump s m (mesh_extrude s m plane box).1 (mesh_extrude s m plane box).2 := by
  unfold mesh_extrude
  dsimp only
  exact idBump_of_bump_ok (idBump_of_bump_ok (prepare_idBump s m)
    (add_blocks_idok _ _ _)) (fillGo_idok _ _ _ _)

theorem op_loop_idok (p : Painter) (box full_box : Box) (bbox : AabbNN)
    (l : List ℕ) :
    ∀ (s : MemState) (m : Mesh),
      IdOk s m (mesh_op_loop p box full_box bbox l s m).1
        (mesh_op_loop p box full_box bbox l s m).2 := by
  induction l with
  | nil => intro s m; exact idok_refl s m
  | cons q rest ih =>
      intro s m
      rw [mesh_op_loop]
      split
      · exact ih s m
      · dsimp only
        split
        · rw [if_pos rfl]
          exact ih s { m with blocks := m.blocks.erase q }
        · rw [if_neg (by simp)]
          split
          · exact idok_trans (setHeap_idok s m q (block_op p box (s.heap q)))
              (ih (s.setHeap q (block_op p box (s.heap q)))
                { m with blocks := m.blocks.erase q })
          · exact idok_trans (setHeap_idok s m q (block_op p box (s.heap q)))
              (ih (s.setHeap q (block_op p box (s.heap q))) m)

theorem op_core_idBump (s : MemState) (m : Mesh) (p : Painter) (box : Box)
    (bbox : AabbNN) :
    IdBump s m (mesh_op_core s m p box bbox).1 (mesh_op_core s m p box bbox).2 := by
  unfold mesh_op_core
  dsimp only
  split
  · exact idBump_of_bump_ok (idBump_of_bump_ok (prepare_idBump s m)
      (add_blocks_idok _ _ _)) (op_loop_idok p box _ bbox _ _ _)
  · exact idBump_of_bump_ok (prepare_idBump s m) (op_loop_idok p box _ bbox _ _ _)

theorem op_prim_idok (s : MemState) (m : Mesh) (p : Painter) (box : Box) :
    IdOk s m (mesh_op_prim s m p box).1 (mesh_op_prim s m p box).2 := by
  unfold mesh_op_prim
  rcases hbb : mesh_op_bbox p box with _ | bbox
  · exact idok_refl s m
  · exact idBump_ok (op_core_idBump s m p box bbox)

theorem op_prim_idBump (s : MemState) (m : Mesh) (p : Painter) (box : Box)
    (h : mesh_op_bbox p box ≠ none) :
    IdBump s m (mesh_op_prim s m p box).1 (mesh_op_prim s m p box).2 := by
  unfold mesh_op_prim
  rcases hbb : mesh_op_bbox p box with _ | bbox
  · exact absurd hbb h
  · exact op_core_idBump s m p box bbox

theorem op_fuel_idok (f : ℕ) :
    ∀ (s : MemState) (m : Mesh) (p : Painter) (box : Box),
      IdOk s m (mesh_op_fuel f s m p box).1.1 (mesh_op_fuel f s m p box).1.2 := by
  induction f with
  | zero => intro s m p box; exact idok_refl s m
  | succ f ih =>
      intro s m p box
      rw [mesh_op_fuel]
      split
      · exact op_prim_idok _ _ p box
      · dsimp only
        split
        · split
          · split
            · exact idok_trans (ih _ _ _ _) (idok_trans (ih _ _ _ _)
                (idok_trans (ih _ _ _ _) (op_prim_idok _ _ p box)))
            · exact idok_trans (ih _ _ _ _) (idok_trans (ih _ _ _ _)
                (op_prim_idok _ _ p box))
          · split
            · exact idok_trans (ih _ _ _ _) (idok_trans (ih _ _ _ _)
                (op_prim_idok _ _ p box))
            · exact idok_trans (ih _ _ _ _) (op_prim_idok _ _ p box)
        · split
          · split
            · exact idok_trans (ih _ _ _ _) (idok_trans (ih _ _ _ _)
                (op_prim_idok _ _ p box))
            · exact idok_trans (ih _ _ _ _) (op_prim_idok _ _ p box)
          · split
            · exact idok_trans (ih _ _ _ _) (op_prim_idok _ _ p box)
            · exact op_prim_idok _ _ p box

theorem op_fuel_idBump (f : ℕ) (s : MemState) (m : Mesh) (p : Painter)
    (box : Box) (h : mesh_op_bbox p box ≠ none) :
    IdBump s m (mesh_op_fuel (f + 1) s m p box).1.1
      (mesh_op_fuel (f + 1) s m p box).1.2 := by
  rw [mesh_op_fuel]
  split
  · exact op_prim_idBump _ _ p box h
  · dsimp only
    split
    · split
      · split
        · exact idBump_of_ok_bump (idok_trans (op_fuel_idok f _ _ _ _)
            (idok_trans (op_fuel_idok f _ _ _ _) (op_fuel_idok f _ _ _ _)))
            (op_prim_idBump _ _ p box h)
        · exact idBump_of_ok_bump (idok_trans (op_fuel_idok f _ _ _ _)
            (op_fuel_idok f _ _ _ _)) (op_prim_idBump _ _ p box h)
      · split
        · exact idBump_of_ok_bump (idok_trans (op_fuel_idok f _ _ _ _)
            (op_fuel_idok f _ _ _ _)) (op_prim_idBump _ _ p box h)
        · exact idBump_of_ok_bump (op_fuel_idok f _ _ _ _)
            (op_prim_idBump _ _ p box h)
    · split
      · split
        · exact idBump_of_ok_bump (idok_trans (op_fuel_idok f _ _ _ _)
            (op_fuel_idok f _ _ _ _)) (op_prim_idBump _ _ p box h)
        · exact idBump_of_ok_bump (op_fuel_idok f _ _ _ _)
            (op_prim_idBump _ _ p box h)
      · split
        · exact idBump_of_ok_bump (op_fuel_idok f _ _ _ _)
            (op_prim_idBump _ _ p box h)
        · exact op_prim_idBump _ _ p box h

theorem mesh_op_idBump (s : MemState) (m : Mesh) (p : Painter) (box : Box)
    (h : mesh_op_bbox p box ≠ none) :
    IdBump s m (mesh_op s m p box).1.1 (mesh_op s m p box).1.2 := by
  unfold mesh_op
  exact op_fuel_idBump p.symmetry s m p box h

/-- C4, counterexample to the claim as stated: `mesh_op` returns *before*
`mesh_prepare_write` when the clipped bounding box is null (mesh.c:295), so
this `apply` is a mutating operation that does not increase the version
id. -/
theorem C4_version_counterexample :
    mFull.id < sFull.nextUid ∧
    mesh_op_bbox painterClipMiss boxUnit = none ∧
    (mesh_op sFull mFull painterClipMiss boxUnit).1.2.id = mFull.id := by
  exact ⟨by decide, by decide, by decide⟩

/-- C4, amended: under the uid-counter invariant `m.id < s.nextUid`, the
mutating operations `set_at`, `merge`, `blit`, `move`, `clear`,
`shift_alpha` and `extrude` strictly increase the version id, and `apply`
does whenever its computed bounding box is non-null (it returns before the
version bump when the box is null); `clone` copies the version id
unchanged and does not touch the original struct. -/
theorem C4_version_amended (s : MemState) (m : Mesh) (h : m.id < s.nextUid) :
    (∀ pos c it, m.id < (mesh_set_at s m pos c it).1.2.id) ∧
    (∀ p box, mesh_op_bbox p box ≠ none → m.id < (mesh_op s m p box).1.2.id) ∧
    (∀ other mode, m.id < (mesh_merge s m other mode).2.id) ∧
    (∀ data x y z w2 h2 d2 it, m.id < (mesh_blit s m data x y z w2 h2 d2 it).2.id) ∧
    (∀ mat, m.id < (mesh_move s m mat).2.id) ∧
    m.id < (mesh_clear s m).2.id ∧
    (∀ val, m.id < (mesh_shift_alpha s m val).2.id) ∧
    (∀ plane box, m.id < (mesh_extrude s m plane box).2.id) ∧
    (mesh_copy s m).2.id = m.id := by
  refine ⟨?_, ?_, ?_, ?_, ?_, ?_, ?_, ?_, rfl⟩
  · intro pos c it
    exact (set_at_idBump s m pos c it h).1
  · intro p box hb
    exact (mesh_op_idBump s m p box hb h).1
  · intro other mode
    exact (mesh_merge_idBump s m other mode h).1
  · intro data x y z w2 h2 d2 it
    exact (mesh_blit_idBump s m data x y z w2 h2 d2 it h).1
  · intro mat
    exact (mesh_move_idBump s m mat h).1
  · exact (clear_idBump s m h).1
  · intro val
    exact (shift_alpha_idBump s m val h).1
  · intro plane box
    exact (mesh_extrude_idBump s m plane box h).1

/-- Witness for `C4_version_amended`: clearing a fresh volume bumps its
version id. -/
theorem C4_version_amended_witness :
    demo0.2.id < (mesh_clear demo0.1 demo0.2).2.id :=
  (C4_version_amended demo0.1 demo0.2 (by decide)).2.2.2.2.2.1

/-! ## C5: termination of the symmetry expansion -/

theorem clearBit_le (x i : ℕ) : clearBit x i ≤ x := by
  unfold clearBit
  split
  · exact Nat.sub_le x _
  · exact le_refl x

theorem clearBit_lt {x i : ℕ} (h : x.testBit i = true) : clearBit x i < x := by
  have hge := Nat.testBit_implies_ge h
  have hpos : 0 < 2 ^ i := pow_pos (by omega) i
  unfold clearBit
  rw [h, if_pos rfl]
  omega

theorem testBit_clearBit00 (x : ℕ) : (clearBit x 0).testBit 0 = false := by
  unfold clearBit
  rcases h : x.testBit 0 with _ | _
  · rw [if_neg Bool.false_ne_true]
    exact h
  · rw [if_pos rfl]
    rw [Nat.testBit_to_div_mod, decide_eq_true_eq] at h
    rw [Nat.testBit_to_div_mod, decide_eq_false_iff_not]
    simp only [pow_zero, pow_one, show (2:ℕ)^2 = 4 from by norm_num, Nat.div_one] at h ⊢
    omega

theorem testBit_clearBit01 (x : ℕ) : (clearBit x 0).testBit 1 = x.testBit 1 := by
  unfold clearBit
  rcases h : x.testBit 0 with _ | _
  · rw [if_neg Bool.false_ne_true]
  · rw [if_pos rfl]
    rw [Nat.testBit_to_div_mod, decide_eq_true_eq] at h
    rw [Nat.testBit_to_div_mod, Nat.testBit_to_div_mod]
    refine decide_eq_decide.mpr ?_
    simp only [pow_zero, pow_one, show (2:ℕ)^2 = 4 from by norm_num, Nat.div_one] at h ⊢
    omega

theorem testBit_clearBit02 (x : ℕ) : (clearBit x 0).testBit 2 = x.testBit 2 := by
  unfold clearBit
  rcases h : x.testBit 0 with _ | _
  · rw [if_neg Bool.false_ne_true]
  · rw [if_pos rfl]
    rw [Nat.testBit_to_div_mod, decide_eq_true_eq] at h
    rw [Nat.testBit_to_div_mod, Nat.testBit_to_div_mod]
    refine decide_eq_decide.mpr ?_
    simp only [pow_zero, pow_one, show (2:ℕ)^2 = 4 from by norm_num, Nat.div_one] at h ⊢
    omega

theorem testBit_clearBit10 (x : ℕ) : (clearBit x 1).testBit 0 = x.testBit 0 := by
  unfold clearBit
  rcases h : x.testBit 1 with _ | _
  · rw [if_neg Bool.false_ne_true]
  · rw [if_pos rfl]
    rw [Nat.testBit_to_div_mod, decide_eq_true_eq] at h
    rw [Nat.testBit_to_div_mod, Nat.testBit_to_div_mod]
    refine decide_eq_decide.mpr ?_
    simp only [pow_zero, pow_one, show (2:ℕ)^2 = 4 from by norm_num, Nat.div_one] at h ⊢
    omega

theorem testBit_clearBit11 (x : ℕ) : (clearBit x 1).testBit 1 = false := by
  unfold clearBit
  rcases h : x.testBit 1 with _ | _
  · rw [if_neg Bool.false_ne_true]
    exact h
  · rw [if_pos rfl]
    rw [Nat.testBit_to_div_mod, decide_eq_true_eq] at h
    rw [Nat.testBit_to_div_mod, decide_eq_false_iff_not]
    simp only [pow_zero, pow_one, show (2:ℕ)^2 = 4 from by norm_num, Nat.div_one] at h ⊢
    omega

theorem testBit_clearBit12 (x : ℕ) : (clearBit x 1).testBit 2 = x.testBit 2 := by
  unfold clearBit
  rcases h : x.testBit 1 with _ | _
  · rw [if_neg Bool.false_ne_true]
  · rw [if_pos rfl]
    rw [Nat.testBit_to_div_mod, decide_eq_true_eq] at h
    rw [Nat.testBit_to_div_mod, Nat.testBit_to_div_mod]
    refine decide_eq_decide.mpr ?_
    simp only [pow_zero, pow_one, show (2:ℕ)^2 = 4 from by norm_num, Nat.div_one] at h ⊢
    omega

theorem testBit_clearBit20 (x : ℕ) : (clearBit x 2).testBit 0 = x.testBit 0 := by
  unfold clearBit
  rcases h : x.testBit 2 with _ | _
  · rw [if_neg Bool.false_ne_true]
  · rw [if_pos rfl]
    rw [Nat.testBit_to_div_mod, decide_eq_true_eq] at h
    rw [Nat.testBit_to_div_mod, Nat.testBit_to_div_mod]
    refine decide_eq_decide.mpr ?_
    simp only [pow_zero, pow_one, show (2:ℕ)^2 = 4 from by norm_num, Nat.div_one] at h ⊢
    omega

theorem testBit_clearBit21 (x : ℕ) : (clearBit x 2).testBit 1 = x.testBit 1 := by
  unfold clearBit
  rcases h : x.testBit 2 with _ | _
  · rw [if_neg Bool.false_ne_true]
  · rw [if_pos rfl]
    rw [Nat.testBit_to_div_mod, decide_eq_true_eq] at h
    rw [Nat.testBit_to_div_mod, Nat.testBit_to_div_mod]
    refine decide_eq_decide.mpr ?_
    simp only [pow_zero, pow_one, show (2:ℕ)^2 = 4 from by norm_num, Nat.div_one] at h ⊢
    omega

theorem testBit_clearBit22 (x : ℕ) : (clearBit x 2).testBit 2 = false := by
  unfold clearBit
  rcases h : x.testBit 2 with _ | _
  · rw [if_neg Bool.false_ne_true]
    exact h
  · rw [if_pos rfl]
    rw [Nat.testBit_to_div_mod, decide_eq_true_eq] at h
    rw [Nat.testBit_to_div_mod, decide_eq_false_iff_not]
    simp only [pow_zero, pow_one, show (2:ℕ)^2 = 4 from by norm_num, Nat.div_one] at h ⊢
    omega

theorem op_fuel_congr : ∀ (f g : ℕ) (s : MemState) (m : Mesh) (p : Painter)
    (box : Box), p.symmetry < f → p.symmetry < g →
    mesh_op_fuel f s m p box = mesh_op_fuel g s m p box := by
  intro f
  induction f with
  | zero => intro g s m p box h1 h2; omega
  | succ f ih =>
      intro g s m p box h1 h2
      match g, h2 with
      | g + 1, h2 =>
      rw [mesh_op_fuel, mesh_op_fuel]
      by_cases hz : p.symmetry = 0
      · rw [if_pos hz, if_pos hz]
      · rw [if_neg hz, if_neg hz]
        dsimp only
        split
        · split
          · split
            · rename_i hb2 hb1 hb0
              try dsimp only
              have hcb0 := clearBit_lt hb0
              have h01 := testBit_clearBit01 p.symmetry
              rw [hb1] at h01
              have hcb1 := clearBit_lt h01
              have h12 := testBit_clearBit12 (clearBit p.symmetry 0)
              rw [testBit_clearBit02 p.symmetry, hb2] at h12
              have hcb2 := clearBit_lt h12
              rw [ih g s m { shape := p.shape, mode := p.mode, smoothness := p.smoothness, color := p.color, symmetry := clearBit p.symmetry 0, box := p.box } (boxReflect 0 box) (by dsimp only; omega) (by dsimp only; omega)]
              generalize mesh_op_fuel g s m { shape := p.shape, mode := p.mode, smoothness := p.smoothness, color := p.color, symmetry := clearBit p.symmetry 0, box := p.box } (boxReflect 0 box) = r1
              rw [ih g r1.1.1 r1.1.2 { shape := p.shape, mode := p.mode, smoothness := p.smoothness, color := p.color, symmetry := clearBit (clearBit p.symmetry 0) 1, box := p.box } (boxReflect 1 box) (by dsimp only; omega) (by dsimp only; omega)]
              generalize mesh_op_fuel g r1.1.1 r1.1.2 { shape := p.shape, mode := p.mode, smoothness := p.smoothness, color := p.color, symmetry := clearBit (clearBit p.symmetry 0) 1, box := p.box } (boxReflect 1 box) = r2
              rw [ih g r2.1.1 r2.1.2 { shape := p.shape, mode := p.mode, smoothness := p.smoothness, color := p.color, symmetry := clearBit (clearBit (clearBit p.symmetry 0) 1) 2, box := p.box } (boxReflect 2 box) (by dsimp only; omega) (by dsimp only; omega)]
            · rename_i hb2 hb1 hb0
              try dsimp only
              have hcb1 := clearBit_lt hb1
              have h12 := testBit_clearBit12 p.symmetry
              rw [hb2] at h12
              have hcb2 := clearBit_lt h12
              rw [ih g s m { shape := p.shape, mode := p.mode, smoothness := p.smoothness, color := p.color, symmetry := clearBit (p.symmetry) 1, box := p.box } (boxReflect 1 box) (by dsimp only; omega) (by dsimp only; omega)]
              generalize mesh_op_fuel g s m { shape := p.shape, mode := p.mode, smoothness := p.smoothness, color := p.color, symmetry := clearBit (p.symmetry) 1, box := p.box } (boxReflect 1 box) = r1
              rw [ih g r1.1.1 r1.1.2 { shape := p.shape, mode := p.mode, smoothness := p.smoothness, color := p.color, symmetry := clearBit (clearBit (p.symmetry) 1) 2, box := p.box } (boxReflect 2 box) (by dsimp only; omega) (by dsimp only; omega)]
          · split
            · rename_i hb2 hb1 hb0
              try dsimp only
              have hcb0 := clearBit_lt hb0
              have h02 := testBit_clearBit02 p.symmetry
              rw [hb2] at h02
              have hcb2 := clearBit_lt h02
              rw [ih g s m { shape := p.shape, mode := p.mode, smoothness := p.smoothness, color := p.color, symmetry := clearBit p.symmetry 0, box := p.box } (boxReflect 0 box) (by dsimp only; omega) (by dsimp only; omega)]
              generalize mesh_op_fuel g s m { shape := p.shape, mode := p.mode, smoothness := p.smoothness, color := p.color, symmetry := clearBit p.symmetry 0, box := p.box } (boxReflect 0 box) = r1
              rw [ih g r1.1.1 r1.1.2 { shape := p.shape, mode := p.mode, smoothness := p.smoothness, color := p.color, symmetry := clearBit (clearBit p.symmetry 0) 2, box := p.box } (boxReflect 2 box) (by dsimp only; omega) (by dsimp only; omega)]
            · rename_i hb2 hb1 hb0
              try dsimp only
              have hcb2 := clearBit_lt hb2
              rw [ih g s m { shape := p.shape, mode := p.mode, smoothness := p.smoothness, color := p.color, symmetry := clearBit (p.symmetry) 2, box := p.box } (boxReflect 2 box) (by dsimp only; omega) (by dsimp only; omega)]
        · split
          · split
            · rename_i hb2 hb1 hb0
              try dsimp only
              have hcb0 := clearBit_lt hb0
              have h01 := testBit_clearBit01 p.symmetry
              rw [hb1] at h01
              have hcb1 := clearBit_lt h01
              rw [ih g s m { shape := p.shape, mode := p.mode, smoothness := p.smoothness, color := p.color, symmetry := clearBit p.symmetry 0, box := p.box } (boxReflect 0 box) (by dsimp only; omega) (by dsimp only; omega)]
              generalize mesh_op_fuel g s m { shape := p.shape, mode := p.mode, smoothness := p.smoothness, color := p.color, symmetry := clearBit p.symmetry 0, box := p.box } (boxReflect 0 box) = r1
              rw [ih g r1.1.1 r1.1.2 { shape := p.shape, mode := p.mode, smoothness := p.smoothness, color := p.color, symmetry := clearBit (clearBit p.symmetry 0) 1, box := p.box } (boxReflect 1 box) (by dsimp only; omega) (by dsimp only; omega)]
            · rename_i hb2 hb1 hb0
              try dsimp only
              have hcb1 := clearBit_lt hb1
              rw [ih g s m { shape := p.shape, mode := p.mode, smoothness := p.smoothness, color := p.color, symmetry := clearBit (p.symmetry) 1, box := p.box } (boxReflect 1 box) (by dsimp only; omega) (by dsimp only; omega)]
          · split
            · rename_i hb2 hb1 hb0
              try dsimp only
              have hcb0 := clearBit_lt hb0
              rw [ih g s m { shape := p.shape, mode := p.mode, smoothness := p.smoothness, color := p.color, symmetry := clearBit p.symmetry 0, box := p.box } (boxReflect 0 box) (by dsimp only; omega) (by dsimp only; omega)]
            · rfl

theorem op_fuel_count (f : ℕ) :
    ∀ (s : MemState) (m : Mesh) (p : Painter) (box : Box),
      (mesh_op_fuel f s m p box).2 ≤ 2 ^ low3 p.symmetry := by
  induction f with
  | zero => intro s m p box; exact Nat.zero_le _
  | succ f ih =>
      intro s m p box
      rw [mesh_op_fuel]
      split
      · exact Nat.one_le_two_pow
      · dsimp only
        split
        · split
          · split
            · rename_i hb2 hb1 hb0
              try dsimp only
              have hl0 : low3 p.symmetry = 3 := by
                unfold low3
                rw [hb0, hb1, hb2]
                try rfl
              have hl1 : low3 (clearBit p.symmetry 0) = 2 := by
                unfold low3
                rw [testBit_clearBit00, testBit_clearBit01, testBit_clearBit02, hb1, hb2]
                try rfl
              have hl2 : low3 (clearBit (clearBit p.symmetry 0) 1) = 1 := by
                unfold low3
                rw [testBit_clearBit10, testBit_clearBit11, testBit_clearBit12, testBit_clearBit00, testBit_clearBit02, hb2]
                try rfl
              have hl3 : low3 (clearBit (clearBit (clearBit p.symmetry 0) 1) 2) = 0 := by
                unfold low3
                rw [testBit_clearBit20, testBit_clearBit21, testBit_clearBit22, testBit_clearBit10, testBit_clearBit00, testBit_clearBit11]
                try rfl
              generalize hr1 : mesh_op_fuel f s m { shape := p.shape, mode := p.mode, smoothness := p.smoothness, color := p.color, symmetry := clearBit p.symmetry 0, box := p.box } (boxReflect 0 box) = r1
              have hc1 := ih s m { shape := p.shape, mode := p.mode, smoothness := p.smoothness, color := p.color, symmetry := clearBit p.symmetry 0, box := p.box } (boxReflect 0 box)
              rw [hr1] at hc1
              dsimp only at hc1
              rw [hl1, show (2:ℕ) ^ 2 = 4 from by norm_num] at hc1
              generalize hr2 : mesh_op_fuel f r1.1.1 r1.1.2 { shape := p.shape, mode := p.mode, smoothness := p.smoothness, color := p.color, symmetry := clearBit (clearBit p.symmetry 0) 1, box := p.box } (boxReflect 1 box) = r2
              have hc2 := ih r1.1.1 r1.1.2 { shape := p.shape, mode := p.mode, smoothness := p.smoothness, color := p.color, symmetry := clearBit (clearBit p.symmetry 0) 1, box := p.box } (boxReflect 1 box)
              rw [hr2] at hc2
              dsimp only at hc2
              rw [hl2, show (2:ℕ) ^ 1 = 2 from by norm_num] at hc2
              generalize hr3 : mesh_op_fuel f r2.1.1 r2.1.2 { shape := p.shape, mode := p.mode, smoothness := p.smoothness, color := p.color, symmetry := clearBit (clearBit (clearBit p.symmetry 0) 1) 2, box := p.box } (boxReflect 2 box) = r3
              have hc3 := ih r2.1.1 r2.1.2 { shape := p.shape, mode := p.mode, smoothness := p.smoothness, color := p.color, symmetry := clearBit (clearBit (clearBit p.symmetry 0) 1) 2, box := p.box } (boxReflect 2 box)
              rw [hr3] at hc3
              dsimp only at hc3
              rw [hl3, show (2:ℕ) ^ 0 = 1 from by norm_num] at hc3
              rw [hl0, show (2:ℕ) ^ 3 = 8 from by norm_num]
              try omega
            · rename_i hb2 hb1 hb0
              try dsimp only
              have hb0f : p.symmetry.testBit 0 = false := by
                rcases hh : p.symmetry.testBit 0 with _ | _
                · rfl
                · exact absurd hh hb0
              have hl0 : low3 p.symmetry = 2 := by
                unfold low3
                rw [hb0f, hb1, hb2]
                try rfl
              have hl2 : low3 (clearBit (p.symmetry) 1) = 1 := by
                unfold low3
                rw [testBit_clearBit10, testBit_clearBit11, testBit_clearBit12, hb0f, hb2]
                try rfl
              have hl3 : low3 (clearBit (clearBit (p.symmetry) 1) 2) = 0 := by
                unfold low3
                rw [testBit_clearBit20, testBit_clearBit21, testBit_clearBit22, testBit_clearBit10, hb0f, testBit_clearBit11]
                try rfl
              generalize hr1 : mesh_op_fuel f s m { shape := p.shape, mode := p.mode, smoothness := p.smoothness, color := p.color, symmetry := clearBit (p.symmetry) 1, box := p.box } (boxReflect 1 box) = r1
              have hc1 := ih s m { shape := p.shape, mode := p.mode, smoothness := p.smoothness, color := p.color, symmetry := clearBit (p.symmetry) 1, box := p.box } (boxReflect 1 box)
              rw [hr1] at hc1
              dsimp only at hc1
              rw [hl2, show (2:ℕ) ^ 1 = 2 from by norm_num] at hc1
              generalize hr2 : mesh_op_fuel f r1.1.1 r1.1.2 { shape := p.shape, mode := p.mode, smoothness := p.smoothness, color := p.color, symmetry := clearBit (clearBit (p.symmetry) 1) 2, box := p.box } (boxReflect 2 box) = r2
              have hc2 := ih r1.1.1 r1.1.2 { shape := p.shape, mode := p.mode, smoothness := p.smoothness, color := p.color, symmetry := clearBit (clearBit (p.symmetry) 1) 2, box := p.box } (boxReflect 2 box)
              rw [hr2] at hc2
              dsimp only at hc2
              rw [hl3, show (2:ℕ) ^ 0 = 1 from by norm_num] at hc2
              rw [hl0, show (2:ℕ) ^ 2 = 4 from by norm_num]
              try omega
          · split
            · rename_i hb2 hb1 hb0
              try dsimp only
              have hb1f : p.symmetry.testBit 1 = false := by
                rcases hh : p.symmetry.testBit 1 with _ | _
                · rfl
                · exact absurd hh hb1
              have hl0 : low3 p.symmetry = 2 := by
                unfold low3
                rw [hb0, hb1f, hb2]
                try rfl
              have hl1 : low3 (clearBit p.symmetry 0) = 1 := by
                unfold low3
                rw [testBit_clearBit00, testBit_clearBit01, testBit_clearBit02, hb1f, hb2]
                try rfl
              have hl3 : low3 (clearBit (clearBit p.symmetry 0) 2) = 0 := by
                unfold low3
                rw [testBit_clearBit20, testBit_clearBit21, testBit_clearBit22, testBit_clearBit00, testBit_clearBit01, hb1f]
                try rfl
              generalize hr1 : mesh_op_fuel f s m { shape := p.shape, mode := p.mode, smoothness := p.smoothness, color := p.color, symmetry := clearBit p.symmetry 0, box := p.box } (boxReflect 0 box) = r1
              have hc1 := ih s m { shape := p.shape, mode := p.mode, smoothness := p.smoothness, color := p.color, symmetry := clearBit p.symmetry 0, box := p.box } (boxReflect 0 box)
              rw [hr1] at hc1
              dsimp only at hc1
              rw [hl1, show (2:ℕ) ^ 1 = 2 from by norm_num] at hc1
              generalize hr2 : mesh_op_fuel f r1.1.1 r1.1.2 { shape := p.shape, mode := p.mode, smoothness := p.smoothness, color := p.color, symmetry := clearBit (clearBit p.symmetry 0) 2, box := p.box } (boxReflect 2 box) = r2
              have hc2 := ih r1.1.1 r1.1.2 { shape := p.shape, mode := p.mode, smoothness := p.smoothness, color := p.color, symmetry := clearBit (clearBit p.symmetry 0) 2, box := p.box } (boxReflect 2 box)
              rw [hr2] at hc2
              dsimp only at hc2
              rw [hl3, show (2:ℕ) ^ 0 = 1 from by norm_num] at hc2
              rw [hl0, show (2:ℕ) ^ 2 = 4 from by norm_num]
              try omega
            · rename_i hb2 hb1 hb0
              try dsimp only
              have hb0f : p.symmetry.testBit 0 = false := by
                rcases hh : p.symmetry.testBit 0 with _ | _
                · rfl
                · exact absurd hh hb0
              have hb1f : p.symmetry.testBit 1 = false := by
                rcases hh : p.symmetry.testBit 1 with _ | _
                · rfl
                · exact absurd hh hb1
              have hl0 : low3 p.symmetry = 1 := by
                unfold low3
                rw [hb0f, hb1f, hb2]
                try rfl
              have hl3 : low3 (clearBit (p.symmetry) 2) = 0 := by
                unfold low3
                rw [testBit_clearBit20, testBit_clearBit21, testBit_clearBit22, hb0f, hb1f]
                try rfl
              generalize hr1 : mesh_op_fuel f s m { shape := p.shape, mode := p.mode, smoothness := p.smoothness, color := p.color, symmetry := clearBit (p.symmetry) 2, box := p.box } (boxReflect 2 box) = r1
              have hc1 := ih s m { shape := p.shape, mode := p.mode, smoothness := p.smoothness, color := p.color, symmetry := clearBit (p.symmetry) 2, box := p.box } (boxReflect 2 box)
              rw [hr1] at hc1
              dsimp only at hc1
              rw [hl3, show (2:ℕ) ^ 0 = 1 from by norm_num] at hc1
              rw [hl0, show (2:ℕ) ^ 1 = 2 from by norm_num]
              try omega
        · split
          · split
            · rename_i hb2 hb1 hb0
              try dsimp only
              have hb2f : p.symmetry.testBit 2 = false := by
                rcases hh : p.symmetry.testBit 2 with _ | _
                · rfl
                · exact absurd hh hb2
              have hl0 : low3 p.symmetry = 2 := by
                unfold low3
                rw [hb0, hb1, hb2f]
                try rfl
              have hl1 : low3 (clearBit p.symmetry 0) = 1 := by
                unfold low3
                rw [testBit_clearBit00, testBit_clearBit01, testBit_clearBit02, hb1, hb2f]
                try rfl
              have hl2 : low3 (clearBit (clearBit p.symmetry 0) 1) = 0 := by
                unfold low3
                rw [testBit_clearBit10, testBit_clearBit11, testBit_clearBit12, testBit_clearBit00, testBit_clearBit02, hb2f]
                try rfl
              generalize hr1 : mesh_op_fuel f s m { shape := p.shape, mode := p.mode, smoothness := p.smoothness, color := p.color, symmetry := clearBit p.symmetry 0, box := p.box } (boxReflect 0 box) = r1
              have hc1 := ih s m { shape := p.shape, mode := p.mode, smoothness := p.smoothness, color := p.color, symmetry := clearBit p.symmetry 0, box := p.box } (boxReflect 0 box)
              rw [hr1] at hc1
              dsimp only at hc1
              rw [hl1, show (2:ℕ) ^ 1 = 2 from by norm_num] at hc1
              generalize hr2 : mesh_op_fuel f r1.1.1 r1.1.2 { shape := p.shape, mode := p.mode, smoothness := p.smoothness, color := p.color, symmetry := clearBit (clearBit p.symmetry 0) 1, box := p.box } (boxReflect 1 box) = r2
              have hc2 := ih r1.1.1 r1.1.2 { shape := p.shape, mode := p.mode, smoothness := p.smoothness, color := p.color, symmetry := clearBit (clearBit p.symmetry 0) 1, box := p.box } (boxReflect 1 box)
              rw [hr2] at hc2
              dsimp only at hc2
              rw [hl2, show (2:ℕ) ^ 0 = 1 from by norm_num] at hc2
              rw [hl0, show (2:ℕ) ^ 2 = 4 from by norm_num]
              try omega
            · rename_i hb2 hb1 hb0
              try dsimp only
              have hb0f : p.symmetry.testBit 0 = false := by
                rcases hh : p.symmetry.testBit 0 with _ | _
                · rfl
                · exact absurd hh hb0
              have hb2f : p.symmetry.testBit 2 = false := by
                rcases hh : p.symmetry.testBit 2 with _ | _
                · rfl
                · exact absurd hh hb2
              have hl0 : low3 p.symmetry = 1 := by
                unfold low3
                rw [hb0f, hb1, hb2f]
                try rfl
              have hl2 : low3 (clearBit (p.symmetry) 1) = 0 := by
                unfold low3
                rw [testBit_clearBit10, testBit_clearBit11, testBit_clearBit12, hb0f, hb2f]
                try rfl
              generalize hr1 : mesh_op_fuel f s m { shape := p.shape, mode := p.mode, smoothness := p.smoothness, color := p.color, symmetry := clearBit (p.symmetry) 1, box := p.box } (boxReflect 1 box) = r1
              have hc1 := ih s m { shape := p.shape, mode := p.mode, smoothness := p.smoothness, color := p.color, symmetry := clearBit (p.symmetry) 1, box := p.box } (boxReflect 1 box)
              rw [hr1] at hc1
              dsimp only at hc1
              rw [hl2, show (2:ℕ) ^ 0 = 1 from by norm_num] at hc1
              rw [hl0, show (2:ℕ) ^ 1 = 2 from by norm_num]
              try omega
          · split
            · rename_i hb2 hb1 hb0
              try dsimp only
              have hb1f : p.symmetry.testBit 1 = false := by
                rcases hh : p.symmetry.testBit 1 with _ | _
                · rfl
                · exact absurd hh hb1
              have hb2f : p.symmetry.testBit 2 = false := by
                rcases hh : p.symmetry.testBit 2 with _ | _
                · rfl
                · exact absurd hh hb2
              have hl0 : low3 p.symmetry = 1 := by
                unfold low3
                rw [hb0, hb1f, hb2f]
                try rfl
              have hl1 : low3 (clearBit p.symmetry 0) = 0 := by
                unfold low3
                rw [testBit_clearBit00, testBit_clearBit01, testBit_clearBit02, hb1f, hb2f]
                try rfl
              generalize hr1 : mesh_op_fuel f s m { shape := p.shape, mode := p.mode, smoothness := p.smoothness, color := p.color, symmetry := clearBit p.symmetry 0, box := p.box } (boxReflect 0 box) = r1
              have hc1 := ih s m { shape := p.shape, mode := p.mode, smoothness := p.smoothness, color := p.color, symmetry := clearBit p.symmetry 0, box := p.box } (boxReflect 0 box)
              rw [hr1] at hc1
              dsimp only at hc1
              rw [hl1, show (2:ℕ) ^ 0 = 1 from by norm_num] at hc1
              rw [hl0, show (2:ℕ) ^ 1 = 2 from by norm_num]
              try omega
            · rename_i hb2 hb1 hb0
              try dsimp only
              have hb0f : p.symmetry.testBit 0 = false := by
                rcases hh : p.symmetry.testBit 0 with _ | _
                · rfl
                · exact absurd hh hb0
              have hb1f : p.symmetry.testBit 1 = false := by
                rcases hh : p.symmetry.testBit 1 with _ | _
                · rfl
                · exact absurd hh hb1
              have hb2f : p.symmetry.testBit 2 = false := by
                rcases hh : p.symmetry.testBit 2 with _ | _
                · rfl
                · exact absurd hh hb2
              have hl0 : low3 p.symmetry = 0 := by
                unfold low3
                rw [hb0f, hb1f, hb2f]
                try rfl
              rw [hl0, show (2:ℕ) ^ 0 = 1 from by norm_num]
              try omega

theorem low3_le_three (x : ℕ) : low3 x ≤ 3 := by
  unfold low3
  split <;> split <;> split <;> omega

theorem two_pow_low3_le (x : ℕ) : 2 ^ low3 x ≤ 8 := by
  have h := low3_le_three x
  calc 2 ^ low3 x ≤ 2 ^ 3 := Nat.pow_le_pow_right (by omega) h
    _ = 8 := by norm_num

/-- C5: for every painter, the symmetry expansion of `apply` terminates:
clearing a set low bit strictly decreases the mask, fuel `symmetry + 1`
already computes the fixpoint (any larger fuel gives the same result), and
the expansion performs at most 8 primitive ops in total. -/
theorem C5_symmetry_termination (s : MemState) (m : Mesh) (p : Painter)
    (box : Box) (hmask : p.symmetry ≤ 7) :
    (∀ i, i < 3 → p.symmetry.testBit i = true →
        clearBit p.symmetry i < p.symmetry) ∧
    (∀ f, p.symmetry < f → mesh_op_fuel f s m p box = mesh_op s m p box) ∧
    (mesh_op s m p box).2 ≤ 8 := by
  refine ⟨?_, ?_, ?_⟩
  · intro i _ hb
    exact clearBit_lt hb
  · intro f hf
    unfold mesh_op
    exact op_fuel_congr f (p.symmetry + 1) s m p box hf (Nat.lt_succ_self _)
  · exact le_trans (op_fuel_count _ s m p box) (two_pow_low3_le p.symmetry)

/-- Witness for `C5_symmetry_termination`: the full mask 7 on a fresh
volume. -/
theorem C5_symmetry_termination_witness :
    (∀ i, i < 3 → painterSym7.symmetry.testBit i = true →
        clearBit painterSym7.symmetry i < painterSym7.symmetry) ∧
    (∀ f, painterSym7.symmetry < f →
        mesh_op_fuel f demo0.1 demo0.2 painterSym7 boxUnit
          = mesh_op demo0.1 demo0.2 painterSym7 boxUnit) ∧
    (mesh_op demo0.1 demo0.2 painterSym7 boxUnit).2 ≤ 8 :=
  C5_symmetry_termination demo0.1 demo0.2 painterSym7 boxUnit (by decide)

/-! ## C8: set/get roundtrip -/

theorem setHeap_get (s : MemState) (q : ℕ) (b : Block) :
    (s.setHeap q b).heap q = b := by
  unfold MemState.setHeap
  dsimp only
  rw [if_pos rfl]

theorem setHeap_get_ne {s : MemState} {q r : ℕ} {b : Block} (h : r ≠ q) :
    (s.setHeap q b).heap r = s.heap r := by
  unfold MemState.setHeap
  dsimp only
  rw [if_neg h]

theorem block_get_set (b : Block) (pos : V3i) (v : RGBA) :
    block_get_at (block_set_at b pos v) pos = v := by
  unfold block_get_at block_set_at
  dsimp only
  rw [if_pos rfl]

theorem prepare_bounds (s : MemState) (m : Mesh)
    (hb : ∀ q ∈ m.blocks, q < s.nextPtr) :
    ∀ q ∈ (mesh_prepare_write s m).2.blocks,
      q < (mesh_prepare_write s m).1.nextPtr := by
  rcases prepare_blocks_cases s m with h | h
  · rw [h]
    intro q hq
    exact lt_of_lt_of_le (hb q hq) (prepare_ptrLe s m)
  · intro q hq
    exact (h q hq).2

theorem add_block_eval (s : MemState) (m : Mesh) (pos : V3i)
    (hr : s.refs m.ref = 1) :
    (mesh_add_block s m pos).2 = s.nextPtr ∧
    (mesh_add_block s m pos).1.2.blocks = m.blocks ++ [s.nextPtr] ∧
    (mesh_add_block s m pos).1.1.heap s.nextPtr
      = { block_new pos with id := m.next_block_id } ∧
    (∀ r, r ≠ s.nextPtr → (mesh_add_block s m pos).1.1.heap r = s.heap r) := by
  have hP2 : mesh_prepare_write s m
      = ({ s with nextUid := s.nextUid + 1 }, { m with id := s.nextUid }) := by
    unfold mesh_prepare_write
    dsimp only
    rw [if_pos hr]
  unfold mesh_add_block
  rw [hP2]
  dsimp only [MemState.allocPtr]
  refine ⟨rfl, rfl, ?_, ?_⟩
  · rw [if_pos rfl]
  · intro r hrr
    rw [if_neg hrr]

/-- C8: writing a sample then reading it back at the same position returns
exactly the written value (through the copy-on-write preparation, the
cached-accessor-free path, and chunk allocation when the tile was absent);
and reading any position whose tile has no chunk in the table returns the
transparent sample `(0,0,0,0)`. -/
theorem C8_set_get (s : MemState) (m : Mesh) (pos : V3i) (v : RGBA)
    (hb : ∀ q ∈ m.blocks, q < s.nextPtr) :
    (mesh_get_at (mesh_set_at s m pos v none).1.1
        (mesh_set_at s m pos v none).1.2 pos none).1 = v ∧
    (∀ pos2, mesh_get_block_at s m (tile_of pos2) = none →
        (mesh_get_at s m pos2 none).1 = rgbaZero) := by
  constructor
  · have hb1 := prepare_bounds s m hb
    unfold mesh_set_at
    dsimp only
    cases hfind : mesh_get_block_at (mesh_prepare_write s m).1
        (mesh_prepare_write s m).2 (tile_of pos) with
    | some q =>
        dsimp only
        unfold mesh_get_at
        dsimp only
        have hEq : ∀ r ∈ (mesh_prepare_write s m).2.blocks,
            (((mesh_prepare_write s m).1.setHeap q
                (block_set_at ((mesh_prepare_write s m).1.heap q) pos v)).heap r).pos
              = ((mesh_prepare_write s m).1.heap r).pos := by
          intro r hr
          by_cases hrq : r = q
          · subst hrq
            rw [setHeap_get]
            rfl
          · rw [setHeap_get_ne hrq]
        have hfq : mesh_get_block_at ((mesh_prepare_write s m).1.setHeap q
            (block_set_at ((mesh_prepare_write s m).1.heap q) pos v))
            (mesh_prepare_write s m).2 (tile_of pos) = some q := by
          unfold mesh_get_block_at at hfind ⊢
          rw [find?_congr _ _ _ fun a ha => by rw [hEq a ha]]
          exact hfind
        rw [hfq]
        show block_get_at (((mesh_prepare_write s m).1.setHeap q
            (block_set_at ((mesh_prepare_write s m).1.heap q) pos v)).heap q) pos = v
        rw [setHeap_get]
        exact block_get_set _ pos v
    | none =>
        dsimp only
        set A := mesh_add_block (mesh_prepare_write s m).1
          (mesh_prepare_write s m).2 (tile_of pos) with hA
        obtain ⟨hA1, hA2, hA3, hA4⟩ := add_block_eval (mesh_prepare_write s m).1
          (mesh_prepare_write s m).2 (tile_of pos) (prepare_refsSelf s m)
        rw [← hA] at hA1 hA2 hA3 hA4
        unfold mesh_get_at
        dsimp only
        rw [hA1]
        unfold mesh_get_block_at
        rw [hA2, List.find?_append]
        have hcongr : ∀ a ∈ (mesh_prepare_write s m).2.blocks,
            ((A.1.1.setHeap (mesh_prepare_write s m).1.nextPtr
                (block_set_at (A.1.1.heap (mesh_prepare_write s m).1.nextPtr)
                  pos v)).heap a).pos
              = ((mesh_prepare_write s m).1.heap a).pos := by
          intro a ha
          have hne : a ≠ (mesh_prepare_write s m).1.nextPtr := by
            have := hb1 a ha
            omega
          rw [setHeap_get_ne hne, hA4 a hne]
        have hnone := hfind
        unfold mesh_get_block_at at hnone
        rw [find?_congr _ _ _ fun a ha => by rw [hcongr a ha]]
        rw [hnone, Option.none_or]
        have hpq : ((A.1.1.setHeap (mesh_prepare_write s m).1.nextPtr
            (block_set_at (A.1.1.heap (mesh_prepare_write s m).1.nextPtr)
              pos v)).heap (mesh_prepare_write s m).1.nextPtr).pos
            = tile_of pos := by
          rw [setHeap_get]
          show (A.1.1.heap (mesh_prepare_write s m).1.nextPtr).pos = tile_of pos
          rw [hA3]
          rfl
        rw [List.find?_cons_of_pos]
        · show block_get_at ((A.1.1.setHeap (mesh_prepare_write s m).1.nextPtr
              (block_set_at (A.1.1.heap (mesh_prepare_write s m).1.nextPtr)
                pos v)).heap (mesh_prepare_write s m).1.nextPtr) pos = v
          rw [setHeap_get]
          exact block_get_set _ pos v
        · exact decide_eq_true hpq
  · intro pos2 h
    unfold mesh_get_at
    dsimp only
    rw [h]
    rfl

/-- Witness for `C8_set_get`: write then read one voxel of a fresh
volume. -/
theorem C8_set_get_witness :
    (mesh_get_at (mesh_set_at demo0.1 demo0.2 ⟨1, 2, 3⟩ ⟨7, 8, 9, 200⟩ none).1.1
        (mesh_set_at demo0.1 demo0.2 ⟨1, 2, 3⟩ ⟨7, 8, 9, 200⟩ none).1.2
        ⟨1, 2, 3⟩ none).1 = ⟨7, 8, 9, 200⟩ ∧
    (∀ pos2, mesh_get_block_at demo0.1 demo0.2 (tile_of pos2) = none →
        (mesh_get_at demo0.1 demo0.2 pos2 none).1 = rgbaZero) :=
  C8_set_get demo0.1 demo0.2 ⟨1, 2, 3⟩ ⟨7, 8, 9, 200⟩ (by intro q hq; cases hq)


/-! ## C10: move on an empty volume -/

/-- C10: `mesh_move` runs `mesh_prepare_write` *before* the null-box check
(mesh.c:422-424), so on a volume whose exact bounding box is null it returns
with the chunk table unchanged (same chunk values, same count) while the
version id has still strictly increased. -/
theorem C10_move_null_bbox (s : MemState) (m : Mesh) (mat : Mat4)
    (hb : ∀ q ∈ m.blocks, q < s.nextPtr)
    (hid : m.id < s.nextUid)
    (hbox : mesh_get_box s m true = none) :
    blockVals (mesh_move s m mat).1 (mesh_move s m mat).2 = blockVals s m ∧
    (mesh_move s m mat).2.blocks.length = m.blocks.length ∧
    m.id < (mesh_move s m mat).2.id := by
  have hvals : blockVals (mesh_prepare_write (mesh_copy s m).1 m).1
      (mesh_prepare_write (mesh_copy s m).1 m).2 = blockVals s m :=
    prepare_vals (mesh_copy s m).1 m hb
  have hbox2 : mesh_get_box (mesh_prepare_write (mesh_copy s m).1 m).1
      (mesh_prepare_write (mesh_copy s m).1 m).2 true = none := by
    rw [mesh_get_box_vals, hvals, ← mesh_get_box_vals]
    exact hbox
  have he : mesh_move s m mat
      = ((mesh_prepare_write (mesh_copy s m).1 m).1,
         (mesh_prepare_write (mesh_copy s m).1 m).2) := by
    rw [mesh_move_eq, hbox2]
  refine ⟨?_, ?_, (mesh_move_idBump s m mat hid).1⟩
  · rw [he]
    exact hvals
  · rw [he]
    have hlen := congrArg List.length hvals
    simp only [blockVals, List.length_map] at hlen
    exact hlen

/-- Witness for `C10_move_null_bbox`: moving a fresh empty volume. -/
theorem C10_move_null_bbox_witness :
    blockVals (mesh_move demo0.1 demo0.2 mat4_identity).1
        (mesh_move demo0.1 demo0.2 mat4_identity).2 = blockVals demo0.1 demo0.2 ∧
    (mesh_move demo0.1 demo0.2 mat4_identity).2.blocks.length
      = demo0.2.blocks.length ∧
    demo0.2.id < (mesh_move demo0.1 demo0.2 mat4_identity).2.id :=
  C10_move_null_bbox demo0.1 demo0.2 mat4_identity
    (by intro q hq; cases hq) (by decide) rfl

/-! ## C9: blit order -/

theorem flatMap_range_map {α : Type} (m : ℕ) (hm : 0 < m) (g : ℕ → ℕ → α) :
    ∀ n, (List.range n).flatMap (fun j => (List.range m).map fun i => g j i)
      = (List.range (n * m)).map fun t => g (t / m) (t % m) := by
  intro n
  induction n with
  | zero => simp
  | succ n ih =>
      rw [List.range_succ, List.flatMap_append, ih,
        show (n + 1) * m = n * m + m from by ring, List.range_add, List.map_append,
        List.map_map]
      congr 1
      rw [show [n].flatMap (fun j => (List.range m).map fun i => g j i)
            = (List.range m).map fun i => g n i from by simp]
      apply List.map_congr_left
      intro a ha
      rw [List.mem_range] at ha
      have hd : (n * m + a) / m = n := by
        rw [Nat.add_comm, Nat.add_mul_div_right a n hm, Nat.div_eq_of_lt ha]
        omega
      have hmod : (n * m + a) % m = a := by
        rw [Nat.add_comm, Nat.add_mul_mod_self_right]
        exact Nat.mod_eq_of_lt ha
      dsimp only [Function.comp]
      rw [hd, hmod]

theorem blitTriples_eq (w h d : ℤ) (hw : 0 < w.toNat) (hh : 0 < h.toNat) :
    blitTriples w h d
      = (List.range (d.toNat * (h.toNat * w.toNat))).map fun t =>
          (⟨Int.ofNat (t % w.toNat), Int.ofNat (t / w.toNat % h.toNat),
            Int.ofNat (t / (w.toNat * h.toNat))⟩ : V3i) := by
  unfold blitTriples
  have hinner : ∀ z : ℕ, ((List.range h.toNat).flatMap fun y =>
      (List.range w.toNat).map fun x =>
        (⟨Int.ofNat x, Int.ofNat y, Int.ofNat z⟩ : V3i))
      = (List.range (h.toNat * w.toNat)).map fun t =>
          (⟨Int.ofNat (t % w.toNat), Int.ofNat (t / w.toNat), Int.ofNat z⟩ : V3i) := by
    intro z
    exact flatMap_range_map w.toNat hw _ h.toNat
  simp only [hinner]
  rw [flatMap_range_map (h.toNat * w.toNat) (Nat.mul_pos hh hw) _ d.toNat]
  apply List.map_congr_left
  intro t ht
  have hb := Nat.mod_mul_right_div_self t w.toNat h.toNat
  rw [mul_comm w.toNat h.toNat] at hb
  have hc : h.toNat * w.toNat = w.toNat * h.toNat := mul_comm _ _
  simp only [V3i.mk.injEq]
  refine ⟨?_, ?_, ?_⟩
  · exact congrArg Int.ofNat (Nat.mod_mul_left_mod t h.toNat w.toNat)
  · exact congrArg Int.ofNat hb
  · rw [hc]

theorem blitTriples_length (w h d : ℤ) (hw : 0 < w.toNat) (hh : 0 < h.toNat) :
    (blitTriples w h d).length = d.toNat * (h.toNat * w.toNat) := by
  rw [blitTriples_eq w h d hw hh, List.length_map, List.length_range]

theorem blitTriples_get (w h d : ℤ) (hw : 0 < w.toNat) (hh : 0 < h.toNat)
    (i : ℕ) (hi : i < (blitTriples w h d).length) :
    (blitTriples w h d).get ⟨i, hi⟩
      = ⟨Int.ofNat (i % w.toNat), Int.ofNat (i / w.toNat % h.toNat),
         Int.ofNat (i / (w.toNat * h.toNat))⟩ := by
  rw [List.get_of_eq (blitTriples_eq w h d hw hh) ⟨i, hi⟩]
  rw [List.get_eq_getElem, List.getElem_map, List.getElem_range]

theorem div_mod_reconstruct (a b : ℕ) (u : ℕ) :
    u = u / (a * b) * (a * b) + (u / a % b) * a + u % a := by
  have e1 := Nat.div_add_mod u a
  have e2 := Nat.div_add_mod (u / a) b
  have e3 : u / a / b = u / (a * b) := Nat.div_div_eq_div_mul u a b
  calc u = a * (u / a) + u % a := e1.symm
    _ = a * (b * (u / a / b) + u / a % b) + u % a := by rw [e2]
    _ = u / a / b * (a * b) + (u / a % b) * a + u % a := by ring
    _ = u / (a * b) * (a * b) + (u / a % b) * a + u % a := by rw [e3]

theorem blit_positions_nodup (x y z w h d : ℤ) (hw : 0 < w.toNat)
    (hh : 0 < h.toNat) :
    ((blitTriples w h d).map fun t =>
      (⟨x + t.x, y + t.y, z + t.z⟩ : V3i)).Nodup := by
  rw [blitTriples_eq w h d hw hh, List.map_map]
  refine List.Nodup.map_on ?_ (List.nodup_range _)
  intro i _ j _ he
  dsimp only [Function.comp] at he
  rw [V3i.mk.injEq] at he
  obtain ⟨h1, h2, h3⟩ := he
  have n1 : i % w.toNat = j % w.toNat := by
    have := add_left_cancel h1
    exact Int.ofNat_inj.mp this
  have n2 : i / w.toNat % h.toNat = j / w.toNat % h.toNat := by
    have := add_left_cancel h2
    exact Int.ofNat_inj.mp this
  have n3 : i / (w.toNat * h.toNat) = j / (w.toNat * h.toNat) := by
    have := add_left_cancel h3
    exact Int.ofNat_inj.mp this
  rw [div_mod_reconstruct w.toNat h.toNat i, div_mod_reconstruct w.toNat h.toNat j,
    n1, n2, n3]


theorem get_at_val (t : MemState) (w : Mesh) (pos2 : V3i) :
    (mesh_get_at t w pos2 none).1
      = block_get_at_opt ((mesh_get_block_at t w (tile_of pos2)).map t.heap) pos2 := rfl

theorem MWF_of_pos_preserved {s t : MemState} {m : Mesh} (hwf : MWF s m)
    (hptr : s.nextPtr ≤ t.nextPtr)
    (hpos : ∀ q ∈ m.blocks, (t.heap q).pos = (s.heap q).pos) : MWF t m := by
  obtain ⟨h1, h2, h3, h4⟩ := hwf
  refine ⟨h1, fun q hq => lt_of_lt_of_le (h2 q hq) hptr, ?_, ?_⟩
  · unfold blockVals at h3 ⊢
    rw [List.pairwise_map] at h3 ⊢
    refine List.Pairwise.imp_of_mem (fun ha hb hr => ?_) h3
    rw [hpos _ ha, hpos _ hb]
    exact hr
  · unfold blockVals
    intro b hb
    obtain ⟨q, hq, he⟩ := List.mem_map.mp hb
    subst he
    rw [hpos q hq]
    exact h4 _ (List.mem_map.mpr ⟨q, hq, rfl⟩)

theorem prepare_nofork (s : MemState) (m : Mesh) (hr : s.refs m.ref = 1) :
    mesh_prepare_write s m
      = ({ s with nextUid := s.nextUid + 1 }, { m with id := s.nextUid }) := by
  unfold mesh_prepare_write
  dsimp only
  rw [if_pos hr]

theorem key_inj (b : Block) (pos pos2 : V3i) (h : pos2 ≠ pos) :
    (⟨pos2.x - b.pos.x, pos2.y - b.pos.y, pos2.z - b.pos.z⟩ : V3i)
      ≠ (⟨pos.x - b.pos.x, pos.y - b.pos.y, pos.z - b.pos.z⟩ : V3i) := by
  intro hk
  apply h
  rw [V3i.mk.injEq] at hk
  obtain ⟨k1, k2, k3⟩ := hk
  cases pos2
  cases pos
  rw [V3i.mk.injEq]
  dsimp only at k1 k2 k3
  refine ⟨by omega, by omega, by omega⟩

theorem write_char (t : MemState) (w : Mesh) (pos : V3i) (v : RGBA) (q : ℕ)
    (hwf : MWF t w) (hfq : mesh_get_block_at t w (tile_of pos) = some q) :
    (∀ t2, mesh_get_block_at (t.setHeap q (block_set_at (t.heap q) pos v)) w t2
        = mesh_get_block_at t w t2) ∧
    (∀ pos2, (mesh_get_at (t.setHeap q (block_set_at (t.heap q) pos v)) w pos2 none).1
        = if pos2 = pos then v else (mesh_get_at t w pos2 none).1) ∧
    MWF (t.setHeap q (block_set_at (t.heap q) pos v)) w := by
  have hpos : ∀ a, ((t.setHeap q (block_set_at (t.heap q) pos v)).heap a).pos
      = (t.heap a).pos := by
    intro a
    by_cases haq : a = q
    · subst haq
      rw [setHeap_get]
      rfl
    · rw [setHeap_get_ne haq]
  have hfind_pres : ∀ t2,
      mesh_get_block_at (t.setHeap q (block_set_at (t.heap q) pos v)) w t2
        = mesh_get_block_at t w t2 := by
    intro t2
    unfold mesh_get_block_at
    exact find?_congr _ _ _ fun a ha => by rw [hpos a]
  refine ⟨hfind_pres, ?_, ?_⟩
  · intro pos2
    rw [get_at_val, get_at_val, hfind_pres]
    by_cases hpp : pos2 = pos
    · subst hpp
      rw [if_pos rfl, hfq]
      show block_get_at ((t.setHeap q (block_set_at (t.heap q) pos2 v)).heap q) pos2 = v
      rw [setHeap_get]
      exact block_get_set _ _ _
    · rw [if_neg hpp]
      cases hf2 : mesh_get_block_at t w (tile_of pos2) with
      | none => rfl
      | some r =>
          show block_get_at ((t.setHeap q (block_set_at (t.heap q) pos v)).heap r) pos2
            = block_get_at (t.heap r) pos2
          by_cases hrq : r = q
          · subst hrq
            rw [setHeap_get]
            unfold block_get_at block_set_at
            dsimp only
            rw [if_neg (key_inj (t.heap r) pos pos2 hpp)]
          · rw [setHeap_get_ne hrq]
  · exact MWF_of_pos_preserved hwf (le_refl _) fun a _ => hpos a

theorem add_block_eval2 (t : MemState) (w : Mesh) (pos : V3i)
    (hr : t.refs w.ref = 1) :
    (mesh_add_block t w pos).1.1.refs = t.refs ∧
    (mesh_add_block t w pos).1.1.nextPtr = t.nextPtr + 1 ∧
    (mesh_add_block t w pos).1.2.ref = w.ref := by
  unfold mesh_add_block
  rw [prepare_nofork t w hr]
  dsimp only [MemState.allocPtr]
  exact ⟨rfl, rfl, rfl⟩

theorem add_write_char (t : MemState) (w : Mesh) (pos : V3i) (v : RGBA)
    (hwf : MWF t w) (hr : t.refs w.ref = 1)
    (hfn : mesh_get_block_at t w (tile_of pos) = none) :
    mesh_get_block_at ((mesh_add_block t w (tile_of pos)).1.1.setHeap
        (mesh_add_block t w (tile_of pos)).2
        (block_set_at ((mesh_add_block t w (tile_of pos)).1.1.heap
          (mesh_add_block t w (tile_of pos)).2) pos v))
      (mesh_add_block t w (tile_of pos)).1.2 (tile_of pos)
      = some (mesh_add_block t w (tile_of pos)).2 ∧
    (∀ t2, t2 ≠ tile_of pos →
      mesh_get_block_at ((mesh_add_block t w (tile_of pos)).1.1.setHeap
          (mesh_add_block t w (tile_of pos)).2
          (block_set_at ((mesh_add_block t w (tile_of pos)).1.1.heap
            (mesh_add_block t w (tile_of pos)).2) pos v))
        (mesh_add_block t w (tile_of pos)).1.2 t2
        = mesh_get_block_at t w t2) ∧
    (∀ pos2, (mesh_get_at ((mesh_add_block t w (tile_of pos)).1.1.setHeap
          (mesh_add_block t w (tile_of pos)).2
          (block_set_at ((mesh_add_block t w (tile_of pos)).1.1.heap
            (mesh_add_block t w (tile_of pos)).2) pos v))
        (mesh_add_block t w (tile_of pos)).1.2 pos2 none).1
      = if pos2 = pos then v else (mesh_get_at t w pos2 none).1) ∧
    MWF ((mesh_add_block t w (tile_of pos)).1.1.setHeap
        (mesh_add_block t w (tile_of pos)).2
        (block_set_at ((mesh_add_block t w (tile_of pos)).1.1.heap
          (mesh_add_block t w (tile_of pos)).2) pos v))
      (mesh_add_block t w (tile_of pos)).1.2 ∧
    ((mesh_add_block t w (tile_of pos)).1.1.setHeap
        (mesh_add_block t w (tile_of pos)).2
        (block_set_at ((mesh_add_block t w (tile_of pos)).1.1.heap
          (mesh_add_block t w (tile_of pos)).2) pos v)).refs
      (mesh_add_block t w (tile_of pos)).1.2.ref = 1 := by
  obtain ⟨hA1, hA2, hA3, hA4⟩ := add_block_eval t w (tile_of pos) hr
  obtain ⟨hB1, hB2, hB3⟩ := add_block_eval2 t w (tile_of pos) hr
  obtain ⟨hw1, hw2, hw3, hw4⟩ := hwf
  rw [hA1]
  set S3 := (mesh_add_block t w (tile_of pos)).1.1.setHeap t.nextPtr
    (block_set_at ((mesh_add_block t w (tile_of pos)).1.1.heap t.nextPtr) pos v)
    with hS3
  set M3 := (mesh_add_block t w (tile_of pos)).1.2 with hM3
  have hfr : ∀ a ∈ w.blocks, a ≠ t.nextPtr := by
    intro a ha
    have := hw2 a ha
    omega
  have hheap : ∀ a ∈ w.blocks, S3.heap a = t.heap a := by
    intro a ha
    rw [hS3, setHeap_get_ne (hfr a ha)]
    exact hA4 a (hfr a ha)
  have hnew : S3.heap t.nextPtr
      = block_set_at ((mesh_add_block t w (tile_of pos)).1.1.heap t.nextPtr) pos v := by
    rw [hS3]
    exact setHeap_get _ _ _
  have hnewpos : (S3.heap t.nextPtr).pos = tile_of pos := by
    rw [hnew]
    show ((mesh_add_block t w (tile_of pos)).1.1.heap t.nextPtr).pos = tile_of pos
    rw [hA3]
    rfl
  have hblocks : M3.blocks = w.blocks ++ [t.nextPtr] := hA2
  have hSptr : S3.nextPtr = t.nextPtr + 1 := by
    rw [hS3]
    exact hB2
  have hfn2 := List.find?_eq_none.mp hfn
  have hpre : List.find? (fun q => decide ((S3.heap q).pos = tile_of pos))
      w.blocks = none := by
    rw [List.find?_eq_none]
    intro a ha hc
    rw [hheap a ha] at hc
    exact hfn2 a ha hc
  have hfind1 : mesh_get_block_at S3 M3 (tile_of pos) = some t.nextPtr := by
    unfold mesh_get_block_at
    rw [hblocks, List.find?_append, hpre, Option.none_or]
    exact List.find?_cons_of_pos _ (decide_eq_true hnewpos)
  have hfind2 : ∀ t2, t2 ≠ tile_of pos →
      mesh_get_block_at S3 M3 t2 = mesh_get_block_at t w t2 := by
    intro t2 ht2
    unfold mesh_get_block_at
    rw [hblocks, List.find?_append]
    have hlast : List.find? (fun q => decide ((S3.heap q).pos = t2))
        [t.nextPtr] = none := by
      rw [List.find?_eq_none]
      intro a ha hc
      simp only [List.mem_singleton] at ha
      subst ha
      rw [hnewpos] at hc
      exact ht2.symm (of_decide_eq_true hc)
    rw [hlast, Option.or_none]
    exact find?_congr _ _ _ fun a ha => by rw [hheap a ha]
  refine ⟨hfind1, hfind2, ?_, ?_, ?_⟩
  · intro pos2
    rw [get_at_val, get_at_val]
    by_cases hpp : pos2 = pos
    · subst hpp
      rw [if_pos rfl, hfind1]
      show block_get_at (S3.heap t.nextPtr) pos2 = v
      rw [hnew]
      exact block_get_set _ _ _
    · rw [if_neg hpp]
      by_cases htt : tile_of pos2 = tile_of pos
      · rw [htt, hfind1, hfn]
        show block_get_at (S3.heap t.nextPtr) pos2 = block_get_at_opt none pos2
        rw [hnew]
        unfold block_get_at block_set_at
        dsimp only
        rw [if_neg (key_inj _ pos pos2 hpp)]
        rw [hA3]
        rfl
      · rw [hfind2 _ htt]
        cases hf2 : mesh_get_block_at t w (tile_of pos2) with
        | none => rfl
        | some r =>
            show block_get_at (S3.heap r) pos2 = block_get_at (t.heap r) pos2
            rw [hheap r (List.mem_of_find?_eq_some hf2)]
  · refine ⟨?_, ?_, ?_, ?_⟩
    · rw [hblocks, List.nodup_append]
      refine ⟨hw1, List.nodup_singleton _, ?_⟩
      intro a ha hb
      simp only [List.mem_singleton] at hb
      exact hfr a ha hb
    · rw [hblocks, hSptr]
      intro q hq
      rcases List.mem_append.mp hq with hq | hq
      · have := hw2 q hq
        omega
      · simp only [List.mem_singleton] at hq
        omega
    · unfold blockVals
      rw [hblocks, List.map_append, List.pairwise_append]
      refine ⟨?_, ?_, ?_⟩
      · have he : w.blocks.map S3.heap = w.blocks.map t.heap :=
          List.map_congr_left hheap
        rw [he]
        exact hw3
      · simp
      · intro a ha b hb
        obtain ⟨qa, hqa, hea⟩ := List.mem_map.mp ha
        simp only [List.map_cons, List.map_nil, List.mem_singleton] at hb
        subst hea
        subst hb
        rw [hheap qa hqa, hnewpos]
        intro hc
        exact hfn2 qa hqa (decide_eq_true hc)
    · unfold blockVals
      rw [hblocks, List.map_append]
      intro b hb
      rcases List.mem_append.mp hb with hb | hb
      · obtain ⟨qa, hqa, hea⟩ := List.mem_map.mp hb
        subst hea
        rw [hheap qa hqa]
        exact hw4 _ (List.mem_map.mpr ⟨qa, hqa, rfl⟩)
      · simp only [List.map_cons, List.map_nil, List.mem_singleton] at hb
        subst hb
        rw [hnewpos]
        exact tile_of_idem pos
  · rw [hS3]
    show (mesh_add_block t w (tile_of pos)).1.1.refs M3.ref = 1
    rw [hB1, hB3]
    exact hr

theorem set_at_char (s : MemState) (m : Mesh) (pos : V3i) (v : RGBA) (a : MAcc)
    (hwf : MWF s m) (hacc : AccOk s m a) :
    (∀ pos2, (mesh_get_at (mesh_set_at s m pos v (some a)).1.1
        (mesh_set_at s m pos v (some a)).1.2 pos2 none).1
      = if pos2 = pos then v else (mesh_get_at s m pos2 none).1) ∧
    MWF (mesh_set_at s m pos v (some a)).1.1 (mesh_set_at s m pos v (some a)).1.2 ∧
    AccOk (mesh_set_at s m pos v (some a)).1.1 (mesh_set_at s m pos v (some a)).1.2
      (((mesh_set_at s m pos v (some a)).2).getD a) := by
  unfold mesh_set_at
  dsimp only
  by_cases hcond : a.found = true ∧ a.pos = tile_of pos
  · obtain ⟨hr, hco⟩ := hacc hcond.1
    rw [hcond.2] at hco
    rw [if_pos hcond, prepare_nofork s m hr]
    dsimp only
    cases hab : a.block with
    | some q =>
        dsimp only [Option.getD]
        rw [hab] at hco
        obtain ⟨wfp, wvc, wwf⟩ := write_char { s with nextUid := s.nextUid + 1 }
          { m with id := s.nextUid } pos v q hwf hco
        refine ⟨fun pos2 => wvc pos2, wwf, ?_⟩
        intro _
        refine ⟨hr, ?_⟩
        show mesh_get_block_at _ _ a.pos = a.block
        rw [hcond.2, hab, wfp (tile_of pos)]
        exact hco
    | none =>
        dsimp only [Option.getD]
        rw [hab] at hco
        obtain ⟨afp1, afp2, avc, awf, ar⟩ := add_write_char
          { s with nextUid := s.nextUid + 1 } { m with id := s.nextUid }
          pos v hwf hr hco
        refine ⟨avc, awf, ?_⟩
        intro _
        refine ⟨ar, ?_⟩
        show mesh_get_block_at _ _ a.pos = some (mesh_add_block
          { s with nextUid := s.nextUid + 1 } { m with id := s.nextUid }
          (tile_of pos)).2
        rw [hcond.2]
        exact afp1
  · rw [if_neg hcond]
    have hwf1 : MWF (mesh_prepare_write s m).1 (mesh_prepare_write s m).2 :=
      prepare_MWF s m hwf
    have hr1 := prepare_refsSelf s m
    have hgv : ∀ pos2, (mesh_get_at (mesh_prepare_write s m).1
        (mesh_prepare_write s m).2 pos2 none).1
          = (mesh_get_at s m pos2 none).1 := by
      intro pos2
      rw [mesh_get_at_none, mesh_get_at_none, prepare_vals s m hwf.2.1]
    cases hfind : mesh_get_block_at (mesh_prepare_write s m).1
        (mesh_prepare_write s m).2 (tile_of pos) with
    | some q =>
        dsimp only [Option.getD]
        obtain ⟨wfp, wvc, wwf⟩ := write_char (mesh_prepare_write s m).1
          (mesh_prepare_write s m).2 pos v q hwf1 hfind
        refine ⟨?_, wwf, ?_⟩
        · intro pos2
          have h2 := wvc pos2
          rw [hgv pos2] at h2
          exact h2
        · intro _
          refine ⟨hr1, ?_⟩
          show mesh_get_block_at _ _ (tile_of pos) = some q
          rw [wfp (tile_of pos)]
          exact hfind
    | none =>
        dsimp only [Option.getD]
        obtain ⟨afp1, afp2, avc, awf, ar⟩ := add_write_char
          (mesh_prepare_write s m).1 (mesh_prepare_write s m).2 pos v hwf1 hr1 hfind
        refine ⟨?_, awf, ?_⟩
        · intro pos2
          have h2 := avc pos2
          rw [hgv pos2] at h2
          exact h2
        · intro _
          exact ⟨ar, afp1⟩

theorem blit_go_char (data : ℕ → RGBA) (x y z : ℤ) (l : List V3i) :
    ∀ (k : ℕ) (s : MemState) (m : Mesh) (a : MAcc),
      MWF s m → AccOk s m a →
      ((l.map fun t => (⟨x + t.x, y + t.y, z + t.z⟩ : V3i)).Nodup) →
      (∀ j, ∀ hj : j < l.length,
        (mesh_get_at (mesh_blit_go data x y z l k s m a).1.1
            (mesh_blit_go data x y z l k s m a).1.2
            ⟨x + (l.get ⟨j, hj⟩).x, y + (l.get ⟨j, hj⟩).y, z + (l.get ⟨j, hj⟩).z⟩
            none).1 = data (k + j)) ∧
      (∀ pos2, (∀ t2 ∈ l, pos2 ≠ ⟨x + t2.x, y + t2.y, z + t2.z⟩) →
        (mesh_get_at (mesh_blit_go data x y z l k s m a).1.1
            (mesh_blit_go data x y z l k s m a).1.2 pos2 none).1
          = (mesh_get_at s m pos2 none).1) ∧
      MWF (mesh_blit_go data x y z l k s m a).1.1
        (mesh_blit_go data x y z l k s m a).1.2 := by
  induction l with
  | nil =>
      intro k s m a hwf hacc hnd
      refine ⟨?_, ?_, hwf⟩
      · intro j hj
        exact absurd hj (Nat.not_lt_zero j)
      · intro pos2 hfar
        rfl
  | cons t rest ih =>
      intro k s m a hwf hacc hnd
      rw [mesh_blit_go]
      rw [List.map_cons, List.nodup_cons] at hnd
      obtain ⟨hnotin, hnd2⟩ := hnd
      obtain ⟨svc, swf, sacc⟩ := set_at_char s m ⟨x + t.x, y + t.y, z + t.z⟩
        (data k) a hwf hacc
      obtain ⟨iw, ifr, iwf⟩ := ih (k + 1)
        (mesh_set_at s m ⟨x + t.x, y + t.y, z + t.z⟩ (data k) (some a)).1.1
        (mesh_set_at s m ⟨x + t.x, y + t.y, z + t.z⟩ (data k) (some a)).1.2
        ((mesh_set_at s m ⟨x + t.x, y + t.y, z + t.z⟩ (data k) (some a)).2.getD a)
        swf sacc hnd2
      have hhead_ne : ∀ t2 ∈ rest,
          (⟨x + t.x, y + t.y, z + t.z⟩ : V3i) ≠ ⟨x + t2.x, y + t2.y, z + t2.z⟩ := by
        intro t2 ht2 hEq
        exact hnotin (hEq ▸ List.mem_map.mpr ⟨t2, ht2, rfl⟩)
      refine ⟨?_, ?_, iwf⟩
      · intro j hj
        cases j with
        | zero =>
            show (mesh_get_at (mesh_blit_go data x y z rest (k + 1)
                (mesh_set_at s m ⟨x + t.x, y + t.y, z + t.z⟩ (data k) (some a)).1.1
                (mesh_set_at s m ⟨x + t.x, y + t.y, z + t.z⟩ (data k) (some a)).1.2
                ((mesh_set_at s m ⟨x + t.x, y + t.y, z + t.z⟩ (data k) (some a)).2.getD a)).1.1
              (mesh_blit_go data x y z rest (k + 1)
                (mesh_set_at s m ⟨x + t.x, y + t.y, z + t.z⟩ (data k) (some a)).1.1
                (mesh_set_at s m ⟨x + t.x, y + t.y, z + t.z⟩ (data k) (some a)).1.2
                ((mesh_set_at s m ⟨x + t.x, y + t.y, z + t.z⟩ (data k) (some a)).2.getD a)).1.2
              ⟨x + t.x, y + t.y, z + t.z⟩ none).1 = data (k + 0)
            rw [ifr ⟨x + t.x, y + t.y, z + t.z⟩ hhead_ne]
            rw [svc ⟨x + t.x, y + t.y, z + t.z⟩, if_pos rfl, Nat.add_zero]
        | succ j =>
            have hj2 : j < rest.length := Nat.lt_of_succ_lt_succ hj
            have harith : k + (j + 1) = k + 1 + j := by omega
            rw [harith]
            exact iw j hj2
      · intro pos2 hfar
        rw [ifr pos2 fun t2 ht2 => hfar t2 (List.mem_cons_of_mem t ht2)]
        rw [svc pos2, if_neg (hfar t (List.mem_cons_self t rest))]

/-- C9: `blit` consumes the packed buffer in x-fastest order: the `i`-th
4-byte group (`data i`) is written to `(x + i mod w, y + (i div w) mod h,
z + i div (w*h))` — the `i`-th loop target is exactly that position, the
table built by the write loop holds `data i` there, and `mesh_blit` is that
loop followed by the empty-chunk sweep. -/
theorem C9_blit_order (s : MemState) (m : Mesh) (data : ℕ → RGBA)
    (x y z w h d : ℤ) (hwf : MWF s m) (i : ℕ)
    (hi : i < w.toNat * h.toNat * d.toNat) :
    (blitTriples w h d)[i]?
      = some ⟨Int.ofNat (i % w.toNat), Int.ofNat (i / w.toNat % h.toNat),
              Int.ofNat (i / (w.toNat * h.toNat))⟩ ∧
    (mesh_get_at
        (mesh_blit_go data x y z (blitTriples w h d) 0 s m accZero).1.1
        (mesh_blit_go data x y z (blitTriples w h d) 0 s m accZero).1.2
        ⟨x + Int.ofNat (i % w.toNat), y + Int.ofNat (i / w.toNat % h.toNat),
         z + Int.ofNat (i / (w.toNat * h.toNat))⟩ none).1 = data i ∧
    mesh_blit s m data x y z w h d none
      = mesh_remove_empty_blocks
          (mesh_blit_go data x y z (blitTriples w h d) 0 s m accZero).1.1
          (mesh_blit_go data x y z (blitTriples w h d) 0 s m accZero).1.2 := by
  have hw : 0 < w.toNat := by
    rcases Nat.eq_zero_or_pos w.toNat with h0 | h0
    · rw [h0] at hi
      simp at hi
    · exact h0
  have hh : 0 < h.toNat := by
    rcases Nat.eq_zero_or_pos h.toNat with h0 | h0
    · rw [h0] at hi
      simp at hi
    · exact h0
  have hL : i < (blitTriples w h d).length := by
    rw [blitTriples_length w h d hw hh,
      show d.toNat * (h.toNat * w.toNat) = w.toNat * h.toNat * d.toNat from by ring]
    exact hi
  have hacc0 : AccOk s m accZero := fun hf => absurd hf Bool.false_ne_true
  have hnd := blit_positions_nodup x y z w h d hw hh
  obtain ⟨iw, _, _⟩ := blit_go_char data x y z (blitTriples w h d) 0 s m accZero
    hwf hacc0 hnd
  refine ⟨?_, ?_, rfl⟩
  · rw [List.getElem?_eq_getElem hL]
    rw [show (blitTriples w h d)[i] = (blitTriples w h d).get ⟨i, hL⟩ from rfl]
    rw [blitTriples_get w h d hw hh i hL]
  · have hiw := iw i hL
    rw [blitTriples_get w h d hw hh i hL] at hiw
    dsimp only at hiw
    rw [Nat.zero_add] at hiw
    exact hiw

/-- Witness for `C9_blit_order`: a 1×1×1 blit on a fresh volume, group 0. -/
theorem C9_blit_order_witness :
    (blitTriples 1 1 1)[0]?
      = some ⟨Int.ofNat (0 % (1 : ℤ).toNat), Int.ofNat (0 / (1 : ℤ).toNat % (1 : ℤ).toNat),
              Int.ofNat (0 / ((1 : ℤ).toNat * (1 : ℤ).toNat))⟩ ∧
    (mesh_get_at
        (mesh_blit_go (fun _ => ⟨255, 255, 255, 255⟩) 0 0 0 (blitTriples 1 1 1) 0
          demo0.1 demo0.2 accZero).1.1
        (mesh_blit_go (fun _ => ⟨255, 255, 255, 255⟩) 0 0 0 (blitTriples 1 1 1) 0
          demo0.1 demo0.2 accZero).1.2
        ⟨0 + Int.ofNat (0 % (1 : ℤ).toNat), 0 + Int.ofNat (0 / (1 : ℤ).toNat % (1 : ℤ).toNat),
         0 + Int.ofNat (0 / ((1 : ℤ).toNat * (1 : ℤ).toNat))⟩ none).1
      = (fun _ => (⟨255, 255, 255, 255⟩ : RGBA)) 0 ∧
    mesh_blit demo0.1 demo0.2 (fun _ => ⟨255, 255, 255, 255⟩) 0 0 0 1 1 1 none
      = mesh_remove_empty_blocks
          (mesh_blit_go (fun _ => ⟨255, 255, 255, 255⟩) 0 0 0 (blitTriples 1 1 1) 0
            demo0.1 demo0.2 accZero).1.1
          (mesh_blit_go (fun _ => ⟨255, 255, 255, 255⟩) 0 0 0 (blitTriples 1 1 1) 0
            demo0.1 demo0.2 accZero).1.2 :=
  C9_blit_order demo0.1 demo0.2 (fun _ => ⟨255, 255, 255, 255⟩) 0 0 0 1 1 1
    (by decide) 0 (by decide)
